import Mathlib

/-!
# The software simulation core of Cascade (`SwLogic`)

A shallow embedding of `src/target/core/sw/sw_logic.cc`.

* The AST is an arena: a node is named by a `NodeId`, and the per-node
  decorations the interpreter mutates (`Node::active_`, `Node::ctrl_`) are
  kept in side tables of the interpreter state.
* The collaborators whose code lives outside `sw_logic.cc` (`Evaluate`,
  `Printf`, `Resolve`, `Monitor`, `ModuleInfo`) are parameters.
* `schedule_now` recurses through `accept`, and the drain loops of
  `evaluate`, `update` and `resync` may run forever, so both carry fuel.
-/

namespace cascade

abbrev NodeId := Nat

abbrev VId := Nat

/-- The number of values of a `size_t` (the type of `Node::ctrl_`). -/
def SIZE_MOD : Nat := 2 ^ 64

/-- The three kinds of `Event` (`Event::Type`). -/
inductive EventType where
  | EDGE
  | NEGEDGE
  | POSEDGE
  deriving DecidableEq, Repr

/-- The node variants `SwLogic` dispatches on. Children are node ids.
`Identifier` and `Expression` stand for the expression nodes, which `SwLogic`
does not override; a `NonblockingAssign` carries the `lhs` and `rhs` of its
`VariableAssign` (the only fields of it that `SwLogic` uses); a
`CaseStatement` carries, per item, the item's expressions and statement. -/
inductive Node where
  | Identifier
  | Expression
  | Event (type : EventType) (expr : NodeId)
  | AlwaysConstruct (stmt : NodeId)
  | InitialConstruct (ignore_attr : Option String) (stmt : NodeId)
  | ContinuousAssign (ctrl : Option NodeId) (assign : NodeId)
  | BlockingAssign (ctrl : Option NodeId) (assign : NodeId)
  | NonblockingAssign (ctrl : Option NodeId) (lhs rhs : NodeId)
  | ParBlock (stmts : List NodeId)
  | SeqBlock (stmts : List NodeId)
  | CaseStatement (cond : NodeId) (items : List (List NodeId × NodeId))
  | ConditionalStatement (cond then_stmt else_stmt : NodeId)
  | ForStatement (init cond update stmt : NodeId)
  | RepeatStatement (cond stmt : NodeId)
  | WhileStatement (cond stmt : NodeId)
  | TimingControlStatement (ctrl stmt : NodeId)
  | DisplayStatement (args : List NodeId)
  | FinishStatement (arg : NodeId)
  | WriteStatement (args : List NodeId)
  | WaitStatement (cond stmt : NodeId)
  | DelayControl
  | EventControl
  | VariableAssign (lhs rhs : NodeId)

/-- The source module as `SwLogic` sees it: the AST arena, the monitor sets
installed by `Monitor().init` at construction, the module items, the inputs
reported by `ModuleInfo(src_).inputs()`, and `Resolve().get_resolution`
(`none` is `nullptr`). -/
structure Module where
  node : NodeId → Node
  monitor_ : NodeId → List NodeId
  items : List NodeId
  inputs : List NodeId
  resolution : NodeId → Option NodeId

/-- The `Evaluate` collaborator over an abstract store `S` of values and an
abstract type `B` of `Bits`, together with `Printf().format`.
`assign_value_at` is the five-argument `assign_value(r, i, j, k, val)`. -/
structure Evaluate (S B : Type) where
  get_value : S → NodeId → B
  assign_value : S → NodeId → B → S
  assign_value_at : S → NodeId → Nat → Int → Int → B → S
  dereference : S → NodeId → NodeId → Nat × Int × Int
  get_array_value : S → NodeId → List B
  assign_array_value : S → NodeId → List B → S
  to_bool : B → Bool
  to_int : B → Nat
  format : S → List NodeId → String

/-- A call made on the host `Interface`. -/
inductive IfaceCall (B : Type) where
  | write_value (vid : VId) (val : B)
  | display (s : String)
  | write (s : String)
  | finish (code : Nat)

/-- A captured nonblocking assignment: the resolved target and its slot. -/
abbrev Target := NodeId × Nat × Int × Int

/-- The interpreter state: the fields of `SwLogic`, the evaluator's store,
the two node decorations, and the log of `Interface` calls.
`active_` is kept back first: the head of the list is `active_.back()`. -/
structure SwLogic (S B : Type) where
  store : S
  reads_ : List (Option NodeId)
  writes_ : List (NodeId × VId)
  state_ : List (VId × NodeId)
  silent_ : Bool
  there_were_tasks_ : Bool
  active_ : List NodeId
  updates_ : List Target
  update_pool_ : List B
  on_active : NodeId → Bool
  ctrl_ : NodeId → Nat
  iface : List (IfaceCall B)

/-- How a call ends: it returns, an `assert` fails, it does something the
source leaves undefined (a null or out-of-range access), or the fuel of the
model ran out. -/
inductive Outcome (α : Type) where
  | ok (a : α)
  | fatal
  | undefined
  | timeout

namespace Outcome

def bind {α β : Type} : Outcome α → (α → Outcome β) → Outcome β
  | ok a, f => f a
  | fatal, _ => fatal
  | undefined, _ => undefined
  | timeout, _ => timeout

def isOk {α : Type} : Outcome α → Bool
  | ok _ => true
  | _ => false

def get? {α : Type} : Outcome α → Option α
  | ok a => some a
  | _ => none

def getD {α : Type} : Outcome α → α → α
  | ok a, _ => a
  | _, d => d

end Outcome

/-- Modelled from the spec: the class `State` of a snapshot is declared
outside the sources at hand; the spec has a snapshot be a map from `VId` to
array values. It is kept as an association list, read by `State.find` and
filled by `State.insert`. -/
abbrev State (B : Type) := List (VId × List B)

section Interpreter

variable {S B : Type}

/-- Modelled from the spec: the lookup `State::find` of a snapshot, the value
bound to `v` if there is one. -/
def State.find (s : State B) (v : VId) : Option (List B) :=
  (List.find? (fun p => p.1 == v) s).map Prod.snd

/-- Modelled from the spec: the insertion `State::insert` of a snapshot; a key
already bound keeps its value. -/
def State.insert (s : State B) (v : VId) (a : List B) : State B :=
  if (State.find s v).isSome then s else s ++ [(v, a)]

/-- Modelled from the spec: the container of `state_` is declared in
`sw_logic.h`, outside the sources at hand, and `set_state` fills it with
`state_.insert(make_pair(vid, id))`. The spec has `state` be a mapping from
`VId` to identifier and says of `set_state` that it "inserts; collisions on `v`
overwrite": a key already bound is bound to the new identifier, where it stands,
and a key not yet bound is added at the end. The order of the list is the order
of registration; the order in which the container is walked is its own. -/
def state_insert (m : List (VId × NodeId)) (vid : VId) (id : NodeId) : List (VId × NodeId) :=
  if (m.find? (fun p => p.1 == vid)).isSome
  then m.map (fun p => if p.1 == vid then (vid, id) else p)
  else m ++ [(vid, id)]

/-- The identifier `state_` binds to `vid`, if any. -/
def state_lookup (m : List (VId × NodeId)) (vid : VId) : Option NodeId :=
  (m.find? (fun p => p.1 == vid)).map Prod.snd

/-- The resize `std::vector::resize(n, x)`. -/
def resize {α : Type} (l : List α) (n : Nat) (x : α) : List α :=
  l.take n ++ List.replicate (n - l.length) x

/-- The state the constructor leaves: empty tables and queue, a pool of one
value; `silent_` and `there_were_tasks_` are not set by the constructor. -/
def SwLogic.init [Inhabited B] (store : S) (silent tasks : Bool) : SwLogic S B :=
  { store := store, reads_ := [], writes_ := [], state_ := [],
    silent_ := silent, there_were_tasks_ := tasks, active_ := [],
    updates_ := [], update_pool_ := resize [] 1 default,
    on_active := fun _ => false, ctrl_ := fun _ => 0, iface := [] }

def set_read (id : NodeId) (vid : VId) (σ : SwLogic S B) : SwLogic S B :=
  let r := if vid ≥ σ.reads_.length then resize σ.reads_ (vid + 1) none else σ.reads_
  { σ with reads_ := List.set r vid (some id) }

def set_write (id : NodeId) (vid : VId) (σ : SwLogic S B) : SwLogic S B :=
  { σ with writes_ := σ.writes_ ++ [(id, vid)] }

/-- The registration `set_state(id, vid)`. -/
def set_state (id : NodeId) (vid : VId) (σ : SwLogic S B) : SwLogic S B :=
  { σ with state_ := state_insert σ.state_ vid id }

def get_state (E : Evaluate S B) (σ : SwLogic S B) : State B :=
  σ.state_.foldl (fun s sv => State.insert s sv.1 (E.get_array_value σ.store sv.2)) []

/-- The restore `set_state(const State*)`. -/
def set_state_from (E : Evaluate S B) (s : State B) (σ : SwLogic S B) : SwLogic S B :=
  let restore := fun (st : S) (sv : VId × NodeId) =>
    match State.find s sv.1 with
    | some a => E.assign_array_value st sv.2 a
    | none => st
  { σ with store := σ.state_.foldl restore σ.store }

def schedule_active (n : NodeId) (σ : SwLogic S B) : SwLogic S B :=
  if σ.on_active n then σ
  else { σ with active_ := n :: σ.active_,
                on_active := fun m => if m = n then true else σ.on_active m }

def notify (M : Module) (n : NodeId) (σ : SwLogic S B) : SwLogic S B :=
  (M.monitor_ n).foldl (fun s m => schedule_active m s) σ

/-- The write through the reference returned by `get_state(const Node*)`. -/
def set_ctrl (n : NodeId) (k : Nat) (σ : SwLogic S B) : SwLogic S B :=
  { σ with ctrl_ := fun m => if m = n then k else σ.ctrl_ m }

/-- A run of `schedule_now` calls, one per node of the list, in order. -/
def schedule_all (now : NodeId → SwLogic S B → Outcome (SwLogic S B)) :
    List NodeId → SwLogic S B → Outcome (SwLogic S B)
  | [], σ => .ok σ
  | n :: ns, σ => (now n σ).bind (schedule_all now ns)

def is_Identifier : Node → Bool
  | .Identifier => true
  | _ => false

def visit_Event (M : Module) (E : Evaluate S B) (e : NodeId) (type : EventType)
    (expr : NodeId) (σ : SwLogic S B) : Outcome (SwLogic S B) :=
  if is_Identifier (M.node expr) then
    match M.resolution expr with
    | none => .undefined
    | some r =>
      if type ≠ .NEGEDGE ∧ E.to_bool (E.get_value σ.store r) = true then
        .ok (notify M e σ)
      else if type ≠ .POSEDGE ∧ E.to_bool (E.get_value σ.store r) = false then
        .ok (notify M e σ)
      else .ok σ
  else .fatal

def visit_AlwaysConstruct (now : NodeId → SwLogic S B → Outcome (SwLogic S B))
    (stmt : NodeId) (σ : SwLogic S B) : Outcome (SwLogic S B) :=
  now stmt σ

def visit_InitialConstruct (ign : Option String) (stmt : NodeId) (σ : SwLogic S B) :
    Outcome (SwLogic S B) :=
  if ign = none ∨ ign ≠ some "true" then .ok (schedule_active stmt σ) else .ok σ

def visit_ContinuousAssign (now : NodeId → SwLogic S B → Outcome (SwLogic S B))
    (ctrl : Option NodeId) (assign : NodeId) (σ : SwLogic S B) : Outcome (SwLogic S B) :=
  if ctrl.isSome then .fatal else now assign σ

def visit_BlockingAssign (M : Module) (now : NodeId → SwLogic S B → Outcome (SwLogic S B))
    (ba : NodeId) (ctrl : Option NodeId) (assign : NodeId) (σ : SwLogic S B) :
    Outcome (SwLogic S B) :=
  if ctrl.isSome then .fatal
  else (now assign σ).bind (fun σ1 => .ok (notify M ba σ1))

/-- The pool after `if (idx >= update_pool_.size()) update_pool_.resize(...)`. -/
def grown_pool [Inhabited B] (σ : SwLogic S B) : List B :=
  if σ.updates_.length ≥ σ.update_pool_.length
  then resize σ.update_pool_ (2 * σ.update_pool_.length) default
  else σ.update_pool_

/-- The capture of a nonblocking assignment into `updates_` and `update_pool_`
(the body of the `if (!silent_)` of `visit(const NonblockingAssign*)` after
the resolution has been found). -/
def capture [Inhabited B] (E : Evaluate S B) (r lhs rhs : NodeId) (σ : SwLogic S B) :
    Outcome (SwLogic S B) :=
  let target := E.dereference σ.store r lhs
  let res := E.get_value σ.store rhs
  let idx := σ.updates_.length
  let pool := grown_pool σ
  if idx < pool.length then
    .ok { σ with updates_ := σ.updates_ ++ [(r, target.1, target.2.1, target.2.2)],
                 update_pool_ := List.set pool idx res }
  else .undefined

def visit_NonblockingAssign [Inhabited B] (M : Module) (E : Evaluate S B) (na : NodeId)
    (ctrl : Option NodeId) (lhs rhs : NodeId) (σ : SwLogic S B) : Outcome (SwLogic S B) :=
  if ctrl.isSome then .fatal
  else if σ.silent_ = false then
    match M.resolution lhs with
    | none => .fatal
    | some r => (capture E r lhs rhs σ).bind (fun σ1 => .ok (notify M na σ1))
  else .ok (notify M na σ)

def visit_ParBlock (M : Module) (now : NodeId → SwLogic S B → Outcome (SwLogic S B))
    (pb : NodeId) (stmts : List NodeId) (σ : SwLogic S B) : Outcome (SwLogic S B) :=
  if σ.ctrl_ pb = 0 then
    schedule_all now stmts (set_ctrl pb stmts.length σ)
  else
    let σ1 := set_ctrl pb (σ.ctrl_ pb - 1) σ
    if σ1.ctrl_ pb = 0 then .ok (notify M pb σ1) else .ok σ1

def visit_SeqBlock (M : Module) (now : NodeId → SwLogic S B → Outcome (SwLogic S B))
    (sb : NodeId) (stmts : List NodeId) (σ : SwLogic S B) : Outcome (SwLogic S B) :=
  match stmts[σ.ctrl_ sb]? with
  | some item => now item (set_ctrl sb (σ.ctrl_ sb + 1) σ)
  | none => .ok (notify M sb (set_ctrl sb 0 σ))

/-- The scan of the items of a case statement: the statement of the first
item that either lists an expression equal to the selector `s` or, having
reached it without a match before, lists no expression at all. -/
def select_item (E : Evaluate S B) (store : S) (s : Nat) :
    List (List NodeId × NodeId) → Option NodeId
  | [] => none
  | ci :: cis =>
    if ci.1.any (fun e => s == E.to_int (E.get_value store e)) then some ci.2
    else if ci.1.isEmpty then some ci.2
    else select_item E store s cis

def visit_CaseStatement (M : Module) (E : Evaluate S B)
    (now : NodeId → SwLogic S B → Outcome (SwLogic S B))
    (cs : NodeId) (cond : NodeId) (items : List (List NodeId × NodeId))
    (σ : SwLogic S B) : Outcome (SwLogic S B) :=
  if σ.ctrl_ cs = 0 then
    let σ1 := set_ctrl cs 1 σ
    match select_item E σ1.store (E.to_int (E.get_value σ1.store cond)) items with
    | some stmt => now stmt σ1
    | none => .fatal
  else .ok (notify M cs (set_ctrl cs 0 σ))

def visit_ConditionalStatement (M : Module) (E : Evaluate S B)
    (now : NodeId → SwLogic S B → Outcome (SwLogic S B))
    (cs : NodeId) (cond then_stmt else_stmt : NodeId) (σ : SwLogic S B) :
    Outcome (SwLogic S B) :=
  if σ.ctrl_ cs = 0 then
    let σ1 := set_ctrl cs 1 σ
    if E.to_bool (E.get_value σ1.store cond) then now then_stmt σ1 else now else_stmt σ1
  else .ok (notify M cs (set_ctrl cs 0 σ))

/-- The `case 1` arm of `visit(const ForStatement*)`, which `case 0` falls
through to. -/
def for_test (M : Module) (E : Evaluate S B)
    (now : NodeId → SwLogic S B → Outcome (SwLogic S B))
    (fs : NodeId) (cond stmt : NodeId) (σ : SwLogic S B) : Outcome (SwLogic S B) :=
  if E.to_bool (E.get_value σ.store cond) = false then .ok (notify M fs (set_ctrl fs 0 σ))
  else now stmt (set_ctrl fs 2 σ)

def visit_ForStatement (M : Module) (E : Evaluate S B)
    (now : NodeId → SwLogic S B → Outcome (SwLogic S B))
    (fs : NodeId) (init cond update stmt : NodeId) (σ : SwLogic S B) :
    Outcome (SwLogic S B) :=
  if σ.ctrl_ fs = 0 then
    (now init (set_ctrl fs 1 σ)).bind (for_test M E now fs cond stmt)
  else if σ.ctrl_ fs = 1 then for_test M E now fs cond stmt σ
  else (now update (set_ctrl fs 1 σ)).bind (now fs)

def visit_RepeatStatement (M : Module) (E : Evaluate S B)
    (now : NodeId → SwLogic S B → Outcome (SwLogic S B))
    (rs : NodeId) (cond stmt : NodeId) (σ : SwLogic S B) : Outcome (SwLogic S B) :=
  let σ1 := if σ.ctrl_ rs = 0
    then set_ctrl rs ((E.to_int (E.get_value σ.store cond) + 1) % SIZE_MOD) σ
    else σ
  let σ2 := set_ctrl rs ((σ1.ctrl_ rs + SIZE_MOD - 1) % SIZE_MOD) σ1
  if σ2.ctrl_ rs = 0 then .ok (notify M rs σ2) else now stmt σ2

def visit_WhileStatement (M : Module) (E : Evaluate S B)
    (now : NodeId → SwLogic S B → Outcome (SwLogic S B))
    (ws : NodeId) (cond stmt : NodeId) (σ : SwLogic S B) : Outcome (SwLogic S B) :=
  if E.to_bool (E.get_value σ.store cond) = false then .ok (notify M ws σ)
  else now stmt σ

def visit_TimingControlStatement (M : Module)
    (now : NodeId → SwLogic S B → Outcome (SwLogic S B))
    (tcs : NodeId) (stmt : NodeId) (σ : SwLogic S B) : Outcome (SwLogic S B) :=
  if σ.ctrl_ tcs = 0 then .ok (set_ctrl tcs 1 σ)
  else if σ.ctrl_ tcs = 1 then now stmt (set_ctrl tcs 2 σ)
  else .ok (notify M tcs (set_ctrl tcs 0 σ))

/-- A system task: the `Interface` call is logged and `there_were_tasks_` set. -/
def task (c : IfaceCall B) (σ : SwLogic S B) : SwLogic S B :=
  { σ with iface := σ.iface ++ [c], there_were_tasks_ := true }

def visit_DisplayStatement (M : Module) (E : Evaluate S B) (ds : NodeId)
    (args : List NodeId) (σ : SwLogic S B) : Outcome (SwLogic S B) :=
  if σ.silent_ = false then .ok (notify M ds (task (.display (E.format σ.store args)) σ))
  else .ok (notify M ds σ)

def visit_FinishStatement (M : Module) (E : Evaluate S B) (fs : NodeId)
    (arg : NodeId) (σ : SwLogic S B) : Outcome (SwLogic S B) :=
  if σ.silent_ = false then
    .ok (notify M fs (task (.finish (E.to_int (E.get_value σ.store arg))) σ))
  else .ok (notify M fs σ)

def visit_WriteStatement (M : Module) (E : Evaluate S B) (ws : NodeId)
    (args : List NodeId) (σ : SwLogic S B) : Outcome (SwLogic S B) :=
  if σ.silent_ = false then .ok (notify M ws (task (.write (E.format σ.store args)) σ))
  else .ok (notify M ws σ)

def visit_WaitStatement (M : Module) (E : Evaluate S B)
    (now : NodeId → SwLogic S B → Outcome (SwLogic S B))
    (ws : NodeId) (cond stmt : NodeId) (σ : SwLogic S B) : Outcome (SwLogic S B) :=
  if σ.ctrl_ ws = 0 then
    if E.to_bool (E.get_value σ.store cond) = false then .ok σ
    else now stmt (set_ctrl ws 1 σ)
  else .ok (notify M ws (set_ctrl ws 0 σ))

def visit_DelayControl (_σ : SwLogic S B) : Outcome (SwLogic S B) :=
  .fatal

def visit_EventControl (M : Module) (ec : NodeId) (σ : SwLogic S B) : Outcome (SwLogic S B) :=
  .ok (notify M ec σ)

def visit_VariableAssign (M : Module) (E : Evaluate S B) (lhs rhs : NodeId)
    (σ : SwLogic S B) : Outcome (SwLogic S B) :=
  let σ1 := { σ with store := E.assign_value σ.store lhs (E.get_value σ.store rhs) }
  match M.resolution lhs with
  | none => .undefined
  | some r => .ok (notify M r σ1)

/-- The dispatch `schedule_now(n)`: `n->accept(this)` selects the `visit`
overload of the node's variant; the nested `schedule_now` calls run with
one unit of fuel less. The expression nodes have no overload in `SwLogic`
and leave the interpreter untouched. -/
def schedule_now [Inhabited B] (M : Module) (E : Evaluate S B) :
    Nat → NodeId → SwLogic S B → Outcome (SwLogic S B)
  | 0, _, _ => .timeout
  | fuel + 1, n, σ =>
    match M.node n with
    | .Identifier => .ok σ
    | .Expression => .ok σ
    | .Event type expr => visit_Event M E n type expr σ
    | .AlwaysConstruct stmt => visit_AlwaysConstruct (schedule_now M E fuel) stmt σ
    | .InitialConstruct ign stmt => visit_InitialConstruct ign stmt σ
    | .ContinuousAssign ctrl assign =>
      visit_ContinuousAssign (schedule_now M E fuel) ctrl assign σ
    | .BlockingAssign ctrl assign =>
      visit_BlockingAssign M (schedule_now M E fuel) n ctrl assign σ
    | .NonblockingAssign ctrl lhs rhs => visit_NonblockingAssign M E n ctrl lhs rhs σ
    | .ParBlock stmts => visit_ParBlock M (schedule_now M E fuel) n stmts σ
    | .SeqBlock stmts => visit_SeqBlock M (schedule_now M E fuel) n stmts σ
    | .CaseStatement cond items =>
      visit_CaseStatement M E (schedule_now M E fuel) n cond items σ
    | .ConditionalStatement cond t e =>
      visit_ConditionalStatement M E (schedule_now M E fuel) n cond t e σ
    | .ForStatement init cond update stmt =>
      visit_ForStatement M E (schedule_now M E fuel) n init cond update stmt σ
    | .RepeatStatement cond stmt =>
      visit_RepeatStatement M E (schedule_now M E fuel) n cond stmt σ
    | .WhileStatement cond stmt =>
      visit_WhileStatement M E (schedule_now M E fuel) n cond stmt σ
    | .TimingControlStatement _ stmt =>
      visit_TimingControlStatement M (schedule_now M E fuel) n stmt σ
    | .DisplayStatement args => visit_DisplayStatement M E n args σ
    | .FinishStatement arg => visit_FinishStatement M E n arg σ
    | .WriteStatement args => visit_WriteStatement M E n args σ
    | .WaitStatement cond stmt =>
      visit_WaitStatement M E (schedule_now M E fuel) n cond stmt σ
    | .DelayControl => visit_DelayControl σ
    | .EventControl => visit_EventControl M n σ
    | .VariableAssign lhs rhs => visit_VariableAssign M E lhs rhs σ

/-- The drain loop shared by `evaluate`, `update` and `resync`:
pop the back of `active_`, clear the node's flag, `schedule_now` it. -/
def drain [Inhabited B] (M : Module) (E : Evaluate S B) :
    Nat → SwLogic S B → Outcome (SwLogic S B)
  | 0, _ => .timeout
  | fuel + 1, σ =>
    match σ.active_ with
    | [] => .ok σ
    | e :: rest =>
      (schedule_now M E fuel e
        { σ with active_ := rest,
                 on_active := fun m => if m = e then false else σ.on_active m }).bind
        (drain M E fuel)

/-- The output loop at the end of `evaluate` and `update`. -/
def write_outputs (E : Evaluate S B) (σ : SwLogic S B) : SwLogic S B :=
  σ.writes_.foldl
    (fun s o => { s with iface := s.iface ++ [.write_value o.2 (E.get_value s.store o.1)] }) σ

def read (M : Module) (E : Evaluate S B) (vid : VId) (b : B) (σ : SwLogic S B) :
    Outcome (SwLogic S B) :=
  match σ.reads_[vid]? with
  | some (some id) => .ok (notify M id { σ with store := E.assign_value σ.store id b })
  | _ => .undefined

def evaluate [Inhabited B] (M : Module) (E : Evaluate S B) (fuel : Nat) (σ : SwLogic S B) :
    Outcome (SwLogic S B) :=
  (drain M E fuel { σ with there_were_tasks_ := false }).bind
    (fun σ1 => .ok (write_outputs E σ1))

def there_are_updates (σ : SwLogic S B) : Bool :=
  !σ.updates_.isEmpty

/-- The `for` loop of `update`, from index `i`, with `todo` iterations left. -/
def flush_loop (M : Module) (E : Evaluate S B) :
    Nat → Nat → SwLogic S B → Outcome (SwLogic S B)
  | _, 0, σ => .ok σ
  | i, todo + 1, σ =>
    match σ.updates_[i]?, σ.update_pool_[i]? with
    | some u, some val =>
      flush_loop M E (i + 1) todo
        (notify M u.1
          { σ with store := E.assign_value_at σ.store u.1 u.2.1 u.2.2.1 u.2.2.2 val })
    | _, _ => .undefined

/-- The first part of `update`: the flush loop and `updates_.clear()`. -/
def update_flush (M : Module) (E : Evaluate S B) (σ : SwLogic S B) : Outcome (SwLogic S B) :=
  (flush_loop M E 0 σ.updates_.length σ).bind (fun σ1 => .ok { σ1 with updates_ := [] })

def update [Inhabited B] (M : Module) (E : Evaluate S B) (fuel : Nat) (σ : SwLogic S B) :
    Outcome (SwLogic S B) :=
  (update_flush M E σ).bind (fun σ1 =>
    (drain M E fuel { σ1 with there_were_tasks_ := false }).bind
      (fun σ2 => .ok (write_outputs E σ2)))

def there_were_tasks (σ : SwLogic S B) : Bool :=
  σ.there_were_tasks_

def is_always_or_continuous : Node → Bool
  | .AlwaysConstruct _ => true
  | .ContinuousAssign _ _ => true
  | _ => false

def is_InitialConstruct : Node → Bool
  | .InitialConstruct _ _ => true
  | _ => false

/-- The silent drain of `resync`, between `silent_ = true` and `silent_ = false`. -/
def resync_drain [Inhabited B] (M : Module) (E : Evaluate S B) (fuel : Nat)
    (σ : SwLogic S B) : Outcome (SwLogic S B) :=
  (drain M E fuel { σ with silent_ := true }).bind
    (fun σ1 => .ok { σ1 with silent_ := false })

def resync [Inhabited B] (M : Module) (E : Evaluate S B) (fuel : Nat) (σ : SwLogic S B) :
    Outcome (SwLogic S B) :=
  (schedule_all (schedule_now M E fuel)
      (M.items.filter (fun mi => is_always_or_continuous (M.node mi))) σ).bind (fun σ1 =>
    (resync_drain M E fuel (M.inputs.foldl (fun s l => notify M l s) σ1)).bind (fun σ2 =>
      schedule_all (schedule_now M E fuel)
        (M.items.filter (fun mi => is_InitialConstruct (M.node mi))) σ2))

/-- The public operations of `SwLogic` that change the interpreter. -/
inductive Op (B : Type) where
  | set_read (id : NodeId) (vid : VId)
  | set_write (id : NodeId) (vid : VId)
  | set_state (id : NodeId) (vid : VId)
  | set_state_from (s : State B)
  | read (vid : VId) (b : B)
  | evaluate
  | update
  | resync

def Op.run [Inhabited B] (M : Module) (E : Evaluate S B) (fuel : Nat) :
    Op B → SwLogic S B → Outcome (SwLogic S B)
  | .set_read id vid, σ => .ok (cascade.set_read id vid σ)
  | .set_write id vid, σ => .ok (cascade.set_write id vid σ)
  | .set_state id vid, σ => .ok (cascade.set_state id vid σ)
  | .set_state_from s, σ => .ok (cascade.set_state_from E s σ)
  | .read vid b, σ => cascade.read M E vid b σ
  | .evaluate, σ => cascade.evaluate M E fuel σ
  | .update, σ => cascade.update M E fuel σ
  | .resync, σ => cascade.resync M E fuel σ

/-- A sequence of public operations, run one after the other. -/
def run_ops [Inhabited B] (M : Module) (E : Evaluate S B) (fuel : Nat) :
    List (Op B) → SwLogic S B → Outcome (SwLogic S B)
  | [], σ => .ok σ
  | op :: ops, σ => (op.run M E fuel σ).bind (run_ops M E fuel ops)

/-- The queue invariant: a node's flag is set exactly when the node is in
`active_`, and no node is in `active_` twice. -/
def QueueInv (σ : SwLogic S B) : Prop :=
  (∀ n, σ.on_active n = true ↔ n ∈ σ.active_) ∧ σ.active_.Nodup

/-- The entries of `updates_` are kept, in place, by whatever runs next. -/
def KeepsUpdates (l : List Target) (σ : SwLogic S B) : Prop :=
  ∃ l1, σ.updates_ = l ++ l1

/-- The flush of one entry as the spec words it: deposit the captured value
in its target slot, then notify the target's resolved identifier. -/
def flush_entry (M : Module) (E : Evaluate S B) (σ : SwLogic S B) (e : Target × B) :
    SwLogic S B :=
  notify M e.1.1
    { σ with store := E.assign_value_at σ.store e.1.1 e.1.2.1 e.1.2.2.1 e.1.2.2.2 e.2 }

/-- The captured entries with their values, in capture order. -/
def pending (σ : SwLogic S B) : List (Target × B) :=
  σ.updates_.zip σ.update_pool_

/-- The flush as the spec words it: the entries one after the other, in
capture order. -/
def flush_in_order (M : Module) (E : Evaluate S B) (σ : SwLogic S B) : SwLogic S B :=
  (pending σ).foldl (flush_entry M E) σ

/-- Entry `i` of the update buffer is the target `u`, with the value `v` in
the pool. -/
def Pending (i : Nat) (u : Target) (v : B) (σ : SwLogic S B) : Prop :=
  σ.updates_[i]? = some u ∧ σ.update_pool_[i]? = some v

/-- The pool is not empty and has a slot for every entry of the buffer. -/
def PoolCovers (σ : SwLogic S B) : Prop :=
  0 < σ.update_pool_.length ∧ σ.updates_.length ≤ σ.update_pool_.length

/-- A property of the interpreter state that every primitive step of a visit
keeps: scheduling a node, moving a `ctrl_` cursor, changing the evaluator's
store, capturing a nonblocking assignment, running a system task. -/
structure StepClosed [Inhabited B] (E : Evaluate S B) (P : SwLogic S B → Prop) : Prop where
  sched : ∀ σ n, P σ → P (schedule_active n σ)
  ctrl : ∀ σ n k, P σ → P (set_ctrl n k σ)
  store : ∀ (σ : SwLogic S B) (s : S), P σ → P { σ with store := s }
  capture : ∀ σ r lhs rhs σ1, P σ → σ.silent_ = false →
    capture E r lhs rhs σ = .ok σ1 → P σ1
  task : ∀ σ c, P σ → σ.silent_ = false → P (task c σ)

/-- A property that, besides the primitive steps of a visit, the bookkeeping
of the public cycle operations keeps: the pop of the drain loop, the writes to
`there_were_tasks_` and `silent_`, the log of `Interface` calls, and
`updates_.clear()`. -/
structure CycleClosed [Inhabited B] (E : Evaluate S B) (P : SwLogic S B → Prop)
    extends StepClosed E P : Prop where
  pop : ∀ (σ : SwLogic S B) e rest, P σ → σ.active_ = e :: rest →
    P { σ with active_ := rest,
               on_active := fun m => if m = e then false else σ.on_active m }
  tasks : ∀ (σ : SwLogic S B) (b : Bool), P σ → P { σ with there_were_tasks_ := b }
  silent : ∀ (σ : SwLogic S B) (b : Bool), P σ → P { σ with silent_ := b }
  log : ∀ (σ : SwLogic S B) (l : List (IfaceCall B)), P σ → P { σ with iface := l }
  clear : ∀ (σ : SwLogic S B), P σ → P { σ with updates_ := [] }

/-- Input `v` is registered: `reads_[v]` is in range and not null. -/
def RegisteredRead (v : VId) (σ : SwLogic S B) : Prop :=
  ∃ id, σ.reads_[v]? = some (some id)

/-- Two interpreter states with the same evaluator values, the same `ctrl_`
cursors, the same flags and the same active queue. -/
def SameControl (σ τ : SwLogic S B) : Prop :=
  σ.store = τ.store ∧ σ.ctrl_ = τ.ctrl_ ∧ σ.on_active = τ.on_active ∧ σ.active_ = τ.active_

/-- The state `σ` is in silent mode and agrees with `τ` on values, cursors,
flags and queue. -/
def Shadows (σ τ : SwLogic S B) : Prop :=
  SameControl σ τ ∧ σ.silent_ = true

/-- An assignment that carries a timing control (`!get_ctrl()->null()`). -/
def has_timing_control : Node → Bool
  | .ContinuousAssign (some _) _ => true
  | .BlockingAssign (some _) _ => true
  | .NonblockingAssign (some _) _ _ => true
  | _ => false

/-- The node variants whose visit looks at `silent_`. -/
def is_silenced : Node → Bool
  | .NonblockingAssign _ _ _ => true
  | .DisplayStatement _ => true
  | .WriteStatement _ => true
  | .FinishStatement _ => true
  | _ => false

end Interpreter

/-! ## A small module to run the interpreter on

Two flip-flops in a chain and an initial block:
`always @(posedge clk) q <= d; always @(posedge q) r <= q; initial $display(q);`
with `clk` = 0, `d` = 1, `q` = 2, `r` = 12. -/

/-- A store of array values per identifier; the value of an identifier is
the first element of its array. -/
abbrev DemoStore := NodeId → List Nat

def demo_put (s : DemoStore) (id : NodeId) (a : List Nat) : DemoStore :=
  fun m => if m = id then a else s m

def demo_eval : Evaluate DemoStore Nat where
  get_value s e := (s e).headD 0
  assign_value s id v := demo_put s id [v]
  assign_value_at s r i _ _ v := demo_put s r (List.set (s r) i v)
  dereference _ _ _ := (0, 0, 0)
  get_array_value s id := s id
  assign_array_value s id a := demo_put s id a
  to_bool b := b != 0
  to_int b := b
  format s args := toString (args.map (fun e => (s e).headD 0))

def demo_node : NodeId → Node
  | 3 => .AlwaysConstruct 4
  | 4 => .TimingControlStatement 5 7
  | 5 => .EventControl
  | 6 => .Event .POSEDGE 0
  | 7 => .NonblockingAssign none 2 1
  | 8 => .InitialConstruct none 9
  | 9 => .DisplayStatement [2]
  | 13 => .AlwaysConstruct 14
  | 14 => .TimingControlStatement 15 17
  | 15 => .EventControl
  | 16 => .Event .POSEDGE 2
  | 17 => .NonblockingAssign none 12 2
  | 20 => .NonblockingAssign none 21 1
  | _ => .Identifier

def demo_monitor : NodeId → List NodeId
  | 0 => [6]
  | 6 => [5]
  | 5 => [4]
  | 7 => [4]
  | 4 => [3]
  | 2 => [16]
  | 16 => [15]
  | 15 => [14]
  | 17 => [14]
  | 14 => [13]
  | 20 => [4]
  | _ => []

def demo_module : Module where
  node := demo_node
  monitor_ := demo_monitor
  items := [3, 13, 8]
  inputs := [0, 1]
  resolution := fun n => if n = 21 then none else some n

def demo_init : SwLogic DemoStore Nat :=
  SwLogic.init (fun _ => [0]) false false

/-- Registration, resync, then the inputs `d = 1` and `clk = 1`. -/
def demo_setup : List (Op Nat) :=
  [.set_read 0 0, .set_read 1 1, .set_write 2 0, .set_state 2 0, .set_state 12 1,
   .resync, .read 1 1, .read 0 1]

/-- The interpreter after `demo_setup`. -/
def demo_ready : SwLogic DemoStore Nat :=
  (run_ops demo_module demo_eval 20 demo_setup demo_init).getD demo_init

/-- The interpreter after `demo_setup` and `evaluate()`. -/
def demo_evaluated : SwLogic DemoStore Nat :=
  (evaluate demo_module demo_eval 20 demo_ready).getD demo_init

/-- The interpreter after `demo_setup`, `evaluate()` and `update()`. -/
def demo_updated : SwLogic DemoStore Nat :=
  (update demo_module demo_eval 20 demo_evaluated).getD demo_init

/-- A fresh interpreter in which the array of identifier `n` is `[n]`. -/
def demo_numbered : SwLogic DemoStore Nat :=
  SwLogic.init (fun n => [n]) false false

/-- The identifier `q` registered as state under the `VId`s 0 and 1. -/
def demo_aliased : SwLogic DemoStore Nat :=
  set_state 2 1 (set_state 2 0 demo_numbered)

/-- The identifiers `q` and then `r` registered as state under the `VId` 0. -/
def demo_collided : SwLogic DemoStore Nat :=
  set_state 12 0 (set_state 2 0 demo_numbered)

/-- Two captured assignments to the same slot of `q`: 5 first, then 7. -/
def demo_twice : SwLogic DemoStore Nat :=
  { demo_init with updates_ := [(2, 0, 0, 0), (2, 0, 0, 0)], update_pool_ := [5, 7] }

/-! ## Definitions for the statement interpreter -/

section Statements

variable {S B : Type}

/-- An item of a case statement that is selected by the selector value `s`
as the spec words it: it lists an expression whose value equals `s`. -/
def item_matches (E : Evaluate S B) (store : S) (s : Nat) (ci : List NodeId × NodeId) : Bool :=
  ci.1.any (fun e => s == E.to_int (E.get_value store e))

/-- The fatal conditions of a single visit as the spec words them: an
assignment with a timing control, a nonblocking assignment in non-silent mode
whose left-hand side has no resolution, a delay control, an event on something
other than an identifier, a case statement at `ctrl` 0 with neither a matching
item nor a default item. -/
def aborts (M : Module) (E : Evaluate S B) (n : NodeId) (σ : SwLogic S B) : Bool :=
  match M.node n with
  | .ContinuousAssign ctrl _ => ctrl.isSome
  | .BlockingAssign ctrl _ => ctrl.isSome
  | .NonblockingAssign ctrl lhs _ =>
    ctrl.isSome || (σ.silent_ == false && (M.resolution lhs).isNone)
  | .DelayControl => true
  | .Event _ expr => !is_Identifier (M.node expr)
  | .CaseStatement cond items =>
    σ.ctrl_ n == 0 &&
      !items.any (fun ci =>
        item_matches E σ.store (E.to_int (E.get_value σ.store cond)) ci || ci.1.isEmpty)
  | _ => false

/-! The visits of the nodes that notify themselves, with the notify left open:
`ntf n` stands for `notify(n)`, as `now n` stands for `schedule_now(n)`.
`schedule_now` runs them with `notify M`. -/

def visit_Event_with (M : Module) (E : Evaluate S B)
    (ntf : NodeId → SwLogic S B → SwLogic S B) (e : NodeId) (type : EventType)
    (expr : NodeId) (σ : SwLogic S B) : Outcome (SwLogic S B) :=
  if is_Identifier (M.node expr) then
    match M.resolution expr with
    | none => .undefined
    | some r =>
      if type ≠ .NEGEDGE ∧ E.to_bool (E.get_value σ.store r) = true then
        .ok (ntf e σ)
      else if type ≠ .POSEDGE ∧ E.to_bool (E.get_value σ.store r) = false then
        .ok (ntf e σ)
      else .ok σ
  else .fatal

def visit_ParBlock_with (ntf : NodeId → SwLogic S B → SwLogic S B)
    (now : NodeId → SwLogic S B → Outcome (SwLogic S B))
    (pb : NodeId) (stmts : List NodeId) (σ : SwLogic S B) : Outcome (SwLogic S B) :=
  if σ.ctrl_ pb = 0 then
    schedule_all now stmts (set_ctrl pb stmts.length σ)
  else
    let σ1 := set_ctrl pb (σ.ctrl_ pb - 1) σ
    if σ1.ctrl_ pb = 0 then .ok (ntf pb σ1) else .ok σ1

def visit_SeqBlock_with (ntf : NodeId → SwLogic S B → SwLogic S B)
    (now : NodeId → SwLogic S B → Outcome (SwLogic S B))
    (sb : NodeId) (stmts : List NodeId) (σ : SwLogic S B) : Outcome (SwLogic S B) :=
  match stmts[σ.ctrl_ sb]? with
  | some item => now item (set_ctrl sb (σ.ctrl_ sb + 1) σ)
  | none => .ok (ntf sb (set_ctrl sb 0 σ))

def visit_CaseStatement_with (E : Evaluate S B) (ntf : NodeId → SwLogic S B → SwLogic S B)
    (now : NodeId → SwLogic S B → Outcome (SwLogic S B))
    (cs : NodeId) (cond : NodeId) (items : List (List NodeId × NodeId))
    (σ : SwLogic S B) : Outcome (SwLogic S B) :=
  if σ.ctrl_ cs = 0 then
    let σ1 := set_ctrl cs 1 σ
    match select_item E σ1.store (E.to_int (E.get_value σ1.store cond)) items with
    | some stmt => now stmt σ1
    | none => .fatal
  else .ok (ntf cs (set_ctrl cs 0 σ))

def visit_ConditionalStatement_with (E : Evaluate S B)
    (ntf : NodeId → SwLogic S B → SwLogic S B)
    (now : NodeId → SwLogic S B → Outcome (SwLogic S B))
    (cs : NodeId) (cond then_stmt else_stmt : NodeId) (σ : SwLogic S B) :
    Outcome (SwLogic S B) :=
  if σ.ctrl_ cs = 0 then
    let σ1 := set_ctrl cs 1 σ
    if E.to_bool (E.get_value σ1.store cond) then now then_stmt σ1 else now else_stmt σ1
  else .ok (ntf cs (set_ctrl cs 0 σ))

def for_test_with (E : Evaluate S B) (ntf : NodeId → SwLogic S B → SwLogic S B)
    (now : NodeId → SwLogic S B → Outcome (SwLogic S B))
    (fs : NodeId) (cond stmt : NodeId) (σ : SwLogic S B) : Outcome (SwLogic S B) :=
  if E.to_bool (E.get_value σ.store cond) = false then .ok (ntf fs (set_ctrl fs 0 σ))
  else now stmt (set_ctrl fs 2 σ)

def visit_ForStatement_with (E : Evaluate S B) (ntf : NodeId → SwLogic S B → SwLogic S B)
    (now : NodeId → SwLogic S B → Outcome (SwLogic S B))
    (fs : NodeId) (init cond update stmt : NodeId) (σ : SwLogic S B) :
    Outcome (SwLogic S B) :=
  if σ.ctrl_ fs = 0 then
    (now init (set_ctrl fs 1 σ)).bind (for_test_with E ntf now fs cond stmt)
  else if σ.ctrl_ fs = 1 then for_test_with E ntf now fs cond stmt σ
  else (now update (set_ctrl fs 1 σ)).bind (now fs)

def visit_RepeatStatement_with (E : Evaluate S B) (ntf : NodeId → SwLogic S B → SwLogic S B)
    (now : NodeId → SwLogic S B → Outcome (SwLogic S B))
    (rs : NodeId) (cond stmt : NodeId) (σ : SwLogic S B) : Outcome (SwLogic S B) :=
  let σ1 := if σ.ctrl_ rs = 0
    then set_ctrl rs ((E.to_int (E.get_value σ.store cond) + 1) % SIZE_MOD) σ
    else σ
  let σ2 := set_ctrl rs ((σ1.ctrl_ rs + SIZE_MOD - 1) % SIZE_MOD) σ1
  if σ2.ctrl_ rs = 0 then .ok (ntf rs σ2) else now stmt σ2

def visit_TimingControlStatement_with (ntf : NodeId → SwLogic S B → SwLogic S B)
    (now : NodeId → SwLogic S B → Outcome (SwLogic S B))
    (tcs : NodeId) (stmt : NodeId) (σ : SwLogic S B) : Outcome (SwLogic S B) :=
  if σ.ctrl_ tcs = 0 then .ok (set_ctrl tcs 1 σ)
  else if σ.ctrl_ tcs = 1 then now stmt (set_ctrl tcs 2 σ)
  else .ok (ntf tcs (set_ctrl tcs 0 σ))

def visit_WaitStatement_with (E : Evaluate S B) (ntf : NodeId → SwLogic S B → SwLogic S B)
    (now : NodeId → SwLogic S B → Outcome (SwLogic S B))
    (ws : NodeId) (cond stmt : NodeId) (σ : SwLogic S B) : Outcome (SwLogic S B) :=
  if σ.ctrl_ ws = 0 then
    if E.to_bool (E.get_value σ.store cond) = false then .ok σ
    else now stmt (set_ctrl ws 1 σ)
  else .ok (ntf ws (set_ctrl ws 0 σ))

/-- The statements with a `ctrl_` cursor that notify themselves on completion. -/
def is_block : Node → Bool
  | .ParBlock _ => true
  | .SeqBlock _ => true
  | .CaseStatement _ _ => true
  | .ConditionalStatement _ _ _ => true
  | .ForStatement _ _ _ _ => true
  | .RepeatStatement _ _ => true
  | .TimingControlStatement _ _ => true
  | .WaitStatement _ _ => true
  | _ => false

/-- The visit of a statement with a cursor, with the notify left open; the
other nodes are not its business. -/
def visit_block (M : Module) (E : Evaluate S B) (ntf : NodeId → SwLogic S B → SwLogic S B)
    (now : NodeId → SwLogic S B → Outcome (SwLogic S B)) (n : NodeId) (σ : SwLogic S B) :
    Outcome (SwLogic S B) :=
  match M.node n with
  | .ParBlock stmts => visit_ParBlock_with ntf now n stmts σ
  | .SeqBlock stmts => visit_SeqBlock_with ntf now n stmts σ
  | .CaseStatement cond items => visit_CaseStatement_with E ntf now n cond items σ
  | .ConditionalStatement cond t e => visit_ConditionalStatement_with E ntf now n cond t e σ
  | .ForStatement init cond update stmt =>
    visit_ForStatement_with E ntf now n init cond update stmt σ
  | .RepeatStatement cond stmt => visit_RepeatStatement_with E ntf now n cond stmt σ
  | .TimingControlStatement _ stmt => visit_TimingControlStatement_with ntf now n stmt σ
  | .WaitStatement cond stmt => visit_WaitStatement_with E ntf now n cond stmt σ
  | _ => .ok σ

/-- Successive visits: `v` run `j` times, each from the state the visit before
it returned. -/
def successive (v : SwLogic S B → Outcome (SwLogic S B)) :
    Nat → SwLogic S B → Outcome (SwLogic S B)
  | 0, σ => .ok σ
  | j + 1, σ => (v σ).bind (successive v j)

/-- A sequential block as the spec words it, from statement `k` on: each
statement is dispatched in order, the cursor already moved past it, and after
the last one the cursor is back at 0 and the block is notified once. -/
def seq_block_spec (ntf : NodeId → SwLogic S B → SwLogic S B)
    (now : NodeId → SwLogic S B → Outcome (SwLogic S B)) (sb : NodeId) :
    Nat → List NodeId → SwLogic S B → Outcome (SwLogic S B)
  | _, [], σ => .ok (ntf sb (set_ctrl sb 0 σ))
  | k, s :: rest, σ =>
    (now s (set_ctrl sb (k + 1) σ)).bind (seq_block_spec ntf now sb (k + 1) rest)

/-- A repeat statement as the spec words it, with `j` iterations to go: the
body is dispatched `j` times, the cursor counting down from `j`, and then the
cursor is back at 0 and the statement is notified once. -/
def repeat_spec (ntf : NodeId → SwLogic S B → SwLogic S B)
    (now : NodeId → SwLogic S B → Outcome (SwLogic S B)) (rs stmt : NodeId) :
    Nat → SwLogic S B → Outcome (SwLogic S B)
  | 0, σ => .ok (ntf rs (set_ctrl rs 0 σ))
  | j + 1, σ => (now stmt (set_ctrl rs (j + 1) σ)).bind (repeat_spec ntf now rs stmt j)

/-- What `resync` does with an initial construct as the spec words it: unless
the construct is marked `__ignore=true`, its child statement is put on the
active queue. -/
def initial_step (M : Module) (mi : NodeId) (σ : SwLogic S B) : SwLogic S B :=
  match M.node mi with
  | .InitialConstruct ign stmt =>
    if ign = some "true" then σ else schedule_active stmt σ
  | _ => σ

/-- The pool has a power of two as its length and a slot for every entry of
the buffer. -/
def PoolInv (σ : SwLogic S B) : Prop :=
  (∃ k : Nat, σ.update_pool_.length = 2 ^ k) ∧ σ.updates_.length ≤ σ.update_pool_.length

/-- A sequence of visits (`Sum.inl n` is `schedule_now(n)`) and public
operations (`Sum.inr op`), run one after the other. -/
def run_steps [Inhabited B] (M : Module) (E : Evaluate S B) (fuel : Nat) :
    List (NodeId ⊕ Op B) → SwLogic S B → Outcome (SwLogic S B)
  | [], σ => .ok σ
  | .inl n :: steps, σ => (schedule_now M E fuel n σ).bind (run_steps M E fuel steps)
  | .inr op :: steps, σ => (op.run M E fuel σ).bind (run_steps M E fuel steps)

/-- A probe for `schedule_now`: the dispatch of `n` is recorded in the log. -/
def log_now (n : NodeId) (σ : SwLogic S B) : Outcome (SwLogic S B) :=
  .ok { σ with iface := σ.iface ++ [.finish n] }

/-- A probe for `notify`: the notify of `n` is recorded in the log. -/
def log_ntf (n : NodeId) (σ : SwLogic S B) : SwLogic S B :=
  { σ with iface := σ.iface ++ [.display "notify", .finish n] }

end Statements

/-- The evaluator of the demo module with the texts of the display
statements used below. -/
def text_eval : Evaluate DemoStore Nat :=
  { demo_eval with
    format := fun _ args =>
      match args with
      | [40] => "a"
      | [41] => "b"
      | [42] => "c"
      | [55] => "d"
      | [56] => "z"
      | _ => "" }

/-- The case statement `case (x) default: $display("d"); 0: $display("z"); endcase`
(node 50, with `x` = 51 and the constant `0` = 52). -/
def case_node : NodeId → Node
  | 50 => .CaseStatement 51 [([], 53), ([52], 54)]
  | 53 => .DisplayStatement [55]
  | 54 => .DisplayStatement [56]
  | _ => .Identifier

def case_module : Module where
  node := case_node
  monitor_ := fun n => if n = 53 ∨ n = 54 then [50] else []
  items := []
  inputs := []
  resolution := fun n => some n

/-- The module of scenario S4,
`initial begin fork $display("a"); $display("b"); join $display("c"); end`:
the initial construct 30, its sequential block 31, the par block 32 with the
displays 33 and 34, and the display 35. -/
def par_node : NodeId → Node
  | 30 => .InitialConstruct none 31
  | 31 => .SeqBlock [32, 35]
  | 32 => .ParBlock [33, 34]
  | 33 => .DisplayStatement [40]
  | 34 => .DisplayStatement [41]
  | 35 => .DisplayStatement [42]
  | _ => .Identifier

/-- The monitors of scenario S4: the notify of a statement wakes the statement
that encloses it. -/
def par_monitor : NodeId → List NodeId
  | 33 => [32]
  | 34 => [32]
  | 32 => [31]
  | 35 => [31]
  | _ => []

def par_module : Module where
  node := par_node
  monitor_ := par_monitor
  items := [30]
  inputs := []
  resolution := fun n => some n

/-- The interpreter of scenario S4 after `resync()` and `evaluate()`. -/
def par_evaluated : SwLogic DemoStore Nat :=
  (run_ops par_module text_eval 20 [.resync, .evaluate] demo_init).getD demo_init

/-- The demo interpreter after `resync()` alone. -/
def demo_resynced : SwLogic DemoStore Nat :=
  (resync demo_module demo_eval 20 demo_init).getD demo_init

/-- The module `initial begin $display("a"); $display("b"); $display("c"); end`:
the initial construct 80, its sequential block 81 and the displays 82, 83 and 84. -/
def seq_node : NodeId → Node
  | 80 => .InitialConstruct none 81
  | 81 => .SeqBlock [82, 83, 84]
  | 82 => .DisplayStatement [40]
  | 83 => .DisplayStatement [41]
  | 84 => .DisplayStatement [42]
  | _ => .Identifier

def seq_module : Module where
  node := seq_node
  monitor_ := fun n => if n = 82 ∨ n = 83 ∨ n = 84 then [81] else []
  items := [80]
  inputs := []
  resolution := fun n => some n

/-! ## Definitions for the for statement -/

section ForLoop

variable {S B : Type}

/-- The rounds of a for statement as the spec words it, from a state in which
the condition is about to be evaluated and with `j` rounds to go: the body is
dispatched with the cursor at 2, then the update with the cursor at 1, `j` times
over; after the last update the cursor is back at 0 and the statement is notified
once. The body of the coming round is dispatched by `d`; the bodies of the later
rounds are dispatched by `nested`, from inside the visit that the for statement
dispatches on itself after the update. -/
def for_rounds_spec (ntf : NodeId → SwLogic S B → SwLogic S B)
    (now nested : NodeId → SwLogic S B → Outcome (SwLogic S B)) (fs update stmt : NodeId) :
    (NodeId → SwLogic S B → Outcome (SwLogic S B)) → Nat → SwLogic S B → Outcome (SwLogic S B)
  | _, 0, σ => .ok (ntf fs (set_ctrl fs 0 σ))
  | d, j + 1, σ =>
    (d stmt (set_ctrl fs 2 σ)).bind (fun a =>
      (now update (set_ctrl fs 1 a)).bind (for_rounds_spec ntf now nested fs update stmt nested j))

/-- A for statement entered at cursor 0 as the spec words it, when its
condition holds `k` times: the init is dispatched with the cursor at 1, then come
the `k` rounds of body and update, then the notify. -/
def for_spec (ntf : NodeId → SwLogic S B → SwLogic S B)
    (now nested : NodeId → SwLogic S B → Outcome (SwLogic S B)) (fs init update stmt : NodeId)
    (k : Nat) (σ : SwLogic S B) : Outcome (SwLogic S B) :=
  (now init (set_ctrl fs 1 σ)).bind (for_rounds_spec ntf now nested fs update stmt now k)

/-- The condition is true on exactly its first `j` evaluations, counted from
a state `σ` in which it is about to be evaluated: it is evaluated in `σ`, and
after each round of body and update in the state the update returned; the first
`j` of these evaluations give true and the one after them gives false. A dispatch
that does not return ends the run, and the count with it. -/
def true_on_first (E : Evaluate S B)
    (now nested : NodeId → SwLogic S B → Outcome (SwLogic S B)) (fs cond update stmt : NodeId) :
    (NodeId → SwLogic S B → Outcome (SwLogic S B)) → Nat → SwLogic S B → Bool
  | _, 0, σ => !E.to_bool (E.get_value σ.store cond)
  | d, j + 1, σ =>
    E.to_bool (E.get_value σ.store cond) &&
      match d stmt (set_ctrl fs 2 σ) with
      | .ok a =>
        match now update (set_ctrl fs 1 a) with
        | .ok b => true_on_first E now nested fs cond update stmt nested j b
        | _ => true
      | _ => true

/-- The condition of a for statement entered in `σ` is true on exactly its
first `k` evaluations, the first of which comes after the init. -/
def cond_true_on_first (E : Evaluate S B)
    (now nested : NodeId → SwLogic S B → Outcome (SwLogic S B))
    (fs init cond update stmt : NodeId) (k : Nat) (σ : SwLogic S B) : Bool :=
  match now init (set_ctrl fs 1 σ) with
  | .ok a => true_on_first E now nested fs cond update stmt now k a
  | _ => true

end ForLoop

/-- The evaluator of scenario S3: `i` is the identifier 76, node 77 the
constant `0`, node 73 the expression `i < 3` and node 78 the expression `i + 1`;
a display prints the value of its last argument in decimal. -/
def for_eval : Evaluate DemoStore Nat :=
  { demo_eval with
    get_value := fun s e =>
      if e = 77 then 0
      else if e = 73 then (if (s 76).headD 0 < 3 then 1 else 0)
      else if e = 78 then (s 76).headD 0 + 1
      else (s e).headD 0
    format := fun s args =>
      match args.getLast? with
      | some e => toString ((s e).headD 0)
      | none => "" }

/-- The module of scenario S3, `initial for (i=0;i<3;i=i+1) $display("%d", i);`:
the initial construct 70, the for statement 71 with the init 72, the condition 73,
the update 74 and the display 75, whose arguments are the text 79 and `i`. -/
def for_node : NodeId → Node
  | 70 => .InitialConstruct none 71
  | 71 => .ForStatement 72 73 74 75
  | 72 => .VariableAssign 76 77
  | 73 => .Expression
  | 74 => .VariableAssign 76 78
  | 75 => .DisplayStatement [79, 76]
  | 77 => .Expression
  | 78 => .Expression
  | 79 => .Expression
  | _ => .Identifier

/-- The monitors of scenario S3: the notify of the display wakes the for
statement that encloses it, and the notify of `i` wakes the two expressions that
read it. -/
def for_monitor : NodeId → List NodeId
  | 75 => [71]
  | 76 => [73, 78]
  | _ => []

def for_module : Module where
  node := for_node
  monitor_ := for_monitor
  items := [70]
  inputs := []
  resolution := fun n => some n

/-! ## General facts about the interpreter -/

section Basics

variable {S B : Type}

theorem Outcome.bind_eq_ok {α β : Type} {x : Outcome α} {f : α → Outcome β} {b : β} :
    x.bind f = .ok b ↔ ∃ a, x = .ok a ∧ f a = .ok b := by
  cases x <;> simp [Outcome.bind]

theorem Outcome.ok_inj {α : Type} {a b : α} (h : Outcome.ok a = Outcome.ok b) : a = b := by
  cases h; rfl

/-- What a capture that returns has done. -/
theorem capture_ok [Inhabited B] {E : Evaluate S B} {r lhs rhs : NodeId} {σ σ1 : SwLogic S B}
    (h : capture E r lhs rhs σ = .ok σ1) :
    σ.updates_.length < (grown_pool σ).length ∧
    σ1 = { σ with
      updates_ := σ.updates_ ++ [(r, E.dereference σ.store r lhs)],
      update_pool_ := List.set (grown_pool σ) σ.updates_.length (E.get_value σ.store rhs) } := by
  unfold capture at h
  simp only at h
  split at h
  · rename_i hlt
    exact ⟨hlt, (Outcome.ok_inj h).symm⟩
  · simp at h

theorem notify_keeps (M : Module) (P : SwLogic S B → Prop)
    (hs : ∀ σ n, P σ → P (schedule_active n σ)) (n : NodeId) (σ : SwLogic S B)
    (h : P σ) : P (notify M n σ) := by
  unfold notify
  generalize M.monitor_ n = ms
  induction ms generalizing σ with
  | nil => exact h
  | cons m ms ih => exact ih _ (hs _ _ h)

theorem schedule_all_keeps (P : SwLogic S B → Prop)
    (now : NodeId → SwLogic S B → Outcome (SwLogic S B))
    (hnow : ∀ n σ σ1, P σ → now n σ = .ok σ1 → P σ1)
    (ns : List NodeId) (σ σ1 : SwLogic S B) (h : P σ)
    (hr : schedule_all now ns σ = .ok σ1) : P σ1 := by
  induction ns generalizing σ with
  | nil => simp [schedule_all] at hr; exact hr ▸ h
  | cons n ns ih =>
    simp only [schedule_all, Outcome.bind_eq_ok] at hr
    obtain ⟨a, ha, hb⟩ := hr
    exact ih a (hnow _ _ _ h ha) hb

/-- Every visit keeps a property that its primitive steps keep. -/
theorem schedule_now_keeps [Inhabited B] (M : Module) (E : Evaluate S B)
    (P : SwLogic S B → Prop) (hP : StepClosed E P) :
    ∀ (fuel : Nat) (n : NodeId) (σ σ1 : SwLogic S B), P σ →
      schedule_now M E fuel n σ = .ok σ1 → P σ1 := by
  have hn : ∀ n σ, P σ → P (notify M n σ) := fun n σ h => notify_keeps M P hP.sched n σ h
  intro fuel
  induction fuel with
  | zero => intro n σ σ1 _ h; simp [schedule_now] at h
  | succ fuel ih =>
    intro n σ σ1 h hr
    unfold schedule_now at hr
    split at hr
    · exact Outcome.ok_inj hr ▸ h
    · exact Outcome.ok_inj hr ▸ h
    · -- Event
      unfold visit_Event at hr
      split at hr
      · split at hr
        · simp at hr
        · split at hr
          · exact Outcome.ok_inj hr ▸ hn _ _ h
          · split at hr
            · exact Outcome.ok_inj hr ▸ hn _ _ h
            · exact Outcome.ok_inj hr ▸ h
      · simp at hr
    · exact ih _ _ _ h hr
    · -- InitialConstruct
      unfold visit_InitialConstruct at hr
      split at hr
      · exact Outcome.ok_inj hr ▸ hP.sched _ _ h
      · exact Outcome.ok_inj hr ▸ h
    · -- ContinuousAssign
      unfold visit_ContinuousAssign at hr
      split at hr
      · simp at hr
      · exact ih _ _ _ h hr
    · -- BlockingAssign
      unfold visit_BlockingAssign at hr
      split at hr
      · simp at hr
      · obtain ⟨a, ha, hb⟩ := Outcome.bind_eq_ok.mp hr
        exact Outcome.ok_inj hb ▸ hn _ _ (ih _ _ _ h ha)
    · -- NonblockingAssign
      unfold visit_NonblockingAssign at hr
      split at hr
      · simp at hr
      · split at hr
        · split at hr
          · simp at hr
          · obtain ⟨a, ha, hb⟩ := Outcome.bind_eq_ok.mp hr
            rename_i hsil _ _ _
            exact Outcome.ok_inj hb ▸ hn _ _ (hP.capture _ _ _ _ _ h hsil ha)
        · exact Outcome.ok_inj hr ▸ hn _ _ h
    · -- ParBlock
      unfold visit_ParBlock at hr
      split at hr
      · exact schedule_all_keeps P _ (ih) _ _ _ (hP.ctrl _ _ _ h) hr
      · simp only at hr
        split at hr
        · exact Outcome.ok_inj hr ▸ hn _ _ (hP.ctrl _ _ _ h)
        · exact Outcome.ok_inj hr ▸ hP.ctrl _ _ _ h
    · -- SeqBlock
      unfold visit_SeqBlock at hr
      split at hr
      · exact ih _ _ _ (hP.ctrl _ _ _ h) hr
      · exact Outcome.ok_inj hr ▸ hn _ _ (hP.ctrl _ _ _ h)
    · -- CaseStatement
      unfold visit_CaseStatement at hr
      split at hr
      · simp only at hr
        split at hr
        · exact ih _ _ _ (hP.ctrl _ _ _ h) hr
        · simp at hr
      · exact Outcome.ok_inj hr ▸ hn _ _ (hP.ctrl _ _ _ h)
    · -- ConditionalStatement
      unfold visit_ConditionalStatement at hr
      split at hr
      · simp only at hr
        split at hr
        · exact ih _ _ _ (hP.ctrl _ _ _ h) hr
        · exact ih _ _ _ (hP.ctrl _ _ _ h) hr
      · exact Outcome.ok_inj hr ▸ hn _ _ (hP.ctrl _ _ _ h)
    · -- ForStatement
      have hft : ∀ (fs cond stmt : NodeId) (τ τ1 : SwLogic S B), P τ →
          for_test M E (schedule_now M E fuel) fs cond stmt τ = .ok τ1 → P τ1 := by
        intro fs cond stmt τ τ1 hτ hft
        unfold for_test at hft
        split at hft
        · exact Outcome.ok_inj hft ▸ hn _ _ (hP.ctrl _ _ _ hτ)
        · exact ih _ _ _ (hP.ctrl _ _ _ hτ) hft
      unfold visit_ForStatement at hr
      split at hr
      · obtain ⟨a, ha, hb⟩ := Outcome.bind_eq_ok.mp hr
        exact hft _ _ _ _ _ (ih _ _ _ (hP.ctrl _ _ _ h) ha) hb
      · split at hr
        · exact hft _ _ _ _ _ h hr
        · obtain ⟨a, ha, hb⟩ := Outcome.bind_eq_ok.mp hr
          exact ih _ _ _ (ih _ _ _ (hP.ctrl _ _ _ h) ha) hb
    · -- RepeatStatement
      unfold visit_RepeatStatement at hr
      simp only at hr
      rename_i _ cond stmt _
      have h1 : P (if σ.ctrl_ n = 0
          then set_ctrl n ((E.to_int (E.get_value σ.store cond) + 1) % SIZE_MOD) σ else σ) := by
        split
        · exact hP.ctrl _ _ _ h
        · exact h
      generalize (if σ.ctrl_ n = 0
          then set_ctrl n ((E.to_int (E.get_value σ.store cond) + 1) % SIZE_MOD) σ else σ) = τ
        at hr h1
      split at hr
      · exact Outcome.ok_inj hr ▸ hn _ _ (hP.ctrl _ _ _ h1)
      · exact ih _ _ _ (hP.ctrl _ _ _ h1) hr
    · -- WhileStatement
      unfold visit_WhileStatement at hr
      split at hr
      · exact Outcome.ok_inj hr ▸ hn _ _ h
      · exact ih _ _ _ h hr
    · -- TimingControlStatement
      unfold visit_TimingControlStatement at hr
      split at hr
      · exact Outcome.ok_inj hr ▸ hP.ctrl _ _ _ h
      · split at hr
        · exact ih _ _ _ (hP.ctrl _ _ _ h) hr
        · exact Outcome.ok_inj hr ▸ hn _ _ (hP.ctrl _ _ _ h)
    · -- DisplayStatement
      unfold visit_DisplayStatement at hr
      split at hr
      · rename_i hsil
        exact Outcome.ok_inj hr ▸ hn _ _ (hP.task _ _ h hsil)
      · exact Outcome.ok_inj hr ▸ hn _ _ h
    · -- FinishStatement
      unfold visit_FinishStatement at hr
      split at hr
      · rename_i hsil
        exact Outcome.ok_inj hr ▸ hn _ _ (hP.task _ _ h hsil)
      · exact Outcome.ok_inj hr ▸ hn _ _ h
    · -- WriteStatement
      unfold visit_WriteStatement at hr
      split at hr
      · rename_i hsil
        exact Outcome.ok_inj hr ▸ hn _ _ (hP.task _ _ h hsil)
      · exact Outcome.ok_inj hr ▸ hn _ _ h
    · -- WaitStatement
      unfold visit_WaitStatement at hr
      split at hr
      · split at hr
        · exact Outcome.ok_inj hr ▸ h
        · exact ih _ _ _ (hP.ctrl _ _ _ h) hr
      · exact Outcome.ok_inj hr ▸ hn _ _ (hP.ctrl _ _ _ h)
    · simp [visit_DelayControl] at hr
    · exact Outcome.ok_inj hr ▸ hn _ _ h
    · -- VariableAssign
      unfold visit_VariableAssign at hr
      simp only at hr
      split at hr
      · simp at hr
      · exact Outcome.ok_inj hr ▸ hn _ _ (hP.store _ _ h)

/-- The drain loop keeps a property that the primitive steps and the pop keep. -/
theorem drain_keeps [Inhabited B] (M : Module) (E : Evaluate S B)
    (P : SwLogic S B → Prop) (hP : StepClosed E P)
    (hpop : ∀ (σ : SwLogic S B) e rest, P σ → σ.active_ = e :: rest →
      P { σ with active_ := rest,
                 on_active := fun m => if m = e then false else σ.on_active m }) :
    ∀ (fuel : Nat) (σ σ1 : SwLogic S B), P σ → drain M E fuel σ = .ok σ1 → P σ1 := by
  intro fuel
  induction fuel with
  | zero => intro σ σ1 _ h; simp [drain] at h
  | succ fuel ih =>
    intro σ σ1 h hr
    unfold drain at hr
    split at hr
    · exact Outcome.ok_inj hr ▸ h
    · rename_i e rest hq
      obtain ⟨a, ha, hb⟩ := Outcome.bind_eq_ok.mp hr
      exact ih _ _ (schedule_now_keeps M E P hP _ _ _ _ (hpop σ e rest h hq) ha) hb

/-- The drain loop returns only with an empty queue. -/
theorem drain_empties [Inhabited B] (M : Module) (E : Evaluate S B) :
    ∀ (fuel : Nat) (σ σ1 : SwLogic S B), drain M E fuel σ = .ok σ1 → σ1.active_ = [] := by
  intro fuel
  induction fuel with
  | zero => intro σ σ1 h; simp [drain] at h
  | succ fuel ih =>
    intro σ σ1 hr
    unfold drain at hr
    split at hr
    · rename_i hq
      exact Outcome.ok_inj hr ▸ hq
    · obtain ⟨a, _, hb⟩ := Outcome.bind_eq_ok.mp hr
      exact ih _ _ hb

/-- The output loop only appends one `Interface.write` per entry of `writes_`,
in order, to the log. -/
theorem write_outputs_eq (E : Evaluate S B) (σ : SwLogic S B) :
    write_outputs E σ =
      { σ with iface := σ.iface ++
          σ.writes_.map (fun o => IfaceCall.write_value o.2 (E.get_value σ.store o.1)) } := by
  unfold write_outputs
  have key : ∀ (l : List (NodeId × VId)) (τ : SwLogic S B),
      l.foldl (fun s o =>
        { s with iface := s.iface ++ [IfaceCall.write_value o.2 (E.get_value s.store o.1)] }) τ =
      { τ with iface := τ.iface ++
          l.map (fun o => IfaceCall.write_value o.2 (E.get_value τ.store o.1)) } := by
    intro l
    induction l with
    | nil => intro τ; simp
    | cons o l ih => intro τ; simp [ih]
  exact key σ.writes_ σ

/-- The flush loop keeps a property that scheduling and store changes keep. -/
theorem flush_loop_keeps (M : Module) (E : Evaluate S B) (P : SwLogic S B → Prop)
    (hs : ∀ σ n, P σ → P (schedule_active n σ))
    (hst : ∀ (σ : SwLogic S B) (s : S), P σ → P { σ with store := s }) :
    ∀ (todo i : Nat) (σ σ1 : SwLogic S B), P σ →
      flush_loop M E i todo σ = .ok σ1 → P σ1 := by
  intro todo
  induction todo with
  | zero => intro i σ σ1 h hr; simp [flush_loop] at hr; exact hr ▸ h
  | succ todo ih =>
    intro i σ σ1 h hr
    unfold flush_loop at hr
    split at hr
    · exact ih _ _ _ (notify_keeps M P hs _ _ (hst _ _ h)) hr
    · simp at hr

end Basics

/-! ## The active queue -/

section Queue

variable {S B : Type}

theorem QueueInv.congr {σ τ : SwLogic S B} (ha : τ.active_ = σ.active_)
    (hf : τ.on_active = σ.on_active) (h : QueueInv σ) : QueueInv τ := by
  unfold QueueInv at *
  rw [ha, hf]
  exact h

theorem schedule_active_queue (n : NodeId) (σ : SwLogic S B) (h : QueueInv σ) :
    QueueInv (schedule_active n σ) := by
  unfold schedule_active
  split
  · exact h
  · rename_i hn
    obtain ⟨h1, h2⟩ := h
    refine ⟨fun m => ?_, ?_⟩
    · simp only [List.mem_cons]
      by_cases hm : m = n
      · simp [hm]
      · simp [hm, h1 m]
    · refine List.nodup_cons.mpr ⟨?_, h2⟩
      intro hmem
      exact hn ((h1 n).mpr hmem)

theorem pop_queue (σ : SwLogic S B) (e : NodeId) (rest : List NodeId) (h : QueueInv σ)
    (ha : σ.active_ = e :: rest) :
    QueueInv { σ with active_ := rest,
                      on_active := fun m => if m = e then false else σ.on_active m } := by
  obtain ⟨h1, h2⟩ := h
  rw [ha] at h1 h2
  obtain ⟨hne, hnd⟩ := List.nodup_cons.mp h2
  refine ⟨fun m => ?_, hnd⟩
  by_cases hm : m = e
  · subst hm
    simp [hne]
  · have := h1 m
    simp only [List.mem_cons, hm, false_or] at this
    simp [hm, this]

theorem queue_closed [Inhabited B] (E : Evaluate S B) :
    StepClosed E (QueueInv : SwLogic S B → Prop) where
  sched := fun σ n h => schedule_active_queue n σ h
  ctrl := fun _ _ _ h => QueueInv.congr rfl rfl h
  store := fun _ _ h => QueueInv.congr rfl rfl h
  capture := by
    intro σ r lhs rhs σ1 h _ hc
    rw [(capture_ok hc).2]
    exact QueueInv.congr rfl rfl h
  task := fun _ _ h _ => QueueInv.congr rfl rfl h

theorem drain_queue [Inhabited B] (M : Module) (E : Evaluate S B) (fuel : Nat)
    (σ σ1 : SwLogic S B) (h : QueueInv σ) (hr : drain M E fuel σ = .ok σ1) : QueueInv σ1 :=
  drain_keeps M E QueueInv (queue_closed E) pop_queue fuel σ σ1 h hr

theorem op_queue [Inhabited B] (M : Module) (E : Evaluate S B) (fuel : Nat) (op : Op B)
    (σ σ1 : SwLogic S B) (h : QueueInv σ) (hr : op.run M E fuel σ = .ok σ1) : QueueInv σ1 := by
  have hn : ∀ n (τ : SwLogic S B), QueueInv τ → QueueInv (notify M n τ) :=
    fun n τ hτ => notify_keeps M QueueInv (fun τ n h => schedule_active_queue n τ h) n τ hτ
  cases op with
  | set_read id vid => exact Outcome.ok_inj hr ▸ QueueInv.congr rfl rfl h
  | set_write id vid => exact Outcome.ok_inj hr ▸ QueueInv.congr rfl rfl h
  | set_state id vid => exact Outcome.ok_inj hr ▸ QueueInv.congr rfl rfl h
  | set_state_from s => exact Outcome.ok_inj hr ▸ QueueInv.congr rfl rfl h
  | read vid b =>
    simp only [Op.run, read] at hr
    split at hr
    · exact Outcome.ok_inj hr ▸ hn _ _ (QueueInv.congr rfl rfl h)
    · simp at hr
  | evaluate =>
    simp only [Op.run, evaluate, Outcome.bind_eq_ok] at hr
    obtain ⟨a, ha, hb⟩ := hr
    have h1 : QueueInv a :=
      drain_queue M E fuel _ a (by exact QueueInv.congr rfl rfl h) ha
    rw [write_outputs_eq] at hb
    exact Outcome.ok_inj hb ▸ QueueInv.congr rfl rfl h1
  | update =>
    simp only [Op.run, update, update_flush, Outcome.bind_eq_ok] at hr
    obtain ⟨a, ⟨c, hc, hca⟩, d, hd, hb⟩ := hr
    have h0 := flush_loop_keeps M E QueueInv (fun τ n h => schedule_active_queue n τ h)
      (fun _ _ h => QueueInv.congr rfl rfl h) _ _ _ _ h hc
    have ha := Outcome.ok_inj hca
    subst ha
    have h1 : QueueInv d :=
      drain_queue M E fuel _ d (by exact QueueInv.congr rfl rfl h0) hd
    rw [write_outputs_eq] at hb
    exact Outcome.ok_inj hb ▸ QueueInv.congr rfl rfl h1
  | resync =>
    simp only [Op.run, resync, resync_drain, Outcome.bind_eq_ok] at hr
    obtain ⟨a, ha, b, ⟨c, hc, hcb⟩, hb⟩ := hr
    have h1 := schedule_all_keeps QueueInv _
      (schedule_now_keeps M E QueueInv (queue_closed E) fuel) _ _ _ h ha
    have h2 : ∀ (ls : List NodeId) (τ : SwLogic S B), QueueInv τ →
        QueueInv (ls.foldl (fun s l => notify M l s) τ) := by
      intro ls
      induction ls with
      | nil => intro τ hτ; exact hτ
      | cons l ls ih => intro τ hτ; exact ih _ (hn _ _ hτ)
    have h3 : QueueInv c :=
      drain_queue M E fuel _ c (by exact QueueInv.congr rfl rfl (h2 _ _ h1)) hc
    have hb2 := Outcome.ok_inj hcb
    subst hb2
    exact schedule_all_keeps QueueInv _
      (schedule_now_keeps M E QueueInv (queue_closed E) fuel) _ _ _
      (by exact QueueInv.congr rfl rfl h3) hb

theorem run_ops_queue [Inhabited B] (M : Module) (E : Evaluate S B) (fuel : Nat) :
    ∀ (ops : List (Op B)) (σ σ1 : SwLogic S B), QueueInv σ →
      run_ops M E fuel ops σ = .ok σ1 → QueueInv σ1 := by
  intro ops
  induction ops with
  | nil => intro σ σ1 h hr; exact Outcome.ok_inj hr ▸ h
  | cons op ops ih =>
    intro σ σ1 h hr
    obtain ⟨a, ha, hb⟩ := Outcome.bind_eq_ok.mp hr
    exact ih _ _ (op_queue M E fuel op σ a h ha) hb

/-- C1. The active-queue invariant (a node's flag is set exactly when the node
is in the active queue, and the queue has no duplicates) holds for a freshly
constructed interpreter; every public operation, every node visit and the pop
of the drain loop keep it; hence it holds after every sequence of public
operations run on a fresh interpreter. -/
theorem C1_active_queue_membership [Inhabited B] (M : Module) (E : Evaluate S B) :
    (∀ (store : S) (silent tasks : Bool),
      QueueInv (SwLogic.init store silent tasks : SwLogic S B)) ∧
    (∀ (fuel : Nat) (op : Op B) (σ σ1 : SwLogic S B),
      QueueInv σ → op.run M E fuel σ = .ok σ1 → QueueInv σ1) ∧
    (∀ (fuel : Nat) (n : NodeId) (σ σ1 : SwLogic S B),
      QueueInv σ → schedule_now M E fuel n σ = .ok σ1 → QueueInv σ1) ∧
    (∀ (σ : SwLogic S B) (e : NodeId) (rest : List NodeId),
      QueueInv σ → σ.active_ = e :: rest →
      QueueInv { σ with active_ := rest,
                        on_active := fun m => if m = e then false else σ.on_active m }) ∧
    (∀ (fuel : Nat) (ops : List (Op B)) (store : S) (silent tasks : Bool) (σ1 : SwLogic S B),
      run_ops M E fuel ops (SwLogic.init store silent tasks) = .ok σ1 →
      (∀ n, σ1.on_active n = true ↔ n ∈ σ1.active_) ∧ σ1.active_.Nodup) := by
  have h0 : ∀ (store : S) (silent tasks : Bool),
      QueueInv (SwLogic.init store silent tasks : SwLogic S B) := by
    intro store silent tasks
    exact ⟨fun n => by simp [SwLogic.init], by simp [SwLogic.init]⟩
  refine ⟨h0, op_queue M E, ?_, pop_queue, ?_⟩
  · exact schedule_now_keeps M E QueueInv (queue_closed E)
  · intro fuel ops store silent tasks σ1 hr
    exact run_ops_queue M E fuel ops _ σ1 (h0 store silent tasks) hr

theorem C1_active_queue_membership_witness :
    run_ops demo_module demo_eval 20 demo_setup (SwLogic.init (fun _ => [0]) false false)
      = .ok demo_ready ∧
    ((∀ n, demo_ready.on_active n = true ↔ n ∈ demo_ready.active_) ∧
      demo_ready.active_.Nodup) :=
  ⟨rfl, (C1_active_queue_membership demo_module demo_eval).2.2.2.2 20 demo_setup
    (fun _ => [0]) false false demo_ready rfl⟩

end Queue

/-! ## The update buffer across `evaluate` and `update` -/

section Buffer

variable {S B : Type}

theorem keeps_updates_closed [Inhabited B] (E : Evaluate S B) (l : List Target) :
    StepClosed E (KeepsUpdates l : SwLogic S B → Prop) where
  sched := by
    intro σ n h
    unfold schedule_active
    split
    · exact h
    · exact h
  ctrl := fun _ _ _ h => h
  store := fun _ _ h => h
  capture := by
    intro σ r lhs rhs σ1 h _ hc
    rw [(capture_ok hc).2]
    obtain ⟨l1, hl⟩ := h
    exact ⟨l1 ++ [(r, E.dereference σ.store r lhs)], by simp [hl]⟩
  task := fun _ _ h _ => h

/-- C4, as amended. When `evaluate()` returns, the active queue is empty, and
the update buffer holds the entries it held at the call, in place, followed by
the entries captured during the drain: `evaluate()` removes nothing from it. -/
theorem C4_evaluate_leaves_queue_empty [Inhabited B] (M : Module) (E : Evaluate S B)
    (fuel : Nat) (σ σ1 : SwLogic S B) (h : evaluate M E fuel σ = .ok σ1) :
    σ1.active_ = [] ∧ ∃ captured, σ1.updates_ = σ.updates_ ++ captured := by
  simp only [evaluate, Outcome.bind_eq_ok] at h
  obtain ⟨a, ha, hb⟩ := h
  have hb := Outcome.ok_inj hb
  rw [write_outputs_eq] at hb
  subst hb
  refine ⟨drain_empties M E fuel _ a ha, ?_⟩
  exact drain_keeps M E (KeepsUpdates σ.updates_) (keeps_updates_closed E _)
    (fun _ _ _ h _ => h) fuel _ a ⟨[], by simp⟩ ha

theorem C4_evaluate_leaves_queue_empty_witness :
    evaluate demo_module demo_eval 20 demo_ready = .ok demo_evaluated ∧
    (demo_evaluated.active_ = [] ∧
      ∃ captured, demo_evaluated.updates_ = demo_ready.updates_ ++ captured) :=
  ⟨rfl, C4_evaluate_leaves_queue_empty demo_module demo_eval 20 demo_ready demo_evaluated rfl⟩

/-- C4 fails as stated: in the demo module, `evaluate()` runs
`q <= d` at the rising edge of `clk`, and returns with that assignment pending
in the update buffer. -/
theorem C4_counterexample :
    demo_ready.updates_ = [] ∧
    evaluate demo_module demo_eval 20 demo_ready = .ok demo_evaluated ∧
    demo_evaluated.updates_ = [(2, 0, 0, 0)] :=
  ⟨rfl, rfl, rfl⟩

/-- C3, as amended. When `update()` returns, the active queue is empty; the
entries the update buffer held at the call have been flushed and cleared before
the drain, so the buffer holds only what the drain of `update()` captured, and
it is empty if the flush woke no node. -/
theorem C3_update_leaves_queue_empty [Inhabited B] (M : Module) (E : Evaluate S B)
    (fuel : Nat) (σ σ1 : SwLogic S B) (h : update M E fuel σ = .ok σ1) :
    σ1.active_ = [] ∧
    ∃ σf σd, update_flush M E σ = .ok σf ∧ σf.updates_ = [] ∧
      drain M E fuel { σf with there_were_tasks_ := false } = .ok σd ∧
      σ1.updates_ = σd.updates_ ∧
      (σf.active_ = [] → σ1.updates_ = []) := by
  simp only [update, Outcome.bind_eq_ok] at h
  obtain ⟨σf, hf, σd, hd, hb⟩ := h
  have hb := Outcome.ok_inj hb
  rw [write_outputs_eq] at hb
  subst hb
  have hfu : σf.updates_ = [] := by
    simp only [update_flush, Outcome.bind_eq_ok] at hf
    obtain ⟨c, _, hc⟩ := hf
    exact Outcome.ok_inj hc ▸ rfl
  refine ⟨drain_empties M E fuel _ σd hd, σf, σd, hf, hfu, hd, rfl, ?_⟩
  intro hq
  cases fuel with
  | zero => simp [drain] at hd
  | succ k =>
    unfold drain at hd
    simp only [hq] at hd
    exact Outcome.ok_inj hd ▸ hfu

theorem C3_update_leaves_queue_empty_witness :
    update demo_module demo_eval 20 demo_evaluated = .ok demo_updated ∧
    (demo_updated.active_ = [] ∧
    ∃ σf σd, update_flush demo_module demo_eval demo_evaluated = .ok σf ∧ σf.updates_ = [] ∧
      drain demo_module demo_eval 20 { σf with there_were_tasks_ := false } = .ok σd ∧
      demo_updated.updates_ = σd.updates_ ∧
      (σf.active_ = [] → demo_updated.updates_ = [])) :=
  ⟨rfl, C3_update_leaves_queue_empty demo_module demo_eval 20 demo_evaluated demo_updated rfl⟩

/-- C3 fails as stated: in the demo module, `update()` flushes `q <= d`, the
rising edge of `q` wakes the second flip-flop, and `update()` returns with
`r <= q` pending: `there_are_updates()` is true right after `update()`. -/
theorem C3_counterexample :
    update demo_module demo_eval 20 demo_evaluated = .ok demo_updated ∧
    demo_updated.active_ = [] ∧
    demo_updated.updates_ = [(12, 0, 0, 0)] ∧
    there_are_updates demo_updated = true :=
  ⟨rfl, rfl, rfl, rfl⟩

/-- A notify leaves alone whatever scheduling a node leaves alone. -/
theorem notify_proj (M : Module) {X : Type} (f : SwLogic S B → X)
    (hf : ∀ n τ, f (schedule_active n τ) = f τ) (n : NodeId) (σ : SwLogic S B) :
    f (notify M n σ) = f σ :=
  notify_keeps M (fun τ => f τ = f σ) (fun τ n h => (hf n τ).trans h) n σ rfl

theorem notify_store (M : Module) (n : NodeId) (σ : SwLogic S B) :
    (notify M n σ).store = σ.store :=
  notify_proj M (fun τ => τ.store) (fun n τ => by unfold schedule_active; split <;> rfl) n σ

theorem notify_updates (M : Module) (n : NodeId) (σ : SwLogic S B) :
    (notify M n σ).updates_ = σ.updates_ :=
  notify_proj M (fun τ => τ.updates_) (fun n τ => by unfold schedule_active; split <;> rfl) n σ

theorem notify_pool (M : Module) (n : NodeId) (σ : SwLogic S B) :
    (notify M n σ).update_pool_ = σ.update_pool_ :=
  notify_proj M (fun τ => τ.update_pool_)
    (fun n τ => by unfold schedule_active; split <;> rfl) n σ

theorem pending_flush_entry (M : Module) (E : Evaluate S B) (σ : SwLogic S B)
    (e : Target × B) : pending (flush_entry M E σ e) = pending σ := by
  unfold pending flush_entry
  rw [notify_updates, notify_pool]

theorem flush_loop_succ (M : Module) (E : Evaluate S B) (i todo : Nat) (σ : SwLogic S B)
    (u : Target) (v : B) (hu : σ.updates_[i]? = some u) (hv : σ.update_pool_[i]? = some v) :
    flush_loop M E i (todo + 1) σ = flush_loop M E (i + 1) todo (flush_entry M E σ (u, v)) := by
  conv_lhs => unfold flush_loop
  rw [hu, hv]
  rfl

/-- The index loop of `update` is the in-order fold over the remaining entries. -/
theorem flush_loop_eq (M : Module) (E : Evaluate S B) :
    ∀ (todo i : Nat) (σ : SwLogic S B), i + todo = σ.updates_.length →
      σ.updates_.length ≤ σ.update_pool_.length →
      flush_loop M E i todo σ = .ok (((pending σ).drop i).foldl (flush_entry M E) σ) := by
  intro todo
  induction todo with
  | zero =>
    intro i σ hi hlen
    have : (pending σ).length ≤ i := by simp [pending]; omega
    simp [flush_loop, List.drop_of_length_le this]
  | succ todo ih =>
    intro i σ hi hlen
    have hiu : i < σ.updates_.length := by omega
    have hip : i < σ.update_pool_.length := by omega
    have hiz : i < (pending σ).length := by simp [pending]; omega
    have hstep := pending_flush_entry M E σ (σ.updates_[i], σ.update_pool_[i])
    have hu : (flush_entry M E σ (σ.updates_[i], σ.update_pool_[i])).updates_ = σ.updates_ := by
      unfold flush_entry; rw [notify_updates]
    have hp : (flush_entry M E σ (σ.updates_[i], σ.update_pool_[i])).update_pool_
        = σ.update_pool_ := by
      unfold flush_entry; rw [notify_pool]
    rw [flush_loop_succ M E i todo σ _ _ (List.getElem?_eq_getElem hiu)
      (List.getElem?_eq_getElem hip)]
    rw [ih (i + 1) _ (by rw [hu]; omega) (by rw [hu, hp]; exact hlen), hstep,
      List.drop_eq_getElem_cons hiz]
    simp [pending]

theorem update_flush_eq (M : Module) (E : Evaluate S B) (σ : SwLogic S B)
    (hlen : σ.updates_.length ≤ σ.update_pool_.length) :
    update_flush M E σ = .ok { flush_in_order M E σ with updates_ := [] } := by
  unfold update_flush flush_in_order
  rw [flush_loop_eq M E σ.updates_.length 0 σ (by omega) hlen]
  simp [Outcome.bind]

theorem flush_entry_store (M : Module) (E : Evaluate S B) (σ : SwLogic S B) (e : Target × B) :
    (flush_entry M E σ e).store =
      E.assign_value_at σ.store e.1.1 e.1.2.1 e.1.2.2.1 e.1.2.2.2 e.2 := by
  unfold flush_entry
  rw [notify_store]

/-- Entries that leave an observation of the store alone leave it alone when
flushed one after the other. -/
theorem flush_frame (M : Module) (E : Evaluate S B) {X : Type} (obs : S → X) :
    ∀ (post : List (Target × B)) (σ : SwLogic S B),
      (∀ e ∈ post, ∀ s, obs (E.assign_value_at s e.1.1 e.1.2.1 e.1.2.2.1 e.1.2.2.2 e.2) = obs s) →
      obs (post.foldl (flush_entry M E) σ).store = obs σ.store := by
  intro post
  induction post with
  | nil => intro σ _; rfl
  | cons e post ih =>
    intro σ h
    simp only [List.foldl_cons]
    rw [ih _ (fun e1 he1 => h e1 (List.mem_cons_of_mem _ he1)), flush_entry_store]
    exact h e (List.mem_cons_self _ _) _

theorem resize_length {α : Type} (l : List α) (n : Nat) (x : α) :
    (resize l n x).length = n := by
  simp [resize]
  omega

theorem resize_getElem? {α : Type} (l : List α) (n : Nat) (x : α) (i : Nat)
    (hn : l.length ≤ n) (hi : i < l.length) : (resize l n x)[i]? = l[i]? := by
  unfold resize
  rw [List.take_of_length_le hn, List.getElem?_append_left hi]

theorem grown_pool_getElem? [Inhabited B] (σ : SwLogic S B) (i : Nat)
    (hi : i < σ.update_pool_.length) : (grown_pool σ)[i]? = σ.update_pool_[i]? := by
  unfold grown_pool
  split
  · exact resize_getElem? _ _ _ _ (by omega) hi
  · rfl

theorem grown_pool_covers [Inhabited B] (σ : SwLogic S B) (h : PoolCovers σ) :
    σ.updates_.length < (grown_pool σ).length := by
  obtain ⟨h0, h1⟩ := h
  unfold grown_pool
  split
  · rw [resize_length]; omega
  · omega

theorem StepClosed.both [Inhabited B] {E : Evaluate S B} {P Q : SwLogic S B → Prop}
    (hP : StepClosed E P) (hQ : StepClosed E Q) : StepClosed E (fun σ => P σ ∧ Q σ) where
  sched := fun σ n h => ⟨hP.sched σ n h.1, hQ.sched σ n h.2⟩
  ctrl := fun σ n k h => ⟨hP.ctrl σ n k h.1, hQ.ctrl σ n k h.2⟩
  store := fun σ s h => ⟨hP.store σ s h.1, hQ.store σ s h.2⟩
  capture := fun σ r lhs rhs σ1 h hs hc =>
    ⟨hP.capture σ r lhs rhs σ1 h.1 hs hc, hQ.capture σ r lhs rhs σ1 h.2 hs hc⟩
  task := fun σ c h hs => ⟨hP.task σ c h.1 hs, hQ.task σ c h.2 hs⟩

theorem pool_covers_closed [Inhabited B] (E : Evaluate S B) :
    StepClosed E (PoolCovers : SwLogic S B → Prop) where
  sched := by
    intro σ n h
    unfold schedule_active
    split <;> exact h
  ctrl := fun _ _ _ h => h
  store := fun _ _ h => h
  capture := by
    intro σ r lhs rhs σ1 h _ hc
    obtain ⟨hlt, hσ1⟩ := capture_ok hc
    rw [hσ1]
    unfold PoolCovers
    simp only [List.length_set, List.length_append, List.length_singleton]
    omega
  task := fun _ _ h _ => h

theorem pending_closed [Inhabited B] (E : Evaluate S B) (i : Nat) (u : Target) (v : B) :
    StepClosed E (Pending i u v : SwLogic S B → Prop) where
  sched := by
    intro σ n h
    unfold schedule_active
    split <;> exact h
  ctrl := fun _ _ _ h => h
  store := fun _ _ h => h
  capture := by
    intro σ r lhs rhs σ1 h _ hc
    obtain ⟨hlt, hσ1⟩ := capture_ok hc
    obtain ⟨hu, hv⟩ := h
    have hiu : i < σ.updates_.length := by
      by_contra hge
      rw [List.getElem?_eq_none (by omega)] at hu
      exact Option.noConfusion hu
    have hip : i < σ.update_pool_.length := by
      by_contra hge
      rw [List.getElem?_eq_none (by omega)] at hv
      exact Option.noConfusion hv
    rw [hσ1]
    refine ⟨?_, ?_⟩
    · show (σ.updates_ ++ _)[i]? = some u
      rw [List.getElem?_append_left hiu]
      exact hu
    · show (List.set (grown_pool σ) σ.updates_.length _)[i]? = some v
      rw [List.getElem?_set_ne (by omega), grown_pool_getElem? σ i hip]
      exact hv
  task := fun _ _ h _ => h

/-- C5. The flush loop of `update()` returns, and is the in-order pass over the
captured entries (entry 0 first), each entry being deposited in its target slot
and its target notified before the next entry is touched; the buffer is cleared
afterwards. In particular, whatever can be observed of the store after a deposit
of the later of two entries for a slot (its value in that slot) is still
observed when the flush is over, provided the entries after it leave that
observation alone. -/
theorem C5_flush_in_capture_order (M : Module) (E : Evaluate S B) (σ : SwLogic S B)
    (hlen : σ.updates_.length ≤ σ.update_pool_.length) :
    update_flush M E σ = .ok { flush_in_order M E σ with updates_ := [] } ∧
    (pending σ).map Prod.fst = σ.updates_ ∧
    ∀ {X : Type} (obs : S → X) (x : X) (pre post : List (Target × B)) (e : Target × B),
      pending σ = pre ++ e :: post →
      (∀ s, obs (E.assign_value_at s e.1.1 e.1.2.1 e.1.2.2.1 e.1.2.2.2 e.2) = x) →
      (∀ e1 ∈ post, ∀ s,
        obs (E.assign_value_at s e1.1.1 e1.1.2.1 e1.1.2.2.1 e1.1.2.2.2 e1.2) = obs s) →
      obs (flush_in_order M E σ).store = x := by
  refine ⟨update_flush_eq M E σ hlen, ?_, ?_⟩
  · unfold pending
    exact List.map_fst_zip _ _ hlen
  · intro X obs x pre post e hsplit hw hframe
    unfold flush_in_order
    rw [hsplit, List.foldl_append, List.foldl_cons, flush_frame M E obs post _ hframe,
      flush_entry_store]
    exact hw _

theorem C5_flush_in_capture_order_witness :
    update_flush demo_module demo_eval demo_twice
      = .ok { flush_in_order demo_module demo_eval demo_twice with updates_ := [] } ∧
    (flush_in_order demo_module demo_eval demo_twice).store 2 = [7] :=
  ⟨(C5_flush_in_capture_order demo_module demo_eval demo_twice (by decide)).1, rfl⟩

theorem getElem?_some_lt {α : Type} {l : List α} {i : Nat} {a : α} (h : l[i]? = some a) :
    i < l.length := by
  by_contra hge
  rw [List.getElem?_eq_none (by omega)] at h
  exact Option.noConfusion h

/-- A pending entry splits the list of captured entries at its index. -/
theorem pending_split (σ : SwLogic S B) (i : Nat) (u : Target) (v : B)
    (h : Pending i u v σ) :
    pending σ = (pending σ).take i ++ (u, v) :: (pending σ).drop (i + 1) ∧
    ((pending σ).take i).length = i := by
  obtain ⟨hu, hv⟩ := h
  have hiu := getElem?_some_lt hu
  have hip := getElem?_some_lt hv
  have hiz : i < (pending σ).length := by simp [pending]; omega
  have he : (pending σ)[i] = (u, v) := by
    unfold pending
    rw [List.getElem_zip]
    rw [List.getElem?_eq_getElem hiu] at hu
    rw [List.getElem?_eq_getElem hip] at hv
    rw [Option.some.inj hu, Option.some.inj hv]
  refine ⟨?_, ?_⟩
  · rw [← he, ← List.drop_eq_getElem_cons hiz, List.take_append_drop]
  · rw [List.length_take]; omega

/-- C2. A nonblocking assignment visited in non-silent mode returns with its
target and the value its right-hand side has at that moment pending at the next
index of the update buffer; the entry stays pending, as it is, through every
later change of the evaluator's values, every later visit and every later
drain; and the flush of `update()` run from any such later state deposits, at
that index, that value in that target: the value of the right-hand side at the
visit, whatever the right-hand side is worth when the flush runs. -/
theorem C2_rhs_captured_at_visit [Inhabited B] (M : Module) (E : Evaluate S B) (fuel : Nat)
    (na lhs rhs r : NodeId) (σ : SwLogic S B)
    (hnode : M.node na = .NonblockingAssign none lhs rhs)
    (hres : M.resolution lhs = some r)
    (hsil : σ.silent_ = false)
    (hpool : PoolCovers σ) :
    ∃ σ1, schedule_now M E (fuel + 1) na σ = .ok σ1 ∧
      Pending σ.updates_.length (r, E.dereference σ.store r lhs) (E.get_value σ.store rhs) σ1 ∧
      PoolCovers σ1 ∧
      ∀ τ : SwLogic S B,
        Pending σ.updates_.length (r, E.dereference σ.store r lhs)
          (E.get_value σ.store rhs) τ ∧ PoolCovers τ →
        (∀ s : S,
          Pending σ.updates_.length (r, E.dereference σ.store r lhs)
            (E.get_value σ.store rhs) { τ with store := s } ∧
          PoolCovers { τ with store := s }) ∧
        (∀ (k : Nat) (m : NodeId) (τ1 : SwLogic S B), schedule_now M E k m τ = .ok τ1 →
          Pending σ.updates_.length (r, E.dereference σ.store r lhs)
            (E.get_value σ.store rhs) τ1 ∧ PoolCovers τ1) ∧
        (∀ (k : Nat) (τ1 : SwLogic S B), drain M E k τ = .ok τ1 →
          Pending σ.updates_.length (r, E.dereference σ.store r lhs)
            (E.get_value σ.store rhs) τ1 ∧ PoolCovers τ1) ∧
        ∃ pre post : List (Target × B), pre.length = σ.updates_.length ∧
          pending τ = pre ++ ((r, E.dereference σ.store r lhs), E.get_value σ.store rhs) :: post ∧
          update_flush M E τ = .ok
            { post.foldl (flush_entry M E)
                (flush_entry M E (pre.foldl (flush_entry M E) τ)
                  ((r, E.dereference σ.store r lhs), E.get_value σ.store rhs))
              with updates_ := [] } := by
  have hcl := StepClosed.both
    (pending_closed E σ.updates_.length (r, E.dereference σ.store r lhs)
      (E.get_value σ.store rhs))
    (pool_covers_closed E)
  have hlt := grown_pool_covers σ hpool
  have hcap : capture E r lhs rhs σ = .ok
      { σ with
        updates_ := σ.updates_ ++ [(r, E.dereference σ.store r lhs)],
        update_pool_ := List.set (grown_pool σ) σ.updates_.length (E.get_value σ.store rhs) } := by
    unfold capture
    simp only [hlt, if_true]
  refine ⟨notify M na
      { σ with
        updates_ := σ.updates_ ++ [(r, E.dereference σ.store r lhs)],
        update_pool_ := List.set (grown_pool σ) σ.updates_.length (E.get_value σ.store rhs) },
    ?_, ?_, ?_, ?_⟩
  · unfold schedule_now
    simp only [hnode, visit_NonblockingAssign, Option.isSome_none, Bool.false_eq_true,
      if_false, hsil, if_true, hres, hcap, Outcome.bind]
  · unfold Pending
    rw [notify_updates, notify_pool]
    refine ⟨by simp, ?_⟩
    show (List.set (grown_pool σ) σ.updates_.length _)[σ.updates_.length]? = some _
    rw [List.getElem?_set_self hlt]
  · unfold PoolCovers
    rw [notify_updates, notify_pool]
    simp only [List.length_set, List.length_append, List.length_singleton]
    omega
  · intro τ hτ
    refine ⟨fun s => hcl.store τ s hτ, ?_, ?_, ?_⟩
    · intro k m τ1 hr
      exact schedule_now_keeps M E _ hcl k m τ τ1 hτ hr
    · intro k τ1 hr
      exact drain_keeps M E _ hcl (fun _ _ _ h _ => h) k τ τ1 hτ hr
    · obtain ⟨hsplit, hlen⟩ := pending_split τ _ _ _ hτ.1
      refine ⟨_, _, hlen, hsplit, ?_⟩
      rw [update_flush_eq M E τ hτ.2.2]
      unfold flush_in_order
      conv_lhs => rw [hsplit, List.foldl_append, List.foldl_cons]

theorem C2_rhs_captured_at_visit_witness :
    (∃ σ1, schedule_now demo_module demo_eval 1 7 demo_ready = .ok σ1 ∧
      Pending 0 (2, 0, 0, 0) 1 σ1) ∧
    ((schedule_now demo_module demo_eval 1 7 demo_ready).bind (fun σ1 =>
        update_flush demo_module demo_eval
          { σ1 with store := demo_put σ1.store 1 [0] })).get?.map (fun τ => τ.store 2)
      = some [1] :=
  ⟨(C2_rhs_captured_at_visit demo_module demo_eval 0 7 2 1 2 demo_ready rfl rfl rfl
      ⟨by decide, by decide⟩).imp (fun _ h => ⟨h.1, h.2.1⟩), rfl⟩

end Buffer

/-! ## Silent mode -/

section Silent

variable {S B : Type}

theorem Shadows.sched {σ τ : SwLogic S B} (h : Shadows σ τ) (n : NodeId) :
    Shadows (schedule_active n σ) (schedule_active n τ) := by
  obtain ⟨⟨h1, h2, h3, h4⟩, h5⟩ := h
  have hn : σ.on_active n = τ.on_active n := by rw [h3]
  unfold schedule_active
  rw [hn]
  split
  · exact ⟨⟨h1, h2, h3, h4⟩, h5⟩
  · exact ⟨⟨h1, h2, by simp only [h3], by simp only [h4]⟩, h5⟩

theorem Shadows.notify {σ τ : SwLogic S B} (h : Shadows σ τ) (M : Module) (n : NodeId) :
    Shadows (notify M n σ) (notify M n τ) := by
  unfold cascade.notify
  generalize M.monitor_ n = ms
  induction ms generalizing σ τ with
  | nil => exact h
  | cons m ms ih => exact ih (h.sched m)

theorem Shadows.ctrl {σ τ : SwLogic S B} (h : Shadows σ τ) (n : NodeId) (k : Nat) :
    Shadows (set_ctrl n k σ) (set_ctrl n k τ) := by
  obtain ⟨⟨h1, h2, h3, h4⟩, h5⟩ := h
  exact ⟨⟨h1, by simp only [set_ctrl, h2], h3, h4⟩, h5⟩

theorem Shadows.ctrl_eq {σ τ : SwLogic S B} (h : Shadows σ τ) (n : NodeId) :
    σ.ctrl_ n = τ.ctrl_ n := by
  rw [h.1.2.1]

theorem Shadows.all {σ τ τ1 : SwLogic S B}
    (now : NodeId → SwLogic S B → Outcome (SwLogic S B))
    (hnow : ∀ n σ τ τ1, Shadows σ τ → now n τ = .ok τ1 →
      ∃ σ1, now n σ = .ok σ1 ∧ Shadows σ1 τ1)
    (ns : List NodeId) (h : Shadows σ τ) (hr : schedule_all now ns τ = .ok τ1) :
    ∃ σ1, schedule_all now ns σ = .ok σ1 ∧ Shadows σ1 τ1 := by
  induction ns generalizing σ τ with
  | nil => exact ⟨σ, rfl, Outcome.ok_inj hr ▸ h⟩
  | cons n ns ih =>
    obtain ⟨a, ha, hb⟩ := Outcome.bind_eq_ok.mp hr
    obtain ⟨a1, ha1, hs1⟩ := hnow _ _ _ _ h ha
    obtain ⟨b1, hb1, hs2⟩ := ih hs1 hb
    exact ⟨b1, by simp only [schedule_all, ha1, Outcome.bind, hb1], hs2⟩

theorem set_ctrl_self (n : NodeId) (k : Nat) (σ : SwLogic S B) :
    (set_ctrl n k σ).ctrl_ n = k := by
  simp [set_ctrl]

theorem set_ctrl_store (n : NodeId) (k : Nat) (σ : SwLogic S B) :
    (set_ctrl n k σ).store = σ.store := rfl

/-- What a visit does in silent mode it does, as far as values, cursors, flags
and queue go, whenever the same visit returns from a state that agrees on them. -/
theorem schedule_now_shadow [Inhabited B] (M : Module) (E : Evaluate S B) :
    ∀ (fuel : Nat) (n : NodeId) (σ τ τ1 : SwLogic S B), Shadows σ τ →
      schedule_now M E fuel n τ = .ok τ1 →
      ∃ σ1, schedule_now M E fuel n σ = .ok σ1 ∧ Shadows σ1 τ1 := by
  intro fuel
  induction fuel with
  | zero => intro n σ τ τ1 _ h; simp [schedule_now] at h
  | succ fuel ih =>
    intro n σ τ τ1 h hr
    have hst : σ.store = τ.store := h.1.1
    have hsil : σ.silent_ = true := h.2
    have hc : σ.ctrl_ n = τ.ctrl_ n := h.ctrl_eq n
    have hall := fun (ns : List NodeId) (σ τ τ1 : SwLogic S B) (h : Shadows σ τ)
      (hr : schedule_all (schedule_now M E fuel) ns τ = .ok τ1) =>
      Shadows.all (schedule_now M E fuel) ih ns h hr
    unfold schedule_now at hr ⊢
    revert hr
    cases hnode : M.node n with
    | Identifier => intro hr; exact ⟨σ, rfl, Outcome.ok_inj hr ▸ h⟩
    | Expression => intro hr; exact ⟨σ, rfl, Outcome.ok_inj hr ▸ h⟩
    | Event type expr =>
      simp only [visit_Event, hst]
      intro hr
      split at hr
      · rw [if_pos (by assumption)]
        revert hr
        cases M.resolution expr with
        | none => intro hr; simp at hr
        | some r =>
          simp only
          intro hr
          split at hr
          · rw [if_pos (by assumption)]
            exact ⟨_, rfl, Outcome.ok_inj hr ▸ h.notify M n⟩
          · rw [if_neg (by assumption)]
            split at hr
            · rw [if_pos (by assumption)]
              exact ⟨_, rfl, Outcome.ok_inj hr ▸ h.notify M n⟩
            · rw [if_neg (by assumption)]
              exact ⟨_, rfl, Outcome.ok_inj hr ▸ h⟩
      · simp at hr
    | AlwaysConstruct stmt =>
      simp only [visit_AlwaysConstruct]
      intro hr
      exact ih _ _ _ _ h hr
    | InitialConstruct ign stmt =>
      simp only [visit_InitialConstruct]
      intro hr
      split at hr
      · rw [if_pos (by assumption)]
        exact ⟨_, rfl, Outcome.ok_inj hr ▸ h.sched stmt⟩
      · rw [if_neg (by assumption)]
        exact ⟨_, rfl, Outcome.ok_inj hr ▸ h⟩
    | ContinuousAssign ctrl assign =>
      simp only [visit_ContinuousAssign]
      intro hr
      split at hr
      · simp at hr
      · rw [if_neg (by assumption)]
        exact ih _ _ _ _ h hr
    | BlockingAssign ctrl assign =>
      simp only [visit_BlockingAssign]
      intro hr
      split at hr
      · simp at hr
      · rw [if_neg (by assumption)]
        obtain ⟨a, ha, hb⟩ := Outcome.bind_eq_ok.mp hr
        obtain ⟨a1, ha1, hs1⟩ := ih _ _ _ _ h ha
        rw [ha1]
        exact ⟨_, rfl, Outcome.ok_inj hb ▸ hs1.notify M n⟩
    | NonblockingAssign ctrl lhs rhs =>
      simp only [visit_NonblockingAssign, hsil]
      intro hr
      split at hr
      · simp at hr
      · rw [if_neg (by assumption)]
        simp only [Bool.true_eq_false, if_false]
        refine ⟨_, rfl, ?_⟩
        split at hr
        · split at hr
          · simp at hr
          · obtain ⟨a, ha, hb⟩ := Outcome.bind_eq_ok.mp hr
            have hτa : Shadows σ a := by
              rw [(capture_ok ha).2]
              exact ⟨h.1, h.2⟩
            exact Outcome.ok_inj hb ▸ hτa.notify M n
        · exact Outcome.ok_inj hr ▸ h.notify M n
    | ParBlock stmts =>
      simp only [visit_ParBlock, hc, set_ctrl_self]
      intro hr
      split at hr
      · rw [if_pos (by assumption)]
        exact hall _ _ _ _ (h.ctrl n _) hr
      · rw [if_neg (by assumption)]
        split at hr
        · rw [if_pos (by assumption)]
          exact ⟨_, rfl, Outcome.ok_inj hr ▸ (h.ctrl n _).notify M n⟩
        · rw [if_neg (by assumption)]
          exact ⟨_, rfl, Outcome.ok_inj hr ▸ h.ctrl n _⟩
    | SeqBlock stmts =>
      simp only [visit_SeqBlock, hc]
      intro hr
      revert hr
      cases stmts[τ.ctrl_ n]? with
      | none =>
        simp only
        intro hr
        exact ⟨_, rfl, Outcome.ok_inj hr ▸ (h.ctrl n _).notify M n⟩
      | some item =>
        simp only
        intro hr
        exact ih _ _ _ _ (h.ctrl n _) hr
    | CaseStatement cond items =>
      simp only [visit_CaseStatement, hc, set_ctrl_store, hst]
      intro hr
      split at hr
      · rw [if_pos (by assumption)]
        revert hr
        cases select_item E τ.store (E.to_int (E.get_value τ.store cond)) items with
        | none => intro hr; simp at hr
        | some stmt =>
          simp only
          intro hr
          exact ih _ _ _ _ (h.ctrl n _) hr
      · rw [if_neg (by assumption)]
        exact ⟨_, rfl, Outcome.ok_inj hr ▸ (h.ctrl n _).notify M n⟩
    | ConditionalStatement cond t e =>
      simp only [visit_ConditionalStatement, hc, set_ctrl_store, hst]
      intro hr
      split at hr
      · rw [if_pos (by assumption)]
        split at hr
        · rw [if_pos (by assumption)]
          exact ih _ _ _ _ (h.ctrl n _) hr
        · rw [if_neg (by assumption)]
          exact ih _ _ _ _ (h.ctrl n _) hr
      · rw [if_neg (by assumption)]
        exact ⟨_, rfl, Outcome.ok_inj hr ▸ (h.ctrl n _).notify M n⟩
    | ForStatement init cond update stmt =>
      have hft : ∀ (σ τ τ1 : SwLogic S B), Shadows σ τ →
          for_test M E (schedule_now M E fuel) n cond stmt τ = .ok τ1 →
          ∃ σ1, for_test M E (schedule_now M E fuel) n cond stmt σ = .ok σ1 ∧
            Shadows σ1 τ1 := by
        intro σ τ τ1 h hr
        unfold for_test at hr ⊢
        rw [h.1.1]
        split at hr
        · rw [if_pos (by assumption)]
          exact ⟨_, rfl, Outcome.ok_inj hr ▸ (h.ctrl n _).notify M n⟩
        · rw [if_neg (by assumption)]
          exact ih _ _ _ _ (h.ctrl n _) hr
      simp only [visit_ForStatement, hc]
      intro hr
      split at hr
      · rw [if_pos (by assumption)]
        obtain ⟨a, ha, hb⟩ := Outcome.bind_eq_ok.mp hr
        obtain ⟨a1, ha1, hs1⟩ := ih _ _ _ _ (h.ctrl n _) ha
        rw [ha1]
        exact hft _ _ _ hs1 hb
      · rw [if_neg (by assumption)]
        split at hr
        · rw [if_pos (by assumption)]
          exact hft _ _ _ h hr
        · rw [if_neg (by assumption)]
          obtain ⟨a, ha, hb⟩ := Outcome.bind_eq_ok.mp hr
          obtain ⟨a1, ha1, hs1⟩ := ih _ _ _ _ (h.ctrl n _) ha
          rw [ha1]
          exact ih _ _ _ _ hs1 hb
    | RepeatStatement cond stmt =>
      simp only [visit_RepeatStatement, hc, hst]
      have h1 : Shadows
          (if τ.ctrl_ n = 0
            then set_ctrl n ((E.to_int (E.get_value τ.store cond) + 1) % SIZE_MOD) σ else σ)
          (if τ.ctrl_ n = 0
            then set_ctrl n ((E.to_int (E.get_value τ.store cond) + 1) % SIZE_MOD) τ else τ) := by
        split
        · exact h.ctrl n _
        · exact h
      generalize (if τ.ctrl_ n = 0
        then set_ctrl n ((E.to_int (E.get_value τ.store cond) + 1) % SIZE_MOD) σ else σ) = σ' at h1 ⊢
      generalize (if τ.ctrl_ n = 0
        then set_ctrl n ((E.to_int (E.get_value τ.store cond) + 1) % SIZE_MOD) τ else τ) = τ' at h1 ⊢
      simp only [set_ctrl_self, h1.ctrl_eq n]
      intro hr
      split at hr
      · rename_i hz
        rw [if_pos hz]
        exact ⟨_, rfl, Outcome.ok_inj hr ▸ (h1.ctrl n _).notify M n⟩
      · rename_i hz
        rw [if_neg hz]
        exact ih _ _ _ _ (h1.ctrl n _) hr
    | WhileStatement cond stmt =>
      simp only [visit_WhileStatement, hst]
      intro hr
      split at hr
      · rw [if_pos (by assumption)]
        exact ⟨_, rfl, Outcome.ok_inj hr ▸ h.notify M n⟩
      · rw [if_neg (by assumption)]
        exact ih _ _ _ _ h hr
    | TimingControlStatement ctrl stmt =>
      simp only [visit_TimingControlStatement, hc]
      intro hr
      split at hr
      · rw [if_pos (by assumption)]
        exact ⟨_, rfl, Outcome.ok_inj hr ▸ h.ctrl n _⟩
      · rw [if_neg (by assumption)]
        split at hr
        · rw [if_pos (by assumption)]
          exact ih _ _ _ _ (h.ctrl n _) hr
        · rw [if_neg (by assumption)]
          exact ⟨_, rfl, Outcome.ok_inj hr ▸ (h.ctrl n _).notify M n⟩
    | DisplayStatement args =>
      simp only [visit_DisplayStatement, hsil, Bool.true_eq_false, if_false]
      intro hr
      refine ⟨_, rfl, ?_⟩
      split at hr
      · have ht : Shadows σ (task (IfaceCall.display (E.format τ.store args)) τ) := ⟨h.1, h.2⟩
        exact Outcome.ok_inj hr ▸ ht.notify M n
      · exact Outcome.ok_inj hr ▸ h.notify M n
    | FinishStatement arg =>
      simp only [visit_FinishStatement, hsil, Bool.true_eq_false, if_false]
      intro hr
      refine ⟨_, rfl, ?_⟩
      split at hr
      · have ht : Shadows σ (task (IfaceCall.finish (E.to_int (E.get_value τ.store arg))) τ) := ⟨h.1, h.2⟩
        exact Outcome.ok_inj hr ▸ ht.notify M n
      · exact Outcome.ok_inj hr ▸ h.notify M n
    | WriteStatement args =>
      simp only [visit_WriteStatement, hsil, Bool.true_eq_false, if_false]
      intro hr
      refine ⟨_, rfl, ?_⟩
      split at hr
      · have ht : Shadows σ (task (IfaceCall.write (E.format τ.store args)) τ) := ⟨h.1, h.2⟩
        exact Outcome.ok_inj hr ▸ ht.notify M n
      · exact Outcome.ok_inj hr ▸ h.notify M n
    | WaitStatement cond stmt =>
      simp only [visit_WaitStatement, hc, hst]
      intro hr
      split at hr
      · rw [if_pos (by assumption)]
        split at hr
        · rw [if_pos (by assumption)]
          exact ⟨_, rfl, Outcome.ok_inj hr ▸ h⟩
        · rw [if_neg (by assumption)]
          exact ih _ _ _ _ (h.ctrl n _) hr
      · rw [if_neg (by assumption)]
        exact ⟨_, rfl, Outcome.ok_inj hr ▸ (h.ctrl n _).notify M n⟩
    | DelayControl => intro hr; simp [visit_DelayControl] at hr
    | EventControl =>
      simp only [visit_EventControl]
      intro hr
      exact ⟨_, rfl, Outcome.ok_inj hr ▸ h.notify M n⟩
    | VariableAssign lhs rhs =>
      simp only [visit_VariableAssign, hst]
      cases M.resolution lhs with
      | none => intro hr; simp at hr
      | some r =>
        simp only
        intro hr
        refine ⟨_, rfl, ?_⟩
        have hs : Shadows
            { σ with store := E.assign_value τ.store lhs (E.get_value τ.store rhs) }
            { τ with store := E.assign_value τ.store lhs (E.get_value τ.store rhs) } :=
          ⟨⟨rfl, h.1.2.1, h.1.2.2.1, h.1.2.2.2⟩, h.2⟩
        exact Outcome.ok_inj hr ▸ hs.notify M r

theorem notify_tasks (M : Module) (n : NodeId) (σ : SwLogic S B) :
    (notify M n σ).there_were_tasks_ = σ.there_were_tasks_ :=
  notify_proj M (fun τ => τ.there_were_tasks_)
    (fun n τ => by unfold schedule_active; split <;> rfl) n σ

theorem notify_iface (M : Module) (n : NodeId) (σ : SwLogic S B) :
    (notify M n σ).iface = σ.iface :=
  notify_proj M (fun τ => τ.iface) (fun n τ => by unfold schedule_active; split <;> rfl) n σ

theorem notify_silent (M : Module) (n : NodeId) (σ : SwLogic S B) :
    (notify M n σ).silent_ = σ.silent_ :=
  notify_proj M (fun τ => τ.silent_) (fun n τ => by unfold schedule_active; split <;> rfl) n σ

/-- C6, as amended. Whenever the visit of a node with silent mode off returns,
the visit of that node with silent mode on, from the same evaluator values,
cursors, flags and queue, returns too and produces the same `ctrl_` cursors,
the same flags, the same active queue and the same evaluator values. With
silent mode on, the visit of a NonblockingAssign without timing control, of a
DisplayStatement, of a WriteStatement or of a FinishStatement returns and
only notifies the monitors of the node: the update buffer, the pool, the
`there_were_tasks_` flag and the log of `Interface` calls are as before. A
NonblockingAssign with a timing control aborts in both modes. -/
theorem C6_silent_mode [Inhabited B] (M : Module) (E : Evaluate S B) :
    (∀ (fuel : Nat) (n : NodeId) (σ τ τ1 : SwLogic S B),
      SameControl σ τ → σ.silent_ = true → τ.silent_ = false →
      schedule_now M E fuel n τ = .ok τ1 →
      ∃ σ1, schedule_now M E fuel n σ = .ok σ1 ∧ σ1.ctrl_ = τ1.ctrl_ ∧
        σ1.on_active = τ1.on_active ∧ σ1.active_ = τ1.active_ ∧ σ1.store = τ1.store) ∧
    (∀ (fuel : Nat) (n : NodeId) (σ : SwLogic S B), σ.silent_ = true →
      is_silenced (M.node n) = true → has_timing_control (M.node n) = false →
      schedule_now M E (fuel + 1) n σ = .ok (notify M n σ)) ∧
    (∀ (n : NodeId) (σ : SwLogic S B),
      (notify M n σ).updates_ = σ.updates_ ∧ (notify M n σ).update_pool_ = σ.update_pool_ ∧
      (notify M n σ).there_were_tasks_ = σ.there_were_tasks_ ∧
      (notify M n σ).iface = σ.iface) ∧
    (∀ (fuel : Nat) (n : NodeId) (σ : SwLogic S B), is_silenced (M.node n) = true →
      has_timing_control (M.node n) = true → schedule_now M E (fuel + 1) n σ = .fatal) := by
  refine ⟨?_, ?_, ?_, ?_⟩
  · intro fuel n σ τ τ1 hsame hsil _ hr
    obtain ⟨σ1, h1, ⟨hs, hc, hf, ha⟩, _⟩ :=
      schedule_now_shadow M E fuel n σ τ τ1 ⟨hsame, hsil⟩ hr
    exact ⟨σ1, h1, hc, hf, ha, hs⟩
  · intro fuel n σ hsil hk htc
    unfold schedule_now
    cases hnode : M.node n <;> rw [hnode] at hk htc <;>
      simp only [is_silenced, Bool.false_eq_true] at hk
    · rename_i ctrl lhs rhs
      cases ctrl with
      | some c => simp [has_timing_control] at htc
      | none => simp [visit_NonblockingAssign, hsil]
    · simp [visit_DisplayStatement, hsil]
    · simp [visit_FinishStatement, hsil]
    · simp [visit_WriteStatement, hsil]
  · intro n σ
    exact ⟨notify_updates M n σ, notify_pool M n σ, notify_tasks M n σ, notify_iface M n σ⟩
  · intro fuel n σ hk htc
    unfold schedule_now
    cases hnode : M.node n <;> rw [hnode] at hk htc <;>
      simp only [is_silenced, has_timing_control, Bool.false_eq_true] at hk htc
    rename_i ctrl lhs rhs
    cases ctrl with
    | some c => simp [visit_NonblockingAssign]
    | none => simp [has_timing_control] at htc

theorem C6_silent_mode_witness :
    (∃ σ1, schedule_now demo_module demo_eval 1 7 { demo_ready with silent_ := true } = .ok σ1 ∧
      σ1.active_ = [4, 6, 9]) ∧
    (schedule_now demo_module demo_eval 1 7 demo_ready).get?.map (fun τ => τ.active_)
      = some [4, 6, 9] :=
  ⟨((C6_silent_mode demo_module demo_eval).1 1 7 { demo_ready with silent_ := true }
      demo_ready ((schedule_now demo_module demo_eval 1 7 demo_ready).getD demo_init)
      ⟨rfl, rfl, rfl, rfl⟩ rfl rfl rfl).imp (fun _ h => ⟨h.1, h.2.2.2.1⟩), rfl⟩

/-- C6 fails as stated: node 20 of the demo module is a NonblockingAssign
whose left-hand side has no resolution. With silent mode on its visit returns,
having put its monitor on the active queue; with silent mode off, from the same
state, the visit aborts on `assert(r != nullptr)`. -/
theorem C6_counterexample :
    demo_module.node 20 = .NonblockingAssign none 21 1 ∧
    demo_module.resolution 21 = none ∧
    (schedule_now demo_module demo_eval 1 20 { demo_init with silent_ := true }).get?.map
      (fun σ => (σ.active_, σ.on_active 4)) = some ([4], true) ∧
    schedule_now demo_module demo_eval 1 20 { demo_init with silent_ := false }
      = Outcome.fatal :=
  ⟨rfl, rfl, rfl, rfl⟩

end Silent

/-! ## The binding table and snapshots -/

section Binding

variable {S B : Type}

theorem State.find_insert (s : State B) (k v : VId) (a : List B) :
    State.find (State.insert s k a) v =
      match State.find s v with
      | some x => some x
      | none => if k = v then some a else none := by
  unfold State.insert
  split
  · rename_i hk
    cases hv : State.find s v with
    | some x => rfl
    | none =>
      simp only
      split
      · rename_i hkv
        subst hkv
        rw [hv] at hk
        simp at hk
      · rfl
  · rename_i hk
    have hk2 : List.find? (fun p => p.1 == k) s = none := by
      cases hf : List.find? (fun p => p.1 == k) s with
      | none => rfl
      | some x => simp [State.find, hf] at hk
    unfold State.find
    rw [List.find?_append]
    cases hv : List.find? (fun p => p.1 == v) s with
    | some x => simp
    | none =>
      by_cases hkv : k = v
      · simp [hkv]
      · simp [hkv]

/-- What a snapshot binds to `v`: the array value of the identifier `state_`
binds to `v`. -/
theorem find_get_state (E : Evaluate S B) (σ : SwLogic S B) (v : VId) :
    State.find (get_state E σ) v =
      (state_lookup σ.state_ v).map (E.get_array_value σ.store) := by
  unfold get_state
  have key : ∀ (L : List (VId × NodeId)) (acc : State B),
      State.find (L.foldl
        (fun s sv => State.insert s sv.1 (E.get_array_value σ.store sv.2)) acc) v =
      match State.find acc v with
      | some x => some x
      | none => (state_lookup L v).map (E.get_array_value σ.store) := by
    intro L
    induction L with
    | nil =>
      intro acc
      simp only [List.foldl_nil]
      cases h : State.find acc v <;> simp [state_lookup]
    | cons p L ih =>
      intro acc
      rw [List.foldl_cons, ih, State.find_insert]
      cases State.find acc v with
      | some x => rfl
      | none =>
        by_cases hpv : p.1 = v
        · simp [hpv, state_lookup, List.find?_cons]
        · simp [hpv, state_lookup, List.find?_cons]
  rw [key]
  simp [State.find]

theorem state_lookup_mem (m : List (VId × NodeId)) (v : VId) (id : NodeId)
    (hkeys : (m.map Prod.fst).Nodup) (hmem : (v, id) ∈ m) : state_lookup m v = some id := by
  induction m with
  | nil => simp at hmem
  | cons p m ih =>
    simp only [List.map_cons, List.nodup_cons] at hkeys
    rcases List.mem_cons.mp hmem with h | h
    · subst h
      simp [state_lookup, List.find?_cons]
    · have hne : p.1 ≠ v := by
        intro heq
        apply hkeys.1
        rw [heq]
        exact List.mem_map.mpr ⟨(v, id), h, rfl⟩
      have hb : (p.1 == v) = false := by simp [hne]
      have := ih hkeys.2 h
      simp only [state_lookup, List.find?_cons, hb] at this ⊢
      exact this

/-- The keys of the table after a rebinding are the keys before it. -/
theorem rebind_keys (m : List (VId × NodeId)) (v : VId) (id : NodeId) :
    (m.map (fun p => if p.1 == v then (v, id) else p)).map Prod.fst = m.map Prod.fst := by
  rw [List.map_map]
  apply List.map_congr_left
  intro p _
  show (if p.1 == v then (v, id) else p).1 = p.1
  by_cases h : p.1 = v
  · simp [h]
  · simp [h]

/-- The table of `state_` never binds a `VId` twice. -/
theorem state_insert_keys (m : List (VId × NodeId)) (v : VId) (id : NodeId)
    (hkeys : (m.map Prod.fst).Nodup) : ((state_insert m v id).map Prod.fst).Nodup := by
  unfold state_insert
  split
  · rw [rebind_keys]
    exact hkeys
  · rename_i hv
    rw [List.map_append, List.nodup_append]
    refine ⟨hkeys, by simp, ?_⟩
    intro a ha hb
    simp only [List.map_cons, List.map_nil, List.mem_singleton] at hb
    subst hb
    obtain ⟨p, hp, hpa⟩ := List.mem_map.mp ha
    apply hv
    rw [Option.isSome_iff_exists]
    have : (List.find? (fun q => q.1 == p.1) m).isSome := by
      rw [List.find?_isSome]
      exact ⟨p, hp, by simp⟩
    rw [hpa] at this
    exact Option.isSome_iff_exists.mp this

/-- A restore whose snapshot binds each registered `VId` to the array value
its identifier has in `σ0`. -/
theorem restore_from_snapshot (E : Evaluate S B)
    (hsame : ∀ s id a, E.get_array_value (E.assign_array_value s id a) id = a)
    (hother : ∀ s id id1 a, id1 ≠ id →
      E.get_array_value (E.assign_array_value s id a) id1 = E.get_array_value s id1)
    (snap : State B) (store0 : S) :
    ∀ (L : List (VId × NodeId)) (st : S),
      (∀ p ∈ L, State.find snap p.1 = some (E.get_array_value store0 p.2)) →
      (∀ id ∈ L.map Prod.snd,
        E.get_array_value (L.foldl (fun st sv => match State.find snap sv.1 with
          | some a => E.assign_array_value st sv.2 a
          | none => st) st) id = E.get_array_value store0 id) ∧
      (∀ id, id ∉ L.map Prod.snd →
        E.get_array_value (L.foldl (fun st sv => match State.find snap sv.1 with
          | some a => E.assign_array_value st sv.2 a
          | none => st) st) id = E.get_array_value st id) := by
  intro L
  induction L with
  | nil => intro st _; simp
  | cons p L ih =>
    intro st hL
    have hp := hL p (List.mem_cons_self _ _)
    obtain ⟨ih1, ih2⟩ := ih (E.assign_array_value st p.2 (E.get_array_value store0 p.2))
      (fun q hq => hL q (List.mem_cons_of_mem _ hq))
    simp only [List.foldl_cons, hp]
    refine ⟨?_, ?_⟩
    · intro id hid
      by_cases hin : id ∈ L.map Prod.snd
      · exact ih1 id hin
      · have hid2 : id = p.2 := by
          simp only [List.map_cons, List.mem_cons] at hid
          rcases hid with h | h
          · exact h
          · exact absurd h hin
        rw [ih2 id hin, hid2, hsame]
    · intro id hid
      simp only [List.map_cons, List.mem_cons, not_or] at hid
      rw [ih2 id hid.2, hother _ _ _ _ hid.1]

/-- C7. Provided the evaluator gives back the array value last assigned to an
identifier and an assignment to one identifier leaves the others alone: take
the snapshot `get_state()`, replace the evaluator's values by any others, apply
`set_state` with the snapshot; then every registered state identifier has the
array value it had when the snapshot was taken. In particular
`set_state(get_state())` leaves the array value of every identifier as it is. -/
theorem C7_snapshot_restore_round_trip (E : Evaluate S B)
    (hsame : ∀ s id a, E.get_array_value (E.assign_array_value s id a) id = a)
    (hother : ∀ s id id1 a, id1 ≠ id →
      E.get_array_value (E.assign_array_value s id a) id1 = E.get_array_value s id1)
    (σ : SwLogic S B) (hkeys : (σ.state_.map Prod.fst).Nodup) :
    (∀ (changed : S) (v : VId) (id : NodeId), (v, id) ∈ σ.state_ →
      E.get_array_value
        (set_state_from E (get_state E σ) { σ with store := changed }).store id
        = E.get_array_value σ.store id) ∧
    (∀ id : NodeId,
      E.get_array_value (set_state_from E (get_state E σ) σ).store id
        = E.get_array_value σ.store id) := by
  have hsnap : ∀ p ∈ σ.state_,
      State.find (get_state E σ) p.1 = some (E.get_array_value σ.store p.2) := by
    intro p hp
    rw [find_get_state, state_lookup_mem σ.state_ p.1 p.2 hkeys hp]
    rfl
  refine ⟨?_, ?_⟩
  · intro changed v id hmem
    have := (restore_from_snapshot E hsame hother (get_state E σ) σ.store σ.state_ changed
      hsnap).1 id (List.mem_map.mpr ⟨(v, id), hmem, rfl⟩)
    exact this
  · intro id
    have h := restore_from_snapshot E hsame hother (get_state E σ) σ.store σ.state_ σ.store
      hsnap
    by_cases hin : id ∈ σ.state_.map Prod.snd
    · exact h.1 id hin
    · exact h.2 id hin

theorem C7_snapshot_restore_round_trip_witness :
    (demo_updated.state_.map Prod.fst).Nodup ∧ (0, 2) ∈ demo_updated.state_ ∧
    demo_eval.get_array_value
      (set_state_from demo_eval (get_state demo_eval demo_updated)
        { demo_updated with store := fun _ => [99] }).store 2
      = demo_eval.get_array_value demo_updated.store 2 :=
  ⟨by decide, by decide,
    (C7_snapshot_restore_round_trip demo_eval
      (fun s id a => by simp [demo_eval, demo_put])
      (fun s id id1 a h => by simp [demo_eval, demo_put, h])
      demo_updated (by decide)).1 (fun _ => [99]) 0 2 (by decide)⟩

/-- A restore when no identifier is registered twice. -/
theorem restore_injective (E : Evaluate S B)
    (hsame : ∀ s id a, E.get_array_value (E.assign_array_value s id a) id = a)
    (hother : ∀ s id id1 a, id1 ≠ id →
      E.get_array_value (E.assign_array_value s id a) id1 = E.get_array_value s id1)
    (snap : State B) :
    ∀ (L : List (VId × NodeId)) (st : S), (L.map Prod.snd).Nodup →
      (∀ p ∈ L,
        E.get_array_value (L.foldl (fun st sv => match State.find snap sv.1 with
          | some a => E.assign_array_value st sv.2 a
          | none => st) st) p.2 = (State.find snap p.1).getD (E.get_array_value st p.2)) ∧
      (∀ id, id ∉ L.map Prod.snd →
        E.get_array_value (L.foldl (fun st sv => match State.find snap sv.1 with
          | some a => E.assign_array_value st sv.2 a
          | none => st) st) id = E.get_array_value st id) := by
  intro L
  induction L with
  | nil => intro st _; simp
  | cons p L ih =>
    intro st hnd
    simp only [List.map_cons, List.nodup_cons] at hnd
    have hstep : ∀ id, id ≠ p.2 →
        E.get_array_value (match State.find snap p.1 with
          | some a => E.assign_array_value st p.2 a
          | none => st) id = E.get_array_value st id := by
      intro id hid
      cases State.find snap p.1 with
      | none => rfl
      | some a => exact hother _ _ _ _ hid
    obtain ⟨ih1, ih2⟩ := ih (match State.find snap p.1 with
          | some a => E.assign_array_value st p.2 a
          | none => st) hnd.2
    simp only [List.foldl_cons]
    refine ⟨?_, ?_⟩
    · intro q hq
      rcases List.mem_cons.mp hq with h | h
      · subst h
        rw [ih2 q.2 hnd.1]
        cases State.find snap q.1 with
        | none => rfl
        | some a => exact hsame _ _ _
      · have hne : q.2 ≠ p.2 := by
          intro heq
          apply hnd.1
          rw [← heq]
          exact List.mem_map.mpr ⟨q, h, rfl⟩
        rw [ih1 q h, hstep q.2 hne]
    · intro id hid
      simp only [List.map_cons, List.mem_cons, not_or] at hid
      rw [ih2 id hid.2, hstep id hid.1]

/-- C8, as amended. Provided the evaluator gives back the array value last
assigned to an identifier and an assignment to one identifier leaves the
others alone, and provided no identifier is registered under two `VId`s:
`set_state(s)`, which is total, leaves the value of every registered identifier
whose `VId` is absent from `s` as it is, gives every registered identifier whose
`VId` is present in `s` the value `s` has for it, leaves every identifier that
is not registered as it is, and does the same for any two snapshots that agree
on the registered `VId`s. -/
theorem C8_partial_restore (E : Evaluate S B)
    (hsame : ∀ s id a, E.get_array_value (E.assign_array_value s id a) id = a)
    (hother : ∀ s id id1 a, id1 ≠ id →
      E.get_array_value (E.assign_array_value s id a) id1 = E.get_array_value s id1)
    (σ : SwLogic S B) (hids : (σ.state_.map Prod.snd).Nodup) (s : State B) :
    (∀ (v : VId) (id : NodeId), (v, id) ∈ σ.state_ → State.find s v = none →
      E.get_array_value (set_state_from E s σ).store id = E.get_array_value σ.store id) ∧
    (∀ (v : VId) (id : NodeId) (a : List B), (v, id) ∈ σ.state_ → State.find s v = some a →
      E.get_array_value (set_state_from E s σ).store id = a) ∧
    (∀ id : NodeId, id ∉ σ.state_.map Prod.snd →
      E.get_array_value (set_state_from E s σ).store id = E.get_array_value σ.store id) ∧
    (∀ s1 : State B, (∀ v ∈ σ.state_.map Prod.fst, State.find s1 v = State.find s v) →
      set_state_from E s1 σ = set_state_from E s σ) := by
  obtain ⟨h1, h2⟩ := restore_injective E hsame hother s σ.state_ σ.store hids
  refine ⟨?_, ?_, h2, ?_⟩
  · intro v id hmem hnone
    have := h1 (v, id) hmem
    simp only [hnone, Option.getD_none] at this
    exact this
  · intro v id a hmem hsome
    have := h1 (v, id) hmem
    simp only [hsome, Option.getD_some] at this
    exact this
  · intro s1 hagree
    unfold set_state_from
    simp only
    congr 1
    have key : ∀ (L : List (VId × NodeId)) (st : S),
        (∀ v ∈ L.map Prod.fst, State.find s1 v = State.find s v) →
        L.foldl (fun st sv => match State.find s1 sv.1 with
          | some a => E.assign_array_value st sv.2 a
          | none => st) st =
        L.foldl (fun st sv => match State.find s sv.1 with
          | some a => E.assign_array_value st sv.2 a
          | none => st) st := by
      intro L
      induction L with
      | nil => intro st _; rfl
      | cons p L ih =>
        intro st hL
        simp only [List.foldl_cons]
        rw [hL p.1 (by simp), ih _ (fun v hv => hL v (by simp at hv ⊢; exact Or.inr hv))]
    exact key σ.state_ σ.store hagree

theorem C8_partial_restore_witness :
    (demo_updated.state_.map Prod.snd).Nodup ∧
    demo_eval.get_array_value (set_state_from demo_eval [(0, [5])] demo_updated).store 12
      = demo_eval.get_array_value demo_updated.store 12 :=
  ⟨by decide,
    (C8_partial_restore demo_eval
      (fun s id a => by simp [demo_eval, demo_put])
      (fun s id id1 a h => by simp [demo_eval, demo_put, h])
      demo_updated (by decide) [(0, [5])]).1 1 12 (by decide) rfl⟩

/-- C8 fails as stated: with `q` registered under the `VId`s 0 and 1, and a
snapshot that binds 1 only, `VId` 0 of `q` is absent from the snapshot and the
restore changes the value of `q` all the same. -/
theorem C8_counterexample :
    (0, 2) ∈ demo_aliased.state_ ∧ State.find [(1, [9])] 0 = (none : Option (List Nat)) ∧
    demo_eval.get_array_value demo_aliased.store 2 = [2] ∧
    demo_eval.get_array_value (set_state_from demo_eval [(1, [9])] demo_aliased).store 2 = [9] :=
  ⟨by decide, rfl, rfl, rfl⟩

/-- The first binding of `w` in a table in which `v` has been rebound. -/
theorem find_rebind (m : List (VId × NodeId)) (v w : VId) (id : NodeId) :
    List.find? (fun p => p.1 == w) (m.map (fun p => if p.1 == v then (v, id) else p)) =
      if w = v then (List.find? (fun p => p.1 == v) m).map (fun _ => (v, id))
      else List.find? (fun p => p.1 == w) m := by
  induction m with
  | nil => simp
  | cons p m ih =>
    rw [List.map_cons, List.find?_cons, ih]
    by_cases hp : p.1 = v
    · have hpb : (p.1 == v) = true := by simp [hp]
      by_cases hw : w = v
      · have hb : (v == w) = true := by simp [hw]
        simp [hpb, hw, List.find?_cons]
      · have hb : (v == w) = false := by simp; exact fun h => hw h.symm
        simp [hpb, hw, hb, List.find?_cons]
        rw [hp, hb]
    · have hpb : (p.1 == v) = false := by simp [hp]
      by_cases hw : w = v
      · subst hw
        simp [hpb, List.find?_cons]
      · simp [hpb, hw, List.find?_cons]

/-- What the table binds after an insertion: the inserted key is bound to the
new identifier, every other key as before. -/
theorem state_lookup_insert (m : List (VId × NodeId)) (v w : VId) (id : NodeId) :
    state_lookup (state_insert m v id) w = if w = v then some id else state_lookup m w := by
  unfold state_insert state_lookup
  split
  · rename_i hv
    rw [find_rebind]
    by_cases hw : w = v
    · obtain ⟨x, hx⟩ := Option.isSome_iff_exists.mp hv
      simp [hw, hx]
    · simp [hw]
  · rename_i hv
    have hf : List.find? (fun p => p.1 == v) m = none := by
      cases hf : List.find? (fun p => p.1 == v) m with
      | none => rfl
      | some x => simp [hf] at hv
    rw [List.find?_append]
    by_cases hw : w = v
    · subst hw
      simp [hf]
    · have hvw : ¬ v = w := fun h => hw h.symm
      simp [hw, hvw, List.find?_cons]

theorem state_insert_bound (m : List (VId × NodeId)) (v : VId) (id : NodeId) :
    (List.find? (fun p => p.1 == v) (state_insert m v id)).isSome = true := by
  have h := state_lookup_insert m v v id
  rw [if_pos rfl] at h
  unfold state_lookup at h
  cases hf : List.find? (fun p => p.1 == v) (state_insert m v id) with
  | none => rw [hf] at h; simp at h
  | some x => rfl

/-- C9. With the table of `state_` a mapping in which, as the spec has it,
collisions overwrite: `set_state(id1, v)` binds `v` to `id1`, and after
`set_state(id1, v)` followed by `set_state(id2, v)` the table binds `v` to `id2`,
the later registration, whatever it bound before; a following `get_state()`
reads the value of `v` from `id2`; and every other `VId` is bound as it was
before the two registrations. With `q` and then `r` registered under `VId` 0,
the table is `0 -> r` and the snapshot holds the value of `r`. -/
theorem C9_set_state_collision_overwrites (E : Evaluate S B) (id1 id2 : NodeId) (v : VId)
    (σ : SwLogic S B) :
    state_lookup (set_state id1 v σ).state_ v = some id1 ∧
    state_lookup (set_state id2 v (set_state id1 v σ)).state_ v = some id2 ∧
    State.find (get_state E (set_state id2 v (set_state id1 v σ))) v
      = some (E.get_array_value σ.store id2) ∧
    (∀ w : VId, w ≠ v →
      state_lookup (set_state id2 v (set_state id1 v σ)).state_ w = state_lookup σ.state_ w) ∧
    demo_collided.state_ = [(0, 12)] ∧
    get_state demo_eval demo_collided = [(0, [12])] ∧
    demo_eval.get_array_value demo_collided.store 2 = [2] := by
  have h1 : state_lookup (set_state id1 v σ).state_ v = some id1 := by
    show state_lookup (state_insert σ.state_ v id1) v = some id1
    rw [state_lookup_insert, if_pos rfl]
  have h2 : state_lookup (set_state id2 v (set_state id1 v σ)).state_ v = some id2 := by
    show state_lookup (state_insert (state_insert σ.state_ v id1) v id2) v = some id2
    rw [state_lookup_insert, if_pos rfl]
  refine ⟨h1, h2, ?_, ?_, rfl, rfl, rfl⟩
  · rw [find_get_state, h2]
    rfl
  · intro w hw
    show state_lookup (state_insert (state_insert σ.state_ v id1) v id2) w = _
    rw [state_lookup_insert, if_neg hw, state_lookup_insert, if_neg hw]

/-- The cycle operations keep a property that visits and their bookkeeping keep. -/
theorem cycle_keeps [Inhabited B] (M : Module) (E : Evaluate S B) (P : SwLogic S B → Prop)
    (hP : CycleClosed E P) (fuel : Nat) (σ σ1 : SwLogic S B) (h : P σ) :
    (∀ vid b, read M E vid b σ = .ok σ1 → P σ1) ∧
    (evaluate M E fuel σ = .ok σ1 → P σ1) ∧
    (update M E fuel σ = .ok σ1 → P σ1) ∧
    (resync M E fuel σ = .ok σ1 → P σ1) := by
  have hn : ∀ n (τ : SwLogic S B), P τ → P (notify M n τ) :=
    fun n τ hτ => notify_keeps M P hP.sched n τ hτ
  have hd : ∀ (τ τ1 : SwLogic S B), P τ → drain M E fuel τ = .ok τ1 → P τ1 :=
    fun τ τ1 hτ hr => drain_keeps M E P hP.toStepClosed hP.pop fuel τ τ1 hτ hr
  have hw : ∀ τ : SwLogic S B, P τ → P (write_outputs E τ) := by
    intro τ hτ
    rw [write_outputs_eq]
    exact hP.log τ _ hτ
  refine ⟨?_, ?_, ?_, ?_⟩
  · intro vid b hr
    unfold read at hr
    split at hr
    · exact Outcome.ok_inj hr ▸ hn _ _ (hP.store _ _ h)
    · simp at hr
  · intro hr
    simp only [evaluate, Outcome.bind_eq_ok] at hr
    obtain ⟨a, ha, hb⟩ := hr
    exact Outcome.ok_inj hb ▸ hw a (hd _ a (hP.tasks σ false h) ha)
  · intro hr
    simp only [update, update_flush, Outcome.bind_eq_ok] at hr
    obtain ⟨a, ⟨c, hc, hca⟩, d, hd1, hb⟩ := hr
    have h0 := flush_loop_keeps M E P hP.sched hP.store _ _ _ _ h hc
    have ha := Outcome.ok_inj hca
    subst ha
    exact Outcome.ok_inj hb ▸ hw d (hd _ d (hP.tasks _ false (hP.clear c h0)) hd1)
  · intro hr
    simp only [resync, resync_drain, Outcome.bind_eq_ok] at hr
    obtain ⟨a, ha, b, ⟨c, hc, hcb⟩, hb⟩ := hr
    have h1 := schedule_all_keeps P _
      (schedule_now_keeps M E P hP.toStepClosed fuel) _ _ _ h ha
    have h2 : ∀ (ls : List NodeId) (τ : SwLogic S B), P τ →
        P (ls.foldl (fun s l => notify M l s) τ) := by
      intro ls
      induction ls with
      | nil => intro τ hτ; exact hτ
      | cons l ls ih => intro τ hτ; exact ih _ (hn _ _ hτ)
    have h3 : P c := hd _ c (hP.silent _ true (h2 _ _ h1)) hc
    have hb2 := Outcome.ok_inj hcb
    subst hb2
    exact schedule_all_keeps P _
      (schedule_now_keeps M E P hP.toStepClosed fuel) _ _ _ (hP.silent c false h3) hb

theorem reads_closed [Inhabited B] (E : Evaluate S B) (L : List (Option NodeId)) :
    CycleClosed E (fun σ : SwLogic S B => σ.reads_ = L) where
  sched := by
    intro σ n h
    unfold schedule_active
    split <;> exact h
  ctrl := fun _ _ _ h => h
  store := fun _ _ h => h
  capture := by
    intro σ r lhs rhs σ1 h _ hc
    rw [(capture_ok hc).2]
    exact h
  task := fun _ _ h _ => h
  pop := fun _ _ _ h _ => h
  tasks := fun _ _ h => h
  silent := fun _ _ h => h
  log := fun _ _ h => h
  clear := fun _ h => h

theorem set_read_facts (id : NodeId) (v : Nat) (σ : SwLogic S B) :
    v + 1 ≤ (set_read id v σ).reads_.length ∧
    (set_read id v σ).reads_[v]? = some (some id) ∧
    (∀ w : Nat, w ≠ v → w < σ.reads_.length →
      (set_read id v σ).reads_[w]? = σ.reads_[w]?) ∧
    (∀ w : Nat, w ≠ v → σ.reads_.length ≤ w → w < (set_read id v σ).reads_.length →
      (set_read id v σ).reads_[w]? = some none) := by
  unfold set_read
  simp only
  by_cases hv : v ≥ σ.reads_.length
  · simp only [hv, if_true, List.length_set, resize_length]
    refine ⟨le_refl _, ?_, ?_, ?_⟩
    · rw [List.getElem?_set_self (by rw [resize_length]; omega)]
    · intro w hw hlt
      rw [List.getElem?_set_ne (by omega), resize_getElem? _ _ _ _ (by omega) hlt]
    · intro w hw hge hlt
      rw [List.getElem?_set_ne (by omega)]
      unfold resize
      rw [List.take_of_length_le (by omega), List.getElem?_append_right hge,
        List.getElem?_replicate]
      simp
      omega
  · simp only [hv, if_false, List.length_set]
    refine ⟨by omega, ?_, ?_, ?_⟩
    · rw [List.getElem?_set_self (by omega)]
    · intro w hw _
      rw [List.getElem?_set_ne (by omega)]
    · intro w _ hge hlt
      omega

theorem op_registered [Inhabited B] (M : Module) (E : Evaluate S B) (fuel : Nat) (op : Op B)
    (v : VId) (σ σ1 : SwLogic S B) (h : RegisteredRead v σ)
    (hr : op.run M E fuel σ = .ok σ1) : RegisteredRead v σ1 := by
  have hsame : σ1.reads_ = σ.reads_ → RegisteredRead v σ1 := by
    intro he
    unfold RegisteredRead
    rw [he]
    exact h
  have hc := cycle_keeps M E (fun τ => τ.reads_ = σ.reads_) (reads_closed E σ.reads_) fuel
    σ σ1 rfl
  cases op with
  | set_read id w =>
    have := Outcome.ok_inj hr
    subst this
    obtain ⟨_, h2, h3, _⟩ := set_read_facts id w σ
    by_cases hw : v = w
    · subst hw
      exact ⟨id, h2⟩
    · obtain ⟨id0, h0⟩ := h
      exact ⟨id0, by rw [h3 v hw (getElem?_some_lt h0)]; exact h0⟩
  | set_write id vid => exact hsame (Outcome.ok_inj hr ▸ rfl)
  | set_state id vid => exact hsame (Outcome.ok_inj hr ▸ rfl)
  | set_state_from s => exact hsame (Outcome.ok_inj hr ▸ rfl)
  | read vid b => exact hsame (hc.1 vid b hr)
  | evaluate => exact hsame (hc.2.1 hr)
  | update => exact hsame (hc.2.2.1 hr)
  | resync => exact hsame (hc.2.2.2 hr)

/-- C10. After `set_read(id, v)` the `reads_` array has at least `v + 1` slots
and holds `id` in slot `v`; the slots it had before, other than `v`, are as
they were, and the slots it gained, other than `v`, are null. A registered
input stays registered through every public operation. Hence, after
`set_read(id, v)` and any public operations that return, `read(v, bits)`
returns; and `read(v, bits)` on an input registered to `id` assigns `bits` to
`id` and then schedules, in order, each monitor of `id`. -/
theorem C10_input_registration [Inhabited B] (M : Module) (E : Evaluate S B) :
    (∀ (id : NodeId) (v : VId) (σ : SwLogic S B),
      v + 1 ≤ (set_read id v σ).reads_.length ∧
      (set_read id v σ).reads_[v]? = some (some id) ∧
      (∀ w, w ≠ v → w < σ.reads_.length →
        (set_read id v σ).reads_[w]? = σ.reads_[w]?) ∧
      (∀ w, w ≠ v → σ.reads_.length ≤ w → w < (set_read id v σ).reads_.length →
        (set_read id v σ).reads_[w]? = some none)) ∧
    (∀ (fuel : Nat) (op : Op B) (v : VId) (σ σ1 : SwLogic S B),
      RegisteredRead v σ → op.run M E fuel σ = .ok σ1 → RegisteredRead v σ1) ∧
    (∀ (v : VId) (id : NodeId) (b : B) (σ : SwLogic S B), σ.reads_[v]? = some (some id) →
      read M E v b σ = .ok ((M.monitor_ id).foldl (fun s m => schedule_active m s)
        { σ with store := E.assign_value σ.store id b })) ∧
    (∀ (fuel : Nat) (id : NodeId) (v : VId) (b : B) (ops : List (Op B)) (σ σ1 : SwLogic S B),
      run_ops M E fuel ops (set_read id v σ) = .ok σ1 →
      ∃ id1, σ1.reads_[v]? = some (some id1) ∧
        read M E v b σ1 = .ok (notify M id1 { σ1 with store := E.assign_value σ1.store id1 b })) := by
  have hread : ∀ (v : VId) (id : NodeId) (b : B) (σ : SwLogic S B),
      σ.reads_[v]? = some (some id) →
      read M E v b σ = .ok (notify M id { σ with store := E.assign_value σ.store id b }) := by
    intro v id b σ h
    unfold read
    rw [h]
  refine ⟨set_read_facts, op_registered M E, hread, ?_⟩
  intro fuel id v b ops σ σ1 hr
  have hreg : ∀ (ops : List (Op B)) (τ τ1 : SwLogic S B), RegisteredRead v τ →
      run_ops M E fuel ops τ = .ok τ1 → RegisteredRead v τ1 := by
    intro ops
    induction ops with
    | nil => intro τ τ1 h hr; exact Outcome.ok_inj hr ▸ h
    | cons op ops ih =>
      intro τ τ1 h hr
      obtain ⟨a, ha, hb⟩ := Outcome.bind_eq_ok.mp hr
      exact ih _ _ (op_registered M E fuel op v τ a h ha) hb
  obtain ⟨id1, h1⟩ := hreg ops _ σ1 ⟨id, (set_read_facts id v σ).2.1⟩ hr
  exact ⟨id1, h1, hread v id1 b σ1 h1⟩

theorem C10_input_registration_witness :
    run_ops demo_module demo_eval 20 demo_setup.tail (set_read 0 0 demo_init) = .ok demo_ready ∧
    ∃ id1, demo_ready.reads_[0]? = some (some id1) ∧
      read demo_module demo_eval 0 1 demo_ready = .ok (notify demo_module id1
        { demo_ready with store := demo_eval.assign_value demo_ready.store id1 1 }) :=
  ⟨rfl, (C10_input_registration demo_module demo_eval).2.2.2 20 0 0 1 demo_setup.tail
    demo_init demo_ready rfl⟩

end Binding

/-! ## The statement interpreter -/

section Statements

variable {S B : Type}

/-- C11 fails on the code: in `case (x) default: $display("d"); 0: $display("z");
endcase` with `x` = 0 the second item matches the selector, yet the scan stops at
the default item, which comes first: the visit displays "d", not "z". -/
theorem C11_default_before_match :
    item_matches text_eval (fun _ => [0]) 0 ([52], 54) = true ∧
    select_item text_eval (fun _ => [0]) 0 [([], 53), ([52], 54)] = some 53 ∧
    (schedule_now case_module text_eval 2 50 demo_init).get?.map
      (fun σ => (σ.iface.length, σ.ctrl_ 50)) = some (1, 1) ∧
    (schedule_now case_module text_eval 2 50 demo_init).get?.bind
      (fun σ => σ.iface.head?.map (fun c => match c with
        | .display t => t
        | _ => "")) = some "d" :=
  ⟨rfl, rfl, rfl, rfl⟩

theorem Outcome.bind_eq_fatal {α β : Type} {x : Outcome α} {f : α → Outcome β} :
    x.bind f = .fatal ↔ x = .fatal ∨ ∃ a, x = .ok a ∧ f a = .fatal := by
  cases x <;> simp [Outcome.bind]

theorem schedule_all_fatal (now : NodeId → SwLogic S B → Outcome (SwLogic S B))
    (ns : List NodeId) (σ : SwLogic S B) (h : schedule_all now ns σ = .fatal) :
    ∃ m τ, now m τ = .fatal := by
  induction ns generalizing σ with
  | nil => simp [schedule_all] at h
  | cons n ns ih =>
    simp only [schedule_all] at h
    rcases Outcome.bind_eq_fatal.mp h with h1 | ⟨a, _, h2⟩
    · exact ⟨n, σ, h1⟩
    · exact ih a h2

/-- The scan of a case statement finds nothing exactly when no item matches
the selector and no item is the default. -/
theorem select_item_none (E : Evaluate S B) (store : S) (s : Nat)
    (items : List (List NodeId × NodeId)) :
    select_item E store s items = none ↔
      items.any (fun ci => item_matches E store s ci || ci.1.isEmpty) = false := by
  induction items with
  | nil => simp [select_item]
  | cons ci cis ih =>
    unfold select_item
    by_cases h1 : ci.1.any (fun e => s == E.to_int (E.get_value store e)) = true
    · simp [h1, item_matches]
    · by_cases h2 : ci.1.isEmpty = true
      · simp [h1, h2]
      · simp only [h1, h2, if_false, Bool.false_eq_true, List.any_cons, item_matches, ih,
          Bool.or_eq_false_iff]
        simp only [Bool.not_eq_true] at h1 h2
        simp [h1, h2, item_matches]

/-- The scan of a case statement selects the first item, in item order, that
either matches the selector or is the default. -/
theorem select_item_first (E : Evaluate S B) (store : S) (s : Nat)
    (items : List (List NodeId × NodeId)) :
    select_item E store s items =
      (items.find? (fun ci => item_matches E store s ci || ci.1.isEmpty)).map Prod.snd := by
  induction items with
  | nil => rfl
  | cons ci cis ih =>
    unfold select_item
    by_cases h1 : ci.1.any (fun e => s == E.to_int (E.get_value store e)) = true
    · simp [h1, item_matches, List.find?_cons]
    · by_cases h2 : ci.1.isEmpty = true
      · simp [h1, h2, List.find?_cons]
      · simp only [Bool.not_eq_true] at h1 h2
        simp [h1, h2, item_matches, List.find?_cons, ih]

/-- A visit whose node meets a fatal condition aborts, whatever the fuel. -/
theorem aborts_fatal [Inhabited B] (M : Module) (E : Evaluate S B) (fuel : Nat) (n : NodeId)
    (σ : SwLogic S B) (h : aborts M E n σ = true) :
    schedule_now M E (fuel + 1) n σ = .fatal := by
  unfold schedule_now
  unfold aborts at h
  revert h
  cases hnode : M.node n with
  | Event type expr =>
    simp only [visit_Event]
    intro h
    have : is_Identifier (M.node expr) = false := by simpa using h
    simp [this]
  | ContinuousAssign ctrl assign =>
    simp only [visit_ContinuousAssign]
    intro h
    simp [h]
  | BlockingAssign ctrl assign =>
    simp only [visit_BlockingAssign]
    intro h
    simp [h]
  | NonblockingAssign ctrl lhs rhs =>
    simp only [visit_NonblockingAssign, Bool.or_eq_true, Bool.and_eq_true, beq_iff_eq]
    intro h
    rcases h with h | ⟨h1, h2⟩
    · simp [h]
    · cases ctrl with
      | some c => simp
      | none =>
        cases hres : M.resolution lhs with
        | some r => simp [hres] at h2
        | none => simp [h1]
  | CaseStatement cond items =>
    simp only [visit_CaseStatement, Bool.and_eq_true, beq_iff_eq, Bool.not_eq_true']
    intro h
    have hsel := (select_item_none E σ.store (E.to_int (E.get_value σ.store cond)) items).mpr h.2
    simp [h.1, set_ctrl_store, hsel]
  | DelayControl => intro _; rfl
  | _ => simp

/-- A visit that aborts either meets a fatal condition itself or has seen a
nested dispatch abort. -/
theorem fatal_aborts_or_nested [Inhabited B] (M : Module) (E : Evaluate S B) (fuel : Nat)
    (n : NodeId) (σ : SwLogic S B) (h : schedule_now M E (fuel + 1) n σ = .fatal) :
    aborts M E n σ = true ∨ ∃ m τ, schedule_now M E fuel m τ = .fatal := by
  unfold schedule_now at h
  unfold aborts
  revert h
  cases hnode : M.node n with
  | Identifier => intro h; simp at h
  | Expression => intro h; simp at h
  | Event type expr =>
    simp only [visit_Event]
    intro h
    left
    by_cases hid : is_Identifier (M.node expr) = true
    · rw [if_pos hid] at h
      revert h
      cases M.resolution expr with
      | none => intro h; simp at h
      | some r =>
        simp only
        intro h
        split at h
        · simp at h
        · split at h <;> simp at h
    · simpa using hid
  | AlwaysConstruct stmt =>
    simp only [visit_AlwaysConstruct]
    intro h
    exact Or.inr ⟨_, _, h⟩
  | InitialConstruct ign stmt =>
    simp only [visit_InitialConstruct]
    intro h
    split at h <;> simp at h
  | ContinuousAssign ctrl assign =>
    simp only [visit_ContinuousAssign]
    intro h
    split at h
    · left; assumption
    · exact Or.inr ⟨_, _, h⟩
  | BlockingAssign ctrl assign =>
    simp only [visit_BlockingAssign]
    intro h
    split at h
    · left; assumption
    · rcases Outcome.bind_eq_fatal.mp h with h1 | ⟨a, _, h2⟩
      · exact Or.inr ⟨_, _, h1⟩
      · simp at h2
  | NonblockingAssign ctrl lhs rhs =>
    simp only [visit_NonblockingAssign, Bool.or_eq_true, Bool.and_eq_true, beq_iff_eq]
    intro h
    left
    split at h
    · left; assumption
    · split at h
      · rename_i hsil
        revert h
        cases hres : M.resolution lhs with
        | none => intro _; exact Or.inr ⟨hsil, rfl⟩
        | some r =>
          simp only
          intro h
          rcases Outcome.bind_eq_fatal.mp h with h1 | ⟨a, _, h2⟩
          · unfold capture at h1
            simp only at h1
            split at h1 <;> simp at h1
          · simp at h2
      · simp at h
  | ParBlock stmts =>
    simp only [visit_ParBlock]
    intro h
    split at h
    · exact Or.inr (schedule_all_fatal _ _ _ h)
    · split at h <;> simp at h
  | SeqBlock stmts =>
    simp only [visit_SeqBlock]
    intro h
    split at h
    · exact Or.inr ⟨_, _, h⟩
    · simp at h
  | CaseStatement cond items =>
    simp only [visit_CaseStatement, Bool.and_eq_true, beq_iff_eq, Bool.not_eq_true',
      set_ctrl_store]
    intro h
    split at h
    · rename_i hc
      revert h
      cases hsel : select_item E σ.store (E.to_int (E.get_value σ.store cond)) items with
      | none =>
        intro _
        exact Or.inl ⟨hc, (select_item_none E σ.store _ items).mp hsel⟩
      | some stmt =>
        simp only
        intro h
        exact Or.inr ⟨_, _, h⟩
    · simp at h
  | ConditionalStatement cond t e =>
    simp only [visit_ConditionalStatement]
    intro h
    split at h
    · split at h <;> exact Or.inr ⟨_, _, h⟩
    · simp at h
  | ForStatement init cond update stmt =>
    have hft : ∀ τ : SwLogic S B,
        for_test M E (schedule_now M E fuel) n cond stmt τ = .fatal →
        ∃ m τ1, schedule_now M E fuel m τ1 = .fatal := by
      intro τ hτ
      unfold for_test at hτ
      split at hτ
      · simp at hτ
      · exact ⟨_, _, hτ⟩
    simp only [visit_ForStatement]
    intro h
    right
    split at h
    · rcases Outcome.bind_eq_fatal.mp h with h1 | ⟨a, _, h2⟩
      · exact ⟨_, _, h1⟩
      · exact hft a h2
    · split at h
      · exact hft σ h
      · rcases Outcome.bind_eq_fatal.mp h with h1 | ⟨a, _, h2⟩
        · exact ⟨_, _, h1⟩
        · exact ⟨_, _, h2⟩
  | RepeatStatement cond stmt =>
    simp only [visit_RepeatStatement]
    generalize (if σ.ctrl_ n = 0
      then set_ctrl n ((E.to_int (E.get_value σ.store cond) + 1) % SIZE_MOD) σ else σ) = τ
    intro h
    split at h
    · simp at h
    · exact Or.inr ⟨_, _, h⟩
  | WhileStatement cond stmt =>
    simp only [visit_WhileStatement]
    intro h
    split at h
    · simp at h
    · exact Or.inr ⟨_, _, h⟩
  | TimingControlStatement ctrl stmt =>
    simp only [visit_TimingControlStatement]
    intro h
    split at h
    · simp at h
    · split at h
      · exact Or.inr ⟨_, _, h⟩
      · simp at h
  | DisplayStatement args =>
    simp only [visit_DisplayStatement]
    intro h
    split at h <;> simp at h
  | FinishStatement arg =>
    simp only [visit_FinishStatement]
    intro h
    split at h <;> simp at h
  | WriteStatement args =>
    simp only [visit_WriteStatement]
    intro h
    split at h <;> simp at h
  | WaitStatement cond stmt =>
    simp only [visit_WaitStatement]
    intro h
    split at h
    · split at h
      · simp at h
      · exact Or.inr ⟨_, _, h⟩
    · simp at h
  | DelayControl => intro _; exact Or.inl rfl
  | EventControl => simp [visit_EventControl]
  | VariableAssign lhs rhs =>
    simp only [visit_VariableAssign]
    intro h
    split at h <;> simp at h

/-- C12. A visit aborts on an assertion of its own exactly when its node is an
assignment carrying a timing control, a NonblockingAssign in non-silent mode
whose left-hand side has no resolution, a DelayControl, an Event on something
other than an identifier, or a CaseStatement at `ctrl` 0 with neither a matching
item nor a default item: with one unit of fuel, where no nested dispatch runs,
the visit is fatal exactly then; with more fuel it is fatal whenever one of
these holds, and when none holds it is fatal only if a nested dispatch was. -/
theorem C12_fatal_iff [Inhabited B] (M : Module) (E : Evaluate S B) :
    (∀ (n : NodeId) (σ : SwLogic S B),
      schedule_now M E 1 n σ = .fatal ↔ aborts M E n σ = true) ∧
    (∀ (fuel : Nat) (n : NodeId) (σ : SwLogic S B),
      aborts M E n σ = true → schedule_now M E (fuel + 1) n σ = .fatal) ∧
    (∀ (fuel : Nat) (n : NodeId) (σ : SwLogic S B),
      aborts M E n σ = false → schedule_now M E (fuel + 1) n σ = .fatal →
      ∃ m τ, schedule_now M E fuel m τ = .fatal) := by
  refine ⟨?_, aborts_fatal M E, ?_⟩
  · intro n σ
    refine ⟨?_, aborts_fatal M E 0 n σ⟩
    intro h
    rcases fatal_aborts_or_nested M E 0 n σ h with h1 | ⟨m, τ, h2⟩
    · exact h1
    · simp [schedule_now] at h2
  · intro fuel n σ hna h
    rcases fatal_aborts_or_nested M E fuel n σ h with h1 | h2
    · rw [hna] at h1
      exact absurd h1 (by simp)
    · exact h2

theorem C12_fatal_iff_witness :
    aborts demo_module demo_eval 20 demo_init = true ∧
    schedule_now demo_module demo_eval 3 20 demo_init = .fatal :=
  ⟨rfl, (C12_fatal_iff demo_module demo_eval).2.1 2 20 demo_init rfl⟩

theorem notify_ctrl (M : Module) (n : NodeId) (σ : SwLogic S B) :
    (notify M n σ).ctrl_ = σ.ctrl_ :=
  notify_proj M (fun τ => τ.ctrl_) (fun n τ => by unfold schedule_active; split <;> rfl) n σ

/-- C13. The visit of an Event on an identifier whose resolution has the boolean
value `b` is one notify of the event when the type is POSEDGE and `b` is true,
when the type is NEGEDGE and `b` is false, or when the type is EDGE, and leaves
the interpreter as it is otherwise; this holds whatever the notify does, so the
visit calls it once in the first case and not at all in the second. -/
theorem C13_event_edge_filter [Inhabited B] (M : Module) (E : Evaluate S B)
    (e : NodeId) (type : EventType) (expr r : NodeId) (σ : SwLogic S B)
    (hid : is_Identifier (M.node expr) = true) (hres : M.resolution expr = some r) :
    (∀ ntf : NodeId → SwLogic S B → SwLogic S B,
      visit_Event_with M E ntf e type expr σ = .ok
        (if (type = .POSEDGE ∧ E.to_bool (E.get_value σ.store r) = true) ∨
            (type = .NEGEDGE ∧ E.to_bool (E.get_value σ.store r) = false) ∨ type = .EDGE
         then ntf e σ else σ)) ∧
    (∀ fuel : Nat, M.node e = .Event type expr →
      schedule_now M E (fuel + 1) e σ = visit_Event_with M E (notify M) e type expr σ) := by
  refine ⟨?_, ?_⟩
  · intro ntf
    unfold visit_Event_with
    rw [if_pos hid, hres]
    simp only
    generalize E.to_bool (E.get_value σ.store r) = b
    cases type <;> cases b <;> simp
  · intro fuel hnode
    unfold schedule_now
    rw [hnode]
    rfl

theorem C13_event_edge_filter_witness :
    schedule_now demo_module demo_eval 1 6 demo_ready = .ok (notify demo_module 6 demo_ready) :=
  ((C13_event_edge_filter demo_module demo_eval 6 .POSEDGE 0 0 demo_ready rfl rfl).2 0 rfl).trans
    ((C13_event_edge_filter demo_module demo_eval 6 .POSEDGE 0 0 demo_ready rfl rfl).1
      (notify demo_module))

/-- A visit of a statement with a cursor is run by `schedule_now` with
`notify M` for the notify. -/
theorem schedule_now_block [Inhabited B] (M : Module) (E : Evaluate S B) (fuel : Nat)
    (n : NodeId) (σ : SwLogic S B) (hb : is_block (M.node n) = true) :
    schedule_now M E (fuel + 1) n σ =
      visit_block M E (notify M) (schedule_now M E fuel) n σ := by
  unfold schedule_now visit_block
  cases hnode : M.node n <;> rw [hnode] at hb <;> simp only [is_block, Bool.false_eq_true] at hb
    <;> rfl

/-- C14. A visit of a SeqBlock, ParBlock, ForStatement, RepeatStatement,
CaseStatement, ConditionalStatement, TimingControlStatement or WaitStatement,
from any state and for any value of its cursor, either issues no notify of
the node (its outcome does not depend on what the notify does) or is one notify
of the node, issued in a state in which the cursor of the node is 0, after which
the visit returns; and the notify leaves the cursors alone, so the cursor is 0
when the visit returns. -/
theorem C14_ctrl_zero_at_notify [Inhabited B] (M : Module) (E : Evaluate S B)
    (now : NodeId → SwLogic S B → Outcome (SwLogic S B)) (n : NodeId) (σ : SwLogic S B)
    (hb : is_block (M.node n) = true) :
    ((∀ ntf1 ntf2 : NodeId → SwLogic S B → SwLogic S B,
        visit_block M E ntf1 now n σ = visit_block M E ntf2 now n σ) ∨
      (∃ τ : SwLogic S B, τ.ctrl_ n = 0 ∧
        ∀ ntf : NodeId → SwLogic S B → SwLogic S B,
          visit_block M E ntf now n σ = .ok (ntf n τ))) ∧
    (∀ fuel : Nat, schedule_now M E (fuel + 1) n σ =
      visit_block M E (notify M) (schedule_now M E fuel) n σ) ∧
    (∀ τ : SwLogic S B, (notify M n τ).ctrl_ n = τ.ctrl_ n) := by
  refine ⟨?_, fun fuel => schedule_now_block M E fuel n σ hb, fun τ => by rw [notify_ctrl]⟩
  unfold visit_block
  cases hnode : M.node n <;> rw [hnode] at hb <;> simp only [is_block, Bool.false_eq_true] at hb
  · -- ParBlock
    simp only [visit_ParBlock_with, set_ctrl_self]
    by_cases h0 : σ.ctrl_ n = 0
    · left; intro _ _; simp only [h0, if_true]
    · by_cases h1 : σ.ctrl_ n - 1 = 0
      · right
        exact ⟨set_ctrl n (σ.ctrl_ n - 1) σ, by rw [set_ctrl_self]; exact h1,
          fun ntf => by simp only [h0, h1, if_true, if_false]⟩
      · left; intro _ _; simp only [h0, h1, if_false]
  · -- SeqBlock
    simp only [visit_SeqBlock_with]
    rename_i stmts
    cases stmts[σ.ctrl_ n]? with
    | some item => left; intro _ _; rfl
    | none => right; exact ⟨set_ctrl n 0 σ, set_ctrl_self n 0 σ, fun _ => rfl⟩
  · -- CaseStatement
    simp only [visit_CaseStatement_with]
    by_cases h0 : σ.ctrl_ n = 0
    · left; intro _ _; simp only [h0, if_true]
    · right
      exact ⟨set_ctrl n 0 σ, set_ctrl_self n 0 σ, fun _ => by simp only [h0, if_false]⟩
  · -- ConditionalStatement
    simp only [visit_ConditionalStatement_with]
    by_cases h0 : σ.ctrl_ n = 0
    · left; intro _ _; simp only [h0, if_true]
    · right
      exact ⟨set_ctrl n 0 σ, set_ctrl_self n 0 σ, fun _ => by simp only [h0, if_false]⟩
  · -- ForStatement
    rename_i init cond update stmt
    have hft : ∀ τ : SwLogic S B,
        (∀ ntf1 ntf2 : NodeId → SwLogic S B → SwLogic S B,
          for_test_with E ntf1 now n cond stmt τ = for_test_with E ntf2 now n cond stmt τ) ∨
        (∃ τ1 : SwLogic S B, τ1.ctrl_ n = 0 ∧
          ∀ ntf : NodeId → SwLogic S B → SwLogic S B,
            for_test_with E ntf now n cond stmt τ = .ok (ntf n τ1)) := by
      intro τ
      unfold for_test_with
      by_cases hc : E.to_bool (E.get_value τ.store cond) = false
      · right
        exact ⟨set_ctrl n 0 τ, set_ctrl_self n 0 τ, fun _ => by simp only [hc, if_true]⟩
      · left; intro _ _; rw [if_neg hc, if_neg hc]
    simp only [visit_ForStatement_with]
    by_cases h0 : σ.ctrl_ n = 0
    · simp only [h0, if_true]
      cases hi : now init (set_ctrl n 1 σ) with
      | ok a =>
        simp only [Outcome.bind]
        exact hft a
      | fatal => left; intro _ _; rfl
      | undefined => left; intro _ _; rfl
      | timeout => left; intro _ _; rfl
    · by_cases h1 : σ.ctrl_ n = 1
      · simp only [h0, h1, if_true, if_false]
        simp only [one_ne_zero, if_false]
        exact hft σ
      · left; intro _ _; simp only [h0, h1, if_false]
  · -- RepeatStatement
    rename_i cond stmt
    simp only [visit_RepeatStatement_with, set_ctrl_self]
    generalize (if σ.ctrl_ n = 0
      then set_ctrl n ((E.to_int (E.get_value σ.store cond) + 1) % SIZE_MOD) σ else σ) = σ1
    by_cases hz : (σ1.ctrl_ n + SIZE_MOD - 1) % SIZE_MOD = 0
    · right
      exact ⟨set_ctrl n ((σ1.ctrl_ n + SIZE_MOD - 1) % SIZE_MOD) σ1,
        by rw [set_ctrl_self]; exact hz, fun _ => by rw [if_pos hz]⟩
    · left; intro _ _; rw [if_neg hz, if_neg hz]
  · -- TimingControlStatement
    simp only [visit_TimingControlStatement_with]
    by_cases h0 : σ.ctrl_ n = 0
    · left; intro _ _; simp only [h0, if_true]
    · by_cases h1 : σ.ctrl_ n = 1
      · left; intro _ _; simp only [h0, h1, if_true, if_false]
      · right
        exact ⟨set_ctrl n 0 σ, set_ctrl_self n 0 σ, fun _ => by simp only [h0, h1, if_false]⟩
  · -- WaitStatement
    simp only [visit_WaitStatement_with]
    by_cases h0 : σ.ctrl_ n = 0
    · left; intro _ _; simp only [h0, if_true]
    · right
      exact ⟨set_ctrl n 0 σ, set_ctrl_self n 0 σ, fun _ => by simp only [h0, if_false]⟩

theorem C14_ctrl_zero_at_notify_witness :
    is_block (demo_module.node 4) = true ∧
    schedule_now demo_module demo_eval 2 4 demo_ready =
      visit_block demo_module demo_eval (notify demo_module)
        (schedule_now demo_module demo_eval 1) 4 demo_ready :=
  ⟨rfl, (C14_ctrl_zero_at_notify demo_module demo_eval (schedule_now demo_module demo_eval 1)
    4 demo_ready rfl).2.1 1⟩

theorem Outcome.bind_congr {α β : Type} {x : Outcome α} {f g : α → Outcome β}
    (h : ∀ a, x = .ok a → f a = g a) : x.bind f = x.bind g := by
  cases x with
  | ok a => exact h a rfl
  | fatal => rfl
  | undefined => rfl
  | timeout => rfl

theorem Outcome.bind_ok {α : Type} (x : Outcome α) : x.bind Outcome.ok = x := by
  cases x <;> rfl

theorem successive_one (v : SwLogic S B → Outcome (SwLogic S B)) (σ : SwLogic S B) :
    successive v 1 σ = v σ := by
  show (v σ).bind (successive v 0) = v σ
  exact Outcome.bind_ok (v σ)

theorem set_ctrl_set_ctrl (n : NodeId) (j k : Nat) (σ : SwLogic S B) :
    set_ctrl n k (set_ctrl n j σ) = set_ctrl n k σ := by
  unfold set_ctrl
  simp only
  congr 1
  funext m
  split <;> rfl

/-- The visits of a sequential block from cursor `k` on are the dispatches of
the statements from `k` on, in order, and then the notify. -/
theorem seq_block_from (ntf : NodeId → SwLogic S B → SwLogic S B)
    (now : NodeId → SwLogic S B → Outcome (SwLogic S B)) (sb : NodeId) (stmts : List NodeId)
    (hnow : ∀ s ∈ stmts, ∀ τ a, now s τ = .ok a → a.ctrl_ sb = τ.ctrl_ sb) :
    ∀ (rest pre : List NodeId) (τ : SwLogic S B), pre ++ rest = stmts →
      τ.ctrl_ sb = pre.length →
      successive (visit_SeqBlock_with ntf now sb stmts) (rest.length + 1) τ =
        seq_block_spec ntf now sb pre.length rest τ := by
  intro rest
  induction rest with
  | nil =>
    intro pre τ hs hτ
    rw [List.append_nil] at hs
    rw [List.length_nil, Nat.zero_add, successive_one]
    unfold visit_SeqBlock_with
    rw [hτ, ← hs, List.getElem?_eq_none (le_refl _)]
    rfl
  | cons s rest ih =>
    intro pre τ hs hτ
    have hget : stmts[τ.ctrl_ sb]? = some s := by
      rw [← hs, hτ, List.getElem?_append_right (le_refl _)]
      simp
    have hmem : s ∈ stmts := by
      rw [← hs]
      exact List.mem_append_right pre (List.mem_cons_self s rest)
    have hv : visit_SeqBlock_with ntf now sb stmts τ =
        now s (set_ctrl sb (pre.length + 1) τ) := by
      unfold visit_SeqBlock_with
      rw [hget, hτ]
    show (visit_SeqBlock_with ntf now sb stmts τ).bind _ = _
    rw [hv]
    show _ = (now s (set_ctrl sb (pre.length + 1) τ)).bind _
    apply Outcome.bind_congr
    intro a ha
    have hctrl : a.ctrl_ sb = (pre ++ [s]).length := by
      rw [hnow s hmem _ a ha, set_ctrl_self, List.length_append, List.length_singleton]
    have := ih (pre ++ [s]) a (by rw [List.append_assoc, List.singleton_append]; exact hs) hctrl
    rw [List.length_append, List.length_singleton] at this
    exact this

/-- In the module of three displays in a sequential block, the dispatch of a
display leaves the cursor of the block alone. -/
theorem seq_module_parts (fuel : Nat) (s : NodeId) (hs : s ∈ [82, 83, 84])
    (τ a : SwLogic DemoStore Nat)
    (h : schedule_now seq_module text_eval (fuel + 1) s τ = .ok a) :
    a.ctrl_ 81 = τ.ctrl_ 81 := by
  have hd : ∃ args, schedule_now seq_module text_eval (fuel + 1) s τ =
      visit_DisplayStatement seq_module text_eval s args τ := by
    simp only [List.mem_cons, List.mem_singleton, List.not_mem_nil, or_false] at hs
    rcases hs with rfl | rfl | rfl
    · exact ⟨[40], rfl⟩
    · exact ⟨[41], rfl⟩
    · exact ⟨[42], rfl⟩
  obtain ⟨args, hd⟩ := hd
  rw [hd] at h
  unfold visit_DisplayStatement at h
  split at h
  · rw [← Outcome.ok_inj h]
    exact congrFun (notify_ctrl seq_module s _) 81
  · rw [← Outcome.ok_inj h]
    exact congrFun (notify_ctrl seq_module s _) 81

/-- C19. In a SeqBlock of `n` statements, provided the dispatch of each of its
statements leaves the cursor of the block alone: a visit at cursor `k` below `n`
is the dispatch of statement `k` alone, with the cursor at `k + 1` before and
after it, and issues no notify; a visit at cursor `n` dispatches nothing and is
one notify of the block with the cursor back at 0; hence `n + 1` successive visits
from cursor 0 are the dispatches of the statements 0, 1, ..., `n - 1` in that
order, each once, followed by one notify of the block. The visit is the one
`schedule_now` runs, with `notify` and with itself at one unit of fuel less for
the dispatches, so that for the interpreter `n + 1` successive `schedule_now`
calls on the block from cursor 0 are those dispatches and that notify. -/
theorem C19_seq_block_order [Inhabited B] (ntf : NodeId → SwLogic S B → SwLogic S B)
    (now : NodeId → SwLogic S B → Outcome (SwLogic S B)) (sb : NodeId) (stmts : List NodeId)
    (hnow : ∀ s ∈ stmts, ∀ τ a, now s τ = .ok a → a.ctrl_ sb = τ.ctrl_ sb) :
    (∀ (k : Nat) (s : NodeId) (τ : SwLogic S B), stmts[k]? = some s → τ.ctrl_ sb = k →
      visit_SeqBlock_with ntf now sb stmts τ = now s (set_ctrl sb (k + 1) τ) ∧
      (set_ctrl sb (k + 1) τ).ctrl_ sb = k + 1 ∧
      ∀ a, visit_SeqBlock_with ntf now sb stmts τ = .ok a → a.ctrl_ sb = k + 1) ∧
    (∀ τ : SwLogic S B, τ.ctrl_ sb = stmts.length →
      visit_SeqBlock_with ntf now sb stmts τ = .ok (ntf sb (set_ctrl sb 0 τ)) ∧
      (set_ctrl sb 0 τ).ctrl_ sb = 0) ∧
    (∀ σ : SwLogic S B, σ.ctrl_ sb = 0 →
      successive (visit_SeqBlock_with ntf now sb stmts) (stmts.length + 1) σ =
        seq_block_spec ntf now sb 0 stmts σ) ∧
    (∀ (M : Module) (E : Evaluate S B) (fuel : Nat) (σ : SwLogic S B),
      M.node sb = .SeqBlock stmts →
      schedule_now M E (fuel + 1) sb σ =
        visit_SeqBlock_with (notify M) (schedule_now M E fuel) sb stmts σ) ∧
    (∀ (M : Module) (E : Evaluate S B) (fuel : Nat) (σ : SwLogic S B),
      M.node sb = .SeqBlock stmts →
      (∀ s ∈ stmts, ∀ τ a, schedule_now M E fuel s τ = .ok a → a.ctrl_ sb = τ.ctrl_ sb) →
      σ.ctrl_ sb = 0 →
      successive (schedule_now M E (fuel + 1) sb) (stmts.length + 1) σ =
        seq_block_spec (notify M) (schedule_now M E fuel) sb 0 stmts σ) := by
  have hlink : ∀ (M : Module) (E : Evaluate S B) (fuel : Nat) (σ : SwLogic S B),
      M.node sb = .SeqBlock stmts →
      schedule_now M E (fuel + 1) sb σ =
        visit_SeqBlock_with (notify M) (schedule_now M E fuel) sb stmts σ := by
    intro M E fuel σ hnode
    unfold schedule_now
    rw [hnode]
    rfl
  refine ⟨?_, ?_, ?_, hlink, ?_⟩
  · intro k s τ hget hτ
    have hv : visit_SeqBlock_with ntf now sb stmts τ = now s (set_ctrl sb (k + 1) τ) := by
      unfold visit_SeqBlock_with
      rw [hτ, hget]
    refine ⟨hv, set_ctrl_self sb (k + 1) τ, ?_⟩
    intro a ha
    rw [hv] at ha
    rw [hnow s (List.mem_iff_getElem?.mpr ⟨k, hget⟩) _ a ha, set_ctrl_self]
  · intro τ hτ
    refine ⟨?_, set_ctrl_self sb 0 τ⟩
    unfold visit_SeqBlock_with
    rw [hτ, List.getElem?_eq_none (le_refl _)]
  · intro σ hσ
    exact seq_block_from ntf now sb stmts hnow stmts [] σ rfl hσ
  · intro M E fuel σ hnode hch hσ
    have hfun : schedule_now M E (fuel + 1) sb =
        visit_SeqBlock_with (notify M) (schedule_now M E fuel) sb stmts :=
      funext (fun τ => hlink M E fuel τ hnode)
    rw [hfun]
    exact seq_block_from (notify M) (schedule_now M E fuel) sb stmts hch stmts [] σ rfl hσ

theorem C19_seq_block_order_witness :
    (successive (schedule_now seq_module text_eval 2 81) 4 demo_init).get?.map
      (fun σ => (σ.iface, σ.ctrl_ 81)) =
      some ([.display "a", .display "b", .display "c"], 0) :=
  ((C19_seq_block_order (notify seq_module) (schedule_now seq_module text_eval 1) 81
    [82, 83, 84] (seq_module_parts 0)).2.2.2.2 seq_module text_eval 1 demo_init rfl
      (seq_module_parts 0) rfl).symm ▸ rfl

theorem dec_mod (c : Nat) (h1 : 1 ≤ c) (h2 : c < SIZE_MOD) :
    (c + SIZE_MOD - 1) % SIZE_MOD = c - 1 := by
  have h : c + SIZE_MOD - 1 = (c - 1) + SIZE_MOD := by omega
  rw [h, Nat.add_mod_right, Nat.mod_eq_of_lt (by omega)]

/-- A visit of a repeat statement at a cursor other than 0: the cursor goes
down by one, and then either the notify or the dispatch of the body. -/
theorem repeat_visit_pos (E : Evaluate S B) (ntf : NodeId → SwLogic S B → SwLogic S B)
    (now : NodeId → SwLogic S B → Outcome (SwLogic S B)) (rs cond stmt : NodeId)
    (τ : SwLogic S B) (j : Nat) (hτ : τ.ctrl_ rs = j + 1) (hj : j + 1 < SIZE_MOD) :
    visit_RepeatStatement_with E ntf now rs cond stmt τ =
      if j = 0 then .ok (ntf rs (set_ctrl rs 0 τ)) else now stmt (set_ctrl rs j τ) := by
  unfold visit_RepeatStatement_with
  have hne : τ.ctrl_ rs ≠ 0 := by rw [hτ]; exact Nat.succ_ne_zero j
  simp only [if_neg hne, set_ctrl_self]
  rw [hτ, dec_mod (j + 1) (by omega) hj, Nat.add_sub_cancel]
  by_cases h0 : j = 0
  · subst h0
    simp
  · rw [if_neg h0, if_neg h0]

theorem repeat_from (E : Evaluate S B) (ntf : NodeId → SwLogic S B → SwLogic S B)
    (now : NodeId → SwLogic S B → Outcome (SwLogic S B)) (rs cond stmt : NodeId)
    (hnow : ∀ τ a, now stmt τ = .ok a → a.ctrl_ rs = τ.ctrl_ rs) :
    ∀ (j : Nat) (τ : SwLogic S B), τ.ctrl_ rs = j + 1 → j + 1 < SIZE_MOD →
      successive (visit_RepeatStatement_with E ntf now rs cond stmt) (j + 1) τ =
        repeat_spec ntf now rs stmt j τ := by
  intro j
  induction j with
  | zero =>
    intro τ hτ hj
    rw [successive_one, repeat_visit_pos E ntf now rs cond stmt τ 0 hτ hj]
    rfl
  | succ j ih =>
    intro τ hτ hj
    show (visit_RepeatStatement_with E ntf now rs cond stmt τ).bind _ = _
    rw [repeat_visit_pos E ntf now rs cond stmt τ (j + 1) hτ hj, if_neg (Nat.succ_ne_zero j)]
    show _ = (now stmt (set_ctrl rs (j + 1) τ)).bind _
    apply Outcome.bind_congr
    intro a ha
    exact ih a (by rw [hnow _ a ha, set_ctrl_self]) (by omega)

/-- C20. For a RepeatStatement visited at cursor 0 when its count expression
is worth `k`, with `k + 1` within the range of the cursor, and provided what is
dispatched leaves the cursor of the statement alone: the `k + 1` successive
visits are `k` dispatches of the body, one in each of the first `k` visits,
followed in visit `k + 1` by one notify of the statement with the cursor back at
0. The count expression is read only by the visit at cursor 0: a visit at another
cursor is the same whatever the count expression, and the dispatched body may
change the evaluator's values at will. -/
theorem C20_repeat_count [Inhabited B] (E : Evaluate S B)
    (ntf : NodeId → SwLogic S B → SwLogic S B)
    (now : NodeId → SwLogic S B → Outcome (SwLogic S B)) (rs cond stmt : NodeId)
    (hnow : ∀ τ a, now stmt τ = .ok a → a.ctrl_ rs = τ.ctrl_ rs)
    (σ : SwLogic S B) (k : Nat) (h0 : σ.ctrl_ rs = 0)
    (hk : E.to_int (E.get_value σ.store cond) = k) (hov : k + 1 < SIZE_MOD) :
    successive (visit_RepeatStatement_with E ntf now rs cond stmt) (k + 1) σ =
      repeat_spec ntf now rs stmt k σ ∧
    (∀ (τ : SwLogic S B) (other : NodeId), τ.ctrl_ rs ≠ 0 →
      visit_RepeatStatement_with E ntf now rs cond stmt τ =
        visit_RepeatStatement_with E ntf now rs other stmt τ) ∧
    (∀ (M : Module) (fuel : Nat) (τ : SwLogic S B), M.node rs = .RepeatStatement cond stmt →
      schedule_now M E (fuel + 1) rs τ =
        visit_RepeatStatement_with E (notify M) (schedule_now M E fuel) rs cond stmt τ) := by
  have hmod : (k + 1) % SIZE_MOD = k + 1 := Nat.mod_eq_of_lt hov
  have hfirst : visit_RepeatStatement_with E ntf now rs cond stmt σ =
      if k = 0 then .ok (ntf rs (set_ctrl rs 0 σ)) else now stmt (set_ctrl rs k σ) := by
    unfold visit_RepeatStatement_with
    simp only [if_pos h0, set_ctrl_self, hk, hmod]
    rw [dec_mod (k + 1) (by omega) hov, Nat.add_sub_cancel, set_ctrl_set_ctrl]
    by_cases hz : k = 0
    · subst hz
      simp
    · rw [if_neg hz, if_neg hz]
  refine ⟨?_, ?_, ?_⟩
  · cases k with
    | zero =>
      rw [successive_one, hfirst]
      rfl
    | succ j =>
      show (visit_RepeatStatement_with E ntf now rs cond stmt σ).bind _ = _
      rw [hfirst, if_neg (Nat.succ_ne_zero j)]
      show _ = (now stmt (set_ctrl rs (j + 1) σ)).bind _
      apply Outcome.bind_congr
      intro a ha
      exact repeat_from E ntf now rs cond stmt hnow j a
        (by rw [hnow _ a ha, set_ctrl_self]) (by omega)
  · intro τ other hτ
    unfold visit_RepeatStatement_with
    simp only [if_neg hτ]
  · intro M fuel τ hnode
    unfold schedule_now
    rw [hnode]
    rfl

theorem C20_repeat_count_witness :
    (successive (visit_RepeatStatement_with demo_eval log_ntf log_now 60 61 62) 4
        { demo_init with store := fun _ => [3] }).get?.map (fun σ => (σ.iface, σ.ctrl_ 60)) =
      some ([.finish 62, .finish 62, .finish 62, .display "notify", .finish 60], 0) :=
  ((C20_repeat_count demo_eval log_ntf log_now 60 61 62
    (fun _ _ h => Outcome.ok_inj h ▸ rfl) { demo_init with store := fun _ => [3] } 3 rfl rfl
    (by decide)).1).symm ▸ rfl

/-- C15 fails on the code: in scenario S4, with the notify of each statement
waking the statement that encloses it, `resync()` and `evaluate()` display "a"
and "b" and then come to rest with nothing on the active queue and nothing to
update, the par block stuck at cursor 1 and the sequential block at cursor 1:
both displays completed inside the first visit of the par block, their two
notifies put the par block on the queue once, and its one later visit counted
one completion. Further `evaluate()` and `update()` calls display nothing
more: "c" is never displayed. -/
theorem C15_join_loses_a_completion :
    run_ops par_module text_eval 20 [.resync, .evaluate] demo_init = .ok par_evaluated ∧
    par_evaluated.iface = [.display "a", .display "b"] ∧
    par_evaluated.active_ = [] ∧ par_evaluated.updates_ = [] ∧
    par_evaluated.ctrl_ 32 = 1 ∧ par_evaluated.ctrl_ 31 = 1 ∧
    (run_ops par_module text_eval 20 [.update, .evaluate, .update, .evaluate]
        par_evaluated).get?.map (fun σ => (σ.iface, σ.active_, σ.ctrl_ 32)) =
      some ([.display "a", .display "b"], [], 1) :=
  ⟨rfl, rfl, rfl, rfl, rfl, rfl, rfl⟩

end Statements

/-! ## The cycle operations -/

section Cycle

variable {S B : Type}

theorem writes_closed [Inhabited B] (E : Evaluate S B) (L : List (NodeId × VId)) :
    CycleClosed E (fun σ : SwLogic S B => σ.writes_ = L) where
  sched := by
    intro σ n h
    unfold schedule_active
    split <;> exact h
  ctrl := fun _ _ _ h => h
  store := fun _ _ h => h
  capture := by
    intro σ r lhs rhs σ1 h _ hc
    rw [(capture_ok hc).2]
    exact h
  task := fun _ _ h _ => h
  pop := fun _ _ _ h _ => h
  tasks := fun _ _ h => h
  silent := fun _ _ h => h
  log := fun _ _ h => h
  clear := fun _ h => h

theorem drain_writes [Inhabited B] (M : Module) (E : Evaluate S B) (fuel : Nat)
    (σ σ1 : SwLogic S B) (h : drain M E fuel σ = .ok σ1) : σ1.writes_ = σ.writes_ :=
  drain_keeps M E (fun τ => τ.writes_ = σ.writes_) (writes_closed E σ.writes_).toStepClosed
    (fun _ _ _ h _ => h) fuel σ σ1 rfl h

theorem flush_loop_writes (M : Module) (E : Evaluate S B) (todo i : Nat)
    (σ σ1 : SwLogic S B) (h : flush_loop M E i todo σ = .ok σ1) : σ1.writes_ = σ.writes_ :=
  flush_loop_keeps M E (fun τ => τ.writes_ = σ.writes_)
    (fun τ n h => by unfold schedule_active; split <;> exact h) (fun _ _ h => h)
    todo i σ σ1 rfl h

/-- C16. `set_write` appends to the writes list, so the list is in the order of
registration, duplicates included. `evaluate()`, once the drain of the active
queue has returned, appends to the log of `Interface` calls exactly one
`write(vid, value)` per entry of the writes list, in the order of the list, each
with the value the identifier has at that moment, and changes nothing else;
`update()` does the same after its flush and its drain. -/
theorem C16_output_emission [Inhabited B] (M : Module) (E : Evaluate S B) :
    (∀ (regs : List (NodeId × VId)) (σ : SwLogic S B),
      (regs.foldl (fun s p => set_write p.1 p.2 s) σ).writes_ = σ.writes_ ++ regs) ∧
    (∀ (fuel : Nat) (σ σ1 : SwLogic S B), evaluate M E fuel σ = .ok σ1 →
      ∃ σd, drain M E fuel { σ with there_were_tasks_ := false } = .ok σd ∧
        σd.active_ = [] ∧ σ1.store = σd.store ∧ σ1.writes_ = σ.writes_ ∧
        σ1.iface = σd.iface ++
          σ.writes_.map (fun o => IfaceCall.write_value o.2 (E.get_value σ1.store o.1))) ∧
    (∀ (fuel : Nat) (σ σ1 : SwLogic S B), update M E fuel σ = .ok σ1 →
      ∃ σf σd, update_flush M E σ = .ok σf ∧
        drain M E fuel { σf with there_were_tasks_ := false } = .ok σd ∧
        σd.active_ = [] ∧ σ1.store = σd.store ∧ σ1.writes_ = σ.writes_ ∧
        σ1.iface = σd.iface ++
          σ.writes_.map (fun o => IfaceCall.write_value o.2 (E.get_value σ1.store o.1))) := by
  refine ⟨?_, ?_, ?_⟩
  · intro regs
    induction regs with
    | nil => intro σ; simp
    | cons p regs ih =>
      intro σ
      rw [List.foldl_cons, ih]
      simp [set_write]
  · intro fuel σ σ1 h
    simp only [evaluate, Outcome.bind_eq_ok] at h
    obtain ⟨σd, hd, hb⟩ := h
    have hb := Outcome.ok_inj hb
    rw [write_outputs_eq] at hb
    subst hb
    have hw : σd.writes_ = σ.writes_ := by
      have := drain_writes M E fuel _ σd hd
      exact this
    exact ⟨σd, hd, drain_empties M E fuel _ σd hd, rfl, hw, by simp only [hw]⟩
  · intro fuel σ σ1 h
    simp only [update, Outcome.bind_eq_ok] at h
    obtain ⟨σf, hf, σd, hd, hb⟩ := h
    have hb := Outcome.ok_inj hb
    rw [write_outputs_eq] at hb
    subst hb
    have hwf : σf.writes_ = σ.writes_ := by
      simp only [update_flush, Outcome.bind_eq_ok] at hf
      obtain ⟨c, hc, hcf⟩ := hf
      have := Outcome.ok_inj hcf
      subst this
      exact flush_loop_writes M E _ _ σ c hc
    have hw : σd.writes_ = σ.writes_ := by
      have := drain_writes M E fuel _ σd hd
      exact this.trans hwf
    exact ⟨σf, σd, hf, hd, drain_empties M E fuel _ σd hd, rfl, hw, by simp only [hw]⟩

theorem C16_output_emission_witness :
    evaluate demo_module demo_eval 20 demo_ready = .ok demo_evaluated ∧
    demo_evaluated.iface = [.display "[0]", .write_value 0 0] ∧
    ∃ σd, drain demo_module demo_eval 20 { demo_ready with there_were_tasks_ := false }
        = .ok σd ∧
      σd.active_ = [] ∧ demo_evaluated.store = σd.store ∧
      demo_evaluated.writes_ = demo_ready.writes_ ∧
      demo_evaluated.iface = σd.iface ++ demo_ready.writes_.map
        (fun o => IfaceCall.write_value o.2 (demo_eval.get_value demo_evaluated.store o.1)) :=
  ⟨rfl, rfl,
    (C16_output_emission demo_module demo_eval).2.1 20 demo_ready demo_evaluated rfl⟩

theorem silent_frame_closed [Inhabited B] (E : Evaluate S B) (σ0 : SwLogic S B) :
    StepClosed E (fun σ : SwLogic S B => σ.silent_ = true ∧ σ.updates_ = σ0.updates_ ∧
      σ.update_pool_ = σ0.update_pool_ ∧ σ.iface = σ0.iface ∧
      σ.there_were_tasks_ = σ0.there_were_tasks_) where
  sched := by
    intro σ n h
    unfold schedule_active
    split <;> exact h
  ctrl := fun _ _ _ h => h
  store := fun _ _ h => h
  capture := by
    intro σ r lhs rhs σ1 h hs _
    rw [h.1] at hs
    exact absurd hs (by simp)
  task := by
    intro σ c h hs
    rw [h.1] at hs
    exact absurd hs (by simp)

/-- The visits of the initial constructs at the end of `resync`. -/
theorem schedule_initials [Inhabited B] (M : Module) (E : Evaluate S B) (fuel : Nat) :
    ∀ (L : List NodeId) (σ : SwLogic S B),
      (∀ mi ∈ L, is_InitialConstruct (M.node mi) = true) →
      schedule_all (schedule_now M E (fuel + 1)) L σ =
        .ok (L.foldl (fun s mi => initial_step M mi s) σ) := by
  intro L
  induction L with
  | nil => intro σ _; rfl
  | cons mi L ih =>
    intro σ hL
    have hmi := hL mi (List.mem_cons_self _ _)
    have hstep : schedule_now M E (fuel + 1) mi σ = .ok (initial_step M mi σ) := by
      unfold schedule_now initial_step
      revert hmi
      cases hnode : M.node mi with
      | InitialConstruct ign stmt =>
        intro _
        simp only [visit_InitialConstruct]
        by_cases hi : ign = some "true"
        · simp [hi]
        · have : ign = none ∨ ign ≠ some "true" := Or.inr hi
          rw [if_pos this, if_neg hi]
      | _ => intro hmi; simp [is_InitialConstruct] at hmi
    simp only [schedule_all, hstep, Outcome.bind, List.foldl_cons]
    exact ih _ (fun m hm => hL m (List.mem_cons_of_mem _ hm))

theorem initial_step_frame (M : Module) (mi : NodeId) (σ : SwLogic S B) :
    (initial_step M mi σ).silent_ = σ.silent_ ∧ (initial_step M mi σ).updates_ = σ.updates_ ∧
    (initial_step M mi σ).iface = σ.iface ∧ (initial_step M mi σ).store = σ.store ∧
    (initial_step M mi σ).ctrl_ = σ.ctrl_ := by
  unfold initial_step
  split
  · split
    · exact ⟨rfl, rfl, rfl, rfl, rfl⟩
    · unfold schedule_active
      split <;> exact ⟨rfl, rfl, rfl, rfl, rfl⟩
  · exact ⟨rfl, rfl, rfl, rfl, rfl⟩

/-- C17. When `resync()` returns: the always constructs and continuous
assignments were dispatched and the inputs notified first; the drain of the
active queue then ran with silent mode on and returned with the update buffer,
the pool, the log of `Interface` calls and `there_were_tasks_` exactly as it
found them; silent mode was turned off; and only then were the initial
constructs visited, each one not marked `__ignore=true` putting its child
statement on the active queue and nothing else, so that no statement of an
initial construct ran inside `resync()`. Silent mode is off on return. -/
theorem C17_resync_silence [Inhabited B] (M : Module) (E : Evaluate S B) (fuel : Nat)
    (σ σ1 : SwLogic S B) (h : resync M E fuel σ = .ok σ1) :
    ∃ σa σb : SwLogic S B,
      schedule_all (schedule_now M E fuel)
        (M.items.filter (fun mi => is_always_or_continuous (M.node mi))) σ = .ok σa ∧
      drain M E fuel
        { M.inputs.foldl (fun s l => notify M l s) σa with silent_ := true } = .ok σb ∧
      σb.silent_ = true ∧ σb.active_ = [] ∧ σb.updates_ = σa.updates_ ∧
      σb.update_pool_ = σa.update_pool_ ∧ σb.iface = σa.iface ∧
      σb.there_were_tasks_ = σa.there_were_tasks_ ∧
      σ1 = (M.items.filter (fun mi => is_InitialConstruct (M.node mi))).foldl
        (fun s mi => initial_step M mi s) { σb with silent_ := false } ∧
      σ1.silent_ = false ∧ σ1.updates_ = σb.updates_ ∧ σ1.iface = σb.iface ∧
      σ1.store = σb.store ∧ σ1.ctrl_ = σb.ctrl_ := by
  simp only [resync, resync_drain, Outcome.bind_eq_ok] at h
  obtain ⟨σa, ha, b, ⟨σb, hb, hbb⟩, h1⟩ := h
  have hbb := Outcome.ok_inj hbb
  subst hbb
  have hin : ∀ (ls : List NodeId) (τ : SwLogic S B),
      (ls.foldl (fun s l => notify M l s) τ).updates_ = τ.updates_ ∧
      (ls.foldl (fun s l => notify M l s) τ).update_pool_ = τ.update_pool_ ∧
      (ls.foldl (fun s l => notify M l s) τ).iface = τ.iface ∧
      (ls.foldl (fun s l => notify M l s) τ).there_were_tasks_ = τ.there_were_tasks_ := by
    intro ls
    induction ls with
    | nil => intro τ; exact ⟨rfl, rfl, rfl, rfl⟩
    | cons l ls ih =>
      intro τ
      obtain ⟨i1, i2, i3, i4⟩ := ih (notify M l τ)
      simp only [List.foldl_cons]
      exact ⟨i1.trans (notify_updates M l τ), i2.trans (notify_pool M l τ),
        i3.trans (notify_iface M l τ), i4.trans (notify_tasks M l τ)⟩
  obtain ⟨n1, n2, n3, n4⟩ := hin M.inputs σa
  have hframe := drain_keeps M E _
    (silent_frame_closed E
      { M.inputs.foldl (fun s l => notify M l s) σa with silent_ := true })
    (fun _ _ _ h _ => h) fuel _ σb ⟨rfl, rfl, rfl, rfl, rfl⟩ hb
  obtain ⟨f1, f2, f3, f4, f5⟩ := hframe
  have hfuel : ∃ k, fuel = k + 1 := by
    cases fuel with
    | zero => simp [drain] at hb
    | succ k => exact ⟨k, rfl⟩
  obtain ⟨k, hk⟩ := hfuel
  subst hk
  rw [schedule_initials M E k _ _ (fun mi hmi => (List.mem_filter.mp hmi).2)] at h1
  have h1 := (Outcome.ok_inj h1).symm
  have hfold : ∀ (L : List NodeId) (τ : SwLogic S B),
      (L.foldl (fun s mi => initial_step M mi s) τ).silent_ = τ.silent_ ∧
      (L.foldl (fun s mi => initial_step M mi s) τ).updates_ = τ.updates_ ∧
      (L.foldl (fun s mi => initial_step M mi s) τ).iface = τ.iface ∧
      (L.foldl (fun s mi => initial_step M mi s) τ).store = τ.store ∧
      (L.foldl (fun s mi => initial_step M mi s) τ).ctrl_ = τ.ctrl_ := by
    intro L
    induction L with
    | nil => intro τ; exact ⟨rfl, rfl, rfl, rfl, rfl⟩
    | cons mi L ih =>
      intro τ
      obtain ⟨i1, i2, i3, i4, i5⟩ := ih (initial_step M mi τ)
      obtain ⟨j1, j2, j3, j4, j5⟩ := initial_step_frame M mi τ
      simp only [List.foldl_cons]
      exact ⟨i1.trans j1, i2.trans j2, i3.trans j3, i4.trans j4, i5.trans j5⟩
  obtain ⟨g1, g2, g3, g4, g5⟩ := hfold
    (M.items.filter (fun mi => is_InitialConstruct (M.node mi))) { σb with silent_ := false }
  refine ⟨σa, σb, ha, hb, f1, drain_empties M E _ _ σb hb, f2.trans n1, f3.trans n2,
    f4.trans n3, f5.trans n4, h1, ?_, ?_, ?_, ?_, ?_⟩
  · rw [h1]; exact g1
  · rw [h1]; exact g2
  · rw [h1]; exact g3
  · rw [h1]; exact g4
  · rw [h1]; exact g5

theorem C17_resync_silence_witness :
    resync demo_module demo_eval 20 demo_init = .ok demo_resynced ∧
    demo_resynced.active_ = [9] ∧ demo_resynced.iface = [] ∧ demo_resynced.ctrl_ 9 = 0 ∧
    demo_resynced.silent_ = false :=
  ⟨rfl, rfl, rfl, rfl,
    (C17_resync_silence demo_module demo_eval 20 demo_init demo_resynced rfl).elim
      (fun _ h => h.elim (fun _ h => h.2.2.2.2.2.2.2.2.2.1))⟩

theorem PoolInv.covers {σ : SwLogic S B} (h : PoolInv σ) : PoolCovers σ := by
  obtain ⟨⟨k, hk⟩, hle⟩ := h
  refine ⟨?_, hle⟩
  rw [hk]
  exact Nat.pos_pow_of_pos k (by decide)

/-- A capture keeps the pool a power of two that covers the buffer, and does
not shrink it. -/
theorem capture_pool [Inhabited B] (E : Evaluate S B) (r lhs rhs : NodeId) (σ : SwLogic S B)
    (h : PoolInv σ) :
    ∃ σ1, capture E r lhs rhs σ = .ok σ1 ∧ σ1.updates_.length = σ.updates_.length + 1 ∧
      σ.updates_.length < σ1.update_pool_.length ∧
      σ.update_pool_.length ≤ σ1.update_pool_.length ∧ PoolInv σ1 := by
  have hlt := grown_pool_covers σ h.covers
  obtain ⟨⟨k, hk⟩, hle⟩ := h
  have hcap : capture E r lhs rhs σ = .ok
      { σ with
        updates_ := σ.updates_ ++ [(r, E.dereference σ.store r lhs)],
        update_pool_ := List.set (grown_pool σ) σ.updates_.length (E.get_value σ.store rhs) } := by
    unfold capture
    simp only [hlt, if_true]
  have hgrow : (grown_pool σ).length = 2 ^ k ∨ (grown_pool σ).length = 2 ^ (k + 1) := by
    unfold grown_pool
    split
    · right
      rw [resize_length, hk, Nat.pow_succ]
      omega
    · left
      exact hk
  have hmono : σ.update_pool_.length ≤ (grown_pool σ).length := by
    unfold grown_pool
    split
    · rw [resize_length]; omega
    · exact le_refl _
  refine ⟨_, hcap, by simp, by simpa using hlt, by simpa using hmono, ?_, ?_⟩
  · rcases hgrow with hg | hg
    · exact ⟨k, by simpa using hg⟩
    · exact ⟨k + 1, by simpa using hg⟩
  · simp only [List.length_append, List.length_singleton, List.length_set]
    omega

theorem pool_closed [Inhabited B] (E : Evaluate S B) (L : Nat) :
    CycleClosed E (fun σ : SwLogic S B => PoolInv σ ∧ L ≤ σ.update_pool_.length) where
  sched := by
    intro σ n h
    unfold schedule_active
    split <;> exact h
  ctrl := fun _ _ _ h => h
  store := fun _ _ h => h
  capture := by
    intro σ r lhs rhs σ1 h _ hc
    obtain ⟨σ2, h2, _, _, hmono, hinv⟩ := capture_pool E r lhs rhs σ h.1
    rw [hc] at h2
    have := Outcome.ok_inj h2
    subst this
    exact ⟨hinv, le_trans h.2 hmono⟩
  task := fun _ _ h _ => h
  pop := fun _ _ _ h _ => h
  tasks := fun _ _ h => h
  silent := fun _ _ h => h
  log := fun _ _ h => h
  clear := by
    intro σ h
    exact ⟨⟨h.1.1, Nat.zero_le _⟩, h.2⟩

theorem op_pool [Inhabited B] (M : Module) (E : Evaluate S B) (fuel : Nat) (op : Op B)
    (σ σ1 : SwLogic S B) (h : PoolInv σ) (hr : op.run M E fuel σ = .ok σ1) :
    PoolInv σ1 ∧ σ.update_pool_.length ≤ σ1.update_pool_.length := by
  have hc := cycle_keeps M E _ (pool_closed E σ.update_pool_.length) fuel σ σ1
    ⟨h, le_refl _⟩
  cases op with
  | set_read id w => exact Outcome.ok_inj hr ▸ ⟨h, le_refl _⟩
  | set_write id vid => exact Outcome.ok_inj hr ▸ ⟨h, le_refl _⟩
  | set_state id vid => exact Outcome.ok_inj hr ▸ ⟨h, le_refl _⟩
  | set_state_from s => exact Outcome.ok_inj hr ▸ ⟨h, le_refl _⟩
  | read vid b => exact hc.1 vid b hr
  | evaluate => exact hc.2.1 hr
  | update => exact hc.2.2.1 hr
  | resync => exact hc.2.2.2 hr

theorem flush_in_order_pool (M : Module) (E : Evaluate S B) (σ : SwLogic S B) :
    (flush_in_order M E σ).update_pool_ = σ.update_pool_ := by
  unfold flush_in_order
  generalize pending σ = es
  induction es generalizing σ with
  | nil => rfl
  | cons e es ih =>
    rw [List.foldl_cons, ih]
    unfold flush_entry
    rw [notify_pool]

/-- C18. The freshly constructed interpreter has a pool of length 1 and an
empty buffer. From then on, through every public operation and every visit, and
so through every sequence of captures and flushes, the length of the pool is a
power of two, never goes down, and is at least the length of the buffer. In such
a state a capture returns (its index is in range): it writes at the index `idx`
equal to the old length of the buffer, which is below the length of the pool it
leaves; and the flush of `update()` returns (its indices are in range), empties
the buffer and leaves the pool as it is. -/
theorem C18_update_pool_bounds [Inhabited B] (M : Module) (E : Evaluate S B) :
    (∀ (store : S) (silent tasks : Bool),
      (SwLogic.init store silent tasks : SwLogic S B).update_pool_.length = 1 ∧
      (SwLogic.init store silent tasks : SwLogic S B).updates_ = [] ∧
      PoolInv (SwLogic.init store silent tasks : SwLogic S B)) ∧
    (∀ (fuel : Nat) (op : Op B) (σ σ1 : SwLogic S B), PoolInv σ →
      op.run M E fuel σ = .ok σ1 →
      PoolInv σ1 ∧ σ.update_pool_.length ≤ σ1.update_pool_.length) ∧
    (∀ (fuel : Nat) (n : NodeId) (σ σ1 : SwLogic S B), PoolInv σ →
      schedule_now M E fuel n σ = .ok σ1 →
      PoolInv σ1 ∧ σ.update_pool_.length ≤ σ1.update_pool_.length) ∧
    (∀ (r lhs rhs : NodeId) (σ : SwLogic S B), PoolInv σ →
      ∃ σ1, capture E r lhs rhs σ = .ok σ1 ∧ σ1.updates_.length = σ.updates_.length + 1 ∧
        σ.updates_.length < σ1.update_pool_.length ∧
        σ.update_pool_.length ≤ σ1.update_pool_.length ∧ PoolInv σ1) ∧
    (∀ σ : SwLogic S B, PoolInv σ →
      ∃ σ1, update_flush M E σ = .ok σ1 ∧ σ1.updates_ = [] ∧
        σ1.update_pool_ = σ.update_pool_) ∧
    (∀ (fuel : Nat) (steps : List (NodeId ⊕ Op B)) (store : S) (silent tasks : Bool)
      (σ1 : SwLogic S B),
      run_steps M E fuel steps (SwLogic.init store silent tasks) = .ok σ1 →
      (∃ k : Nat, σ1.update_pool_.length = 2 ^ k) ∧ 1 ≤ σ1.update_pool_.length ∧
      σ1.updates_.length ≤ σ1.update_pool_.length) := by
  have h0 : ∀ (store : S) (silent tasks : Bool),
      PoolInv (SwLogic.init store silent tasks : SwLogic S B) := by
    intro store silent tasks
    exact ⟨⟨0, by simp [SwLogic.init, resize]⟩, by simp [SwLogic.init]⟩
  refine ⟨?_, op_pool M E, ?_, capture_pool E, ?_, ?_⟩
  · intro store silent tasks
    exact ⟨by simp [SwLogic.init, resize], by simp [SwLogic.init], h0 store silent tasks⟩
  · intro fuel n σ σ1 h hr
    exact schedule_now_keeps M E _ (pool_closed E σ.update_pool_.length).toStepClosed
      fuel n σ σ1 ⟨h, le_refl _⟩ hr
  · intro σ h
    refine ⟨_, update_flush_eq M E σ h.2, rfl, ?_⟩
    exact flush_in_order_pool M E σ
  · intro fuel steps store silent tasks σ1 hr
    have hrun : ∀ (steps : List (NodeId ⊕ Op B)) (τ τ1 : SwLogic S B), PoolInv τ →
        run_steps M E fuel steps τ = .ok τ1 → PoolInv τ1 := by
      intro steps
      induction steps with
      | nil => intro τ τ1 h hr; exact Outcome.ok_inj hr ▸ h
      | cons st steps ih =>
        intro τ τ1 h hr
        cases st with
        | inl n =>
          obtain ⟨a, ha, hb⟩ := Outcome.bind_eq_ok.mp hr
          exact ih _ _ (schedule_now_keeps M E _
            (pool_closed E τ.update_pool_.length).toStepClosed fuel n τ a
            ⟨h, le_refl _⟩ ha).1 hb
        | inr op =>
          obtain ⟨a, ha, hb⟩ := Outcome.bind_eq_ok.mp hr
          exact ih _ _ (op_pool M E fuel op τ a h ha).1 hb
    have hinv := hrun steps _ σ1 (h0 store silent tasks) hr
    exact ⟨hinv.1, hinv.covers.1, hinv.2⟩

theorem C18_update_pool_bounds_witness :
    PoolInv demo_evaluated ∧
    Op.run demo_module demo_eval 20 Op.update demo_evaluated = .ok demo_updated ∧
    (PoolInv demo_updated ∧
      demo_evaluated.update_pool_.length ≤ demo_updated.update_pool_.length) :=
  ⟨⟨⟨0, rfl⟩, by decide⟩, rfl,
    (C18_update_pool_bounds demo_module demo_eval).2.1 20 Op.update demo_evaluated
      demo_updated ⟨⟨0, rfl⟩, by decide⟩ rfl⟩

end Cycle

/-! ## The for statement -/

section ForLoop

variable {S B : Type}

theorem Outcome.bind_assoc {α β γ : Type} (x : Outcome α) (f : α → Outcome β)
    (g : β → Outcome γ) : (x.bind f).bind g = x.bind (fun a => (f a).bind g) := by
  cases x <;> rfl

/-- A visit of a for statement at cursor 0: the init, then the test. -/
theorem for_visit_zero (E : Evaluate S B) (ntf : NodeId → SwLogic S B → SwLogic S B)
    (now : NodeId → SwLogic S B → Outcome (SwLogic S B)) (fs init cond update stmt : NodeId)
    (σ : SwLogic S B) (h : σ.ctrl_ fs = 0) :
    visit_ForStatement_with E ntf now fs init cond update stmt σ =
      (now init (set_ctrl fs 1 σ)).bind (for_test_with E ntf now fs cond stmt) := by
  unfold visit_ForStatement_with
  rw [if_pos h]

/-- A visit of a for statement at cursor 1: the test alone. -/
theorem for_visit_one (E : Evaluate S B) (ntf : NodeId → SwLogic S B → SwLogic S B)
    (now : NodeId → SwLogic S B → Outcome (SwLogic S B)) (fs init cond update stmt : NodeId)
    (σ : SwLogic S B) (h : σ.ctrl_ fs = 1) :
    visit_ForStatement_with E ntf now fs init cond update stmt σ =
      for_test_with E ntf now fs cond stmt σ := by
  unfold visit_ForStatement_with
  rw [if_neg (by rw [h]; exact one_ne_zero), if_pos h]

/-- A visit of a for statement at cursor 2: the update, then the dispatch of
the statement itself. -/
theorem for_visit_two (E : Evaluate S B) (ntf : NodeId → SwLogic S B → SwLogic S B)
    (now : NodeId → SwLogic S B → Outcome (SwLogic S B)) (fs init cond update stmt : NodeId)
    (σ : SwLogic S B) (h : σ.ctrl_ fs = 2) :
    visit_ForStatement_with E ntf now fs init cond update stmt σ =
      (now update (set_ctrl fs 1 σ)).bind (now fs) := by
  unfold visit_ForStatement_with
  rw [if_neg (by rw [h]; decide), if_neg (by rw [h]; decide)]

/-- From a test on, with the condition true on exactly its first `j`
evaluations: the test and the `j` visits after it are the `j` rounds of body and
update and then the notify. -/
theorem for_rounds_from (E : Evaluate S B) (ntf : NodeId → SwLogic S B → SwLogic S B)
    (now nested : NodeId → SwLogic S B → Outcome (SwLogic S B))
    (fs init cond update stmt : NodeId)
    (hupd : ∀ τ a, now update τ = .ok a → a.ctrl_ fs = τ.ctrl_ fs)
    (hnested : ∀ τ a, nested stmt τ = .ok a → a.ctrl_ fs = τ.ctrl_ fs)
    (hself : ∀ τ, now fs τ = visit_ForStatement_with E ntf nested fs init cond update stmt τ) :
    ∀ (j : Nat) (d : NodeId → SwLogic S B → Outcome (SwLogic S B)) (τ : SwLogic S B),
      (∀ τ a, d stmt τ = .ok a → a.ctrl_ fs = τ.ctrl_ fs) →
      true_on_first E now nested fs cond update stmt d j τ = true →
      (for_test_with E ntf d fs cond stmt τ).bind
          (successive (visit_ForStatement_with E ntf now fs init cond update stmt) j) =
        for_rounds_spec ntf now nested fs update stmt d j τ := by
  intro j
  induction j with
  | zero =>
    intro d τ _ hk
    simp only [true_on_first, Bool.not_eq_true'] at hk
    unfold for_test_with
    rw [if_pos hk]
    rfl
  | succ j ih =>
    intro d τ hd hk
    simp only [true_on_first, Bool.and_eq_true] at hk
    obtain ⟨hc, hrest⟩ := hk
    have hv : for_test_with E ntf d fs cond stmt τ = d stmt (set_ctrl fs 2 τ) := by
      unfold for_test_with
      rw [if_neg (by rw [hc]; exact Bool.noConfusion)]
    rw [hv]
    show _ = (d stmt (set_ctrl fs 2 τ)).bind _
    apply Outcome.bind_congr
    intro a ha
    simp only [ha] at hrest
    have hca : a.ctrl_ fs = 2 := by rw [hd _ a ha, set_ctrl_self]
    show (visit_ForStatement_with E ntf now fs init cond update stmt a).bind _ = _
    rw [for_visit_two E ntf now fs init cond update stmt a hca, Outcome.bind_assoc]
    apply Outcome.bind_congr
    intro b hb
    simp only [hb] at hrest
    have hcb : b.ctrl_ fs = 1 := by rw [hupd _ b hb, set_ctrl_self]
    rw [hself b, for_visit_one E ntf nested fs init cond update stmt b hcb]
    exact ih nested b hnested hrest

/-- The rounds of a for statement end with the notify of the statement, at
cursor 0. -/
theorem for_rounds_end (ntf : NodeId → SwLogic S B → SwLogic S B)
    (now nested : NodeId → SwLogic S B → Outcome (SwLogic S B)) (fs update stmt : NodeId) :
    ∀ (j : Nat) (d : NodeId → SwLogic S B → Outcome (SwLogic S B)) (σ a : SwLogic S B),
      for_rounds_spec ntf now nested fs update stmt d j σ = .ok a →
      ∃ τ : SwLogic S B, τ.ctrl_ fs = 0 ∧ a = ntf fs τ := by
  intro j
  induction j with
  | zero =>
    intro d σ a h
    exact ⟨set_ctrl fs 0 σ, set_ctrl_self fs 0 σ, (Outcome.ok_inj h).symm⟩
  | succ j ih =>
    intro d σ a h
    obtain ⟨b, _, hb⟩ := Outcome.bind_eq_ok.mp h
    obtain ⟨c, _, hc⟩ := Outcome.bind_eq_ok.mp hb
    exact ih nested c a hc

/-- In scenario S3 the dispatch of the init, of the update and of the display
leaves the cursor of the for statement alone. -/
theorem for_module_parts (fuel : Nat) (n : NodeId) (τ a : SwLogic DemoStore Nat)
    (hn : n = 72 ∨ n = 74 ∨ n = 75)
    (h : schedule_now for_module for_eval (fuel + 1) n τ = .ok a) :
    a.ctrl_ 71 = τ.ctrl_ 71 := by
  rcases hn with rfl | rfl | rfl
  · have h1 := Outcome.ok_inj h
    rw [← h1]
    exact congrFun (notify_ctrl for_module 76 _) 71
  · have h1 := Outcome.ok_inj h
    rw [← h1]
    exact congrFun (notify_ctrl for_module 76 _) 71
  · have hd : schedule_now for_module for_eval (fuel + 1) 75 τ =
        visit_DisplayStatement for_module for_eval 75 [79, 76] τ := rfl
    rw [hd] at h
    unfold visit_DisplayStatement at h
    split at h
    · rw [← Outcome.ok_inj h]
      exact congrFun (notify_ctrl for_module 75 _) 71
    · rw [← Outcome.ok_inj h]
      exact congrFun (notify_ctrl for_module 75 _) 71

/-- C21. For a ForStatement visited at cursor 0 whose condition is true on
exactly its first `k` evaluations, and provided the dispatch of the init, of the
update and of the body leaves the cursor of the statement alone: the `k + 1`
successive visits (the entry and one visit after each body) are the dispatch of
the init, then `k` rounds of body and update, in that order, the condition being
read after the init and after every update, and after the false evaluation one
notify of the statement with the cursor back at 0, which the notify leaves there.
The dispatch the statement makes on itself after an update is its own visit, run
by `schedule_now` with one unit of fuel less. In scenario S3, from a cold start
in which `i` is 76, `resync()` and `evaluate()` make exactly three display calls,
with "0", "1" and "2" in that order, and leave the queue empty and the cursor
at 0. -/
theorem C21_for_stepping [Inhabited B] (E : Evaluate S B)
    (ntf : NodeId → SwLogic S B → SwLogic S B)
    (now nested : NodeId → SwLogic S B → Outcome (SwLogic S B))
    (fs init cond update stmt : NodeId)
    (hnow : ∀ n τ a, n = init ∨ n = update ∨ n = stmt → now n τ = .ok a →
      a.ctrl_ fs = τ.ctrl_ fs)
    (hnested : ∀ τ a, nested stmt τ = .ok a → a.ctrl_ fs = τ.ctrl_ fs)
    (hself : ∀ τ, now fs τ = visit_ForStatement_with E ntf nested fs init cond update stmt τ)
    (σ : SwLogic S B) (k : Nat) (h0 : σ.ctrl_ fs = 0)
    (hk : cond_true_on_first E now nested fs init cond update stmt k σ = true) :
    successive (visit_ForStatement_with E ntf now fs init cond update stmt) (k + 1) σ =
      for_spec ntf now nested fs init update stmt k σ ∧
    (∀ a, for_spec ntf now nested fs init update stmt k σ = .ok a →
      ∃ τ : SwLogic S B, τ.ctrl_ fs = 0 ∧ a = ntf fs τ) ∧
    (∀ (M : Module) (fuel : Nat) (τ : SwLogic S B),
      M.node fs = .ForStatement init cond update stmt →
      schedule_now M E (fuel + 1) fs τ =
        visit_ForStatement_with E (notify M) (schedule_now M E fuel) fs init cond update stmt τ ∧
      (notify M fs τ).ctrl_ fs = τ.ctrl_ fs) ∧
    (run_ops for_module for_eval 20 [.resync, .evaluate] demo_numbered).get?.map
        (fun σ => (σ.iface, σ.active_, σ.ctrl_ 71)) =
      some ([.display "0", .display "1", .display "2"], [], 0) := by
  refine ⟨?_, ?_, ?_, rfl⟩
  · show (visit_ForStatement_with E ntf now fs init cond update stmt σ).bind _ = _
    rw [for_visit_zero E ntf now fs init cond update stmt σ h0, Outcome.bind_assoc]
    unfold for_spec
    apply Outcome.bind_congr
    intro a ha
    unfold cond_true_on_first at hk
    simp only [ha] at hk
    exact for_rounds_from E ntf now nested fs init cond update stmt
      (fun τ a h => hnow update τ a (Or.inr (Or.inl rfl)) h) hnested hself k now a
      (fun τ a h => hnow stmt τ a (Or.inr (Or.inr rfl)) h) hk
  · intro a h
    unfold for_spec at h
    obtain ⟨b, _, hb⟩ := Outcome.bind_eq_ok.mp h
    exact for_rounds_end ntf now nested fs update stmt k now b a hb
  · intro M fuel τ hnode
    refine ⟨?_, by rw [notify_ctrl]⟩
    unfold schedule_now
    rw [hnode]
    rfl

theorem C21_for_stepping_witness :
    demo_numbered.ctrl_ 71 = 0 ∧
    cond_true_on_first for_eval (schedule_now for_module for_eval 2)
      (schedule_now for_module for_eval 1) 71 72 73 74 75 3 demo_numbered = true ∧
    (successive (visit_ForStatement_with for_eval (notify for_module)
        (schedule_now for_module for_eval 2) 71 72 73 74 75) 4 demo_numbered).get?.map
        (fun σ => (σ.iface, σ.ctrl_ 71)) =
      some ([.display "0", .display "1", .display "2"], 0) :=
  ⟨rfl, rfl,
    ((C21_for_stepping for_eval (notify for_module) (schedule_now for_module for_eval 2)
      (schedule_now for_module for_eval 1) 71 72 73 74 75
      (fun n τ a hn h => for_module_parts 1 n τ a hn h)
      (fun τ a h => for_module_parts 0 75 τ a (Or.inr (Or.inr rfl)) h)
      (fun _ => rfl) demo_numbered 3 rfl rfl).1).symm ▸ rfl⟩

end ForLoop

end cascade
